import Mathlib

/-!
Shallow embedding of the halloc allocator (src/src/malloc.c, 64-bit layout)
together with proofs about the claims of the specification.

Modelling conventions, each noted again at the definition it concerns:
* Addresses and sizes are Nat.  The C fields are uint32_t bitfields
  (size: 28 bits) and size_t; every state reached in this development keeps
  all sizes far below 2^28 and all addresses in range, so the truncations
  are not modelled; where a wraparound is load bearing (the header read of
  free/realloc at pointer minus 4 for a nil pointer) the model maps the
  address outside every block, exactly as the wrapped address 2^64-4 is
  outside every mapping.
* A Region is one boundary-tagged region: header metadata, footer metadata
  and the payload bytes in between (data i is the byte at addr+4+i).
  The free-list links of free regions live in the freeLists field of the
  enclosing Block, mirroring the linked lists of the C.
* The page provider (libhalloc_alloc of linux.c, an mmap wrapper) is
  modelled as a bump source of fresh page-aligned zero-filled memory plus a
  script of failures: mmap never returns overlapping live mappings, fresh
  anonymous pages read as zero, and munmap-ed ranges are simply dropped.
* Reads of raw bytes that are not tracked metadata (the stale-byte guard in
  FreeRegion_split) decode the payload bytes of the covering region; bytes
  covered by no region decode as zero.
-/

namespace Halloc

/-- PAGE_SIZE of malloc.c. -/
def PAGE_SIZE : Nat := 4096

/-- MINIMUM_REGION_SIZE of malloc.c. -/
def MINIMUM_REGION_SIZE : Nat := 16

/-- FREE_BLOCKS_SETS of malloc.c. -/
def FREE_BLOCKS_SETS : Nat := 6

/-- LARGE_FREE_BLOCK_INDEX of malloc.c. -/
def LARGE_FREE_BLOCK_INDEX : Nat := FREE_BLOCKS_SETS - 1

/-- sizeof(AllocMetadata_t): a 4 byte header or footer word. -/
def sizeofAllocMetadata : Nat := 4

/-- sizeof(FreeRegionHeader_t) on x86-64: metadata 4 + reserved 4 + next 8 +
previous 8 = 24 bytes. -/
def sizeofFreeRegionHeader : Nat := 24

/-- sizeof(BlockHeader_t) on x86-64: pages 4 + size 4 + usedSize 4 +
4 padding + next 8 + previous 8 + 6 pointers 48 = 80 bytes. -/
def sizeofBlockHeader : Nat := 80

/-- REGION_OVERHEAD_SIZE of malloc.c: header plus footer. -/
def REGION_OVERHEAD_SIZE : Nat := 2 * sizeofAllocMetadata

/-- AllocMetadata_t as the allocator writes it: the 4-bit used field is
always written 0 or 1, modelled as Bool; size is the 28-bit size field. -/
structure Meta where
  used : Bool
  size : Nat
deriving DecidableEq

/-- A raw 4-byte metadata word as read back from memory: arbitrary bytes may
carry any 4-bit used value, not only 0 and 1. -/
structure RawMeta where
  used4 : Nat
  size : Nat
deriving DecidableEq

/-- Reading back metadata the allocator itself wrote. -/
def rawOfMeta (m : Meta) : RawMeta :=
  { used4 := if m.used then 1 else 0, size := m.size }

/-- The 32-bit word of a metadata record: used in the low 4 bits, size in
the upper 28 (little-endian bitfield layout of gcc on x86-64). -/
def metaWord (m : Meta) : Nat :=
  (if m.used then 1 else 0) + 16 * m.size

/-- Byte j (little endian) of the metadata word; used to model the stale
metadata bytes that remain inside a coalesced free region. -/
def metaByte (m : Meta) (j : Nat) : Nat :=
  metaWord m / 256 ^ j % 256

/-- Decoding a 32-bit word into a raw metadata record. -/
def rawMetaOfWord (w : Nat) : RawMeta :=
  { used4 := w % 16, size := w / 16 % 2 ^ 28 }

/-- Assembling a 32-bit word from 4 bytes, little endian. -/
def wordOfBytes (b0 b1 b2 b3 : Nat) : Nat :=
  b0 % 256 + 256 * (b1 % 256) + 65536 * (b2 % 256) + 16777216 * (b3 % 256)

/-- One boundary-tagged region of a block: the header AllocMetadata_t at
addr, the footer at addr + hdr.size - 4, and the payload bytes in between
(data i is the byte at address addr + 4 + i).  The next and previous links
that a free region overlays on its payload are modelled by membership of
addr in the freeLists of the enclosing Block. -/
structure Region where
  addr : Nat
  hdr : Meta
  ftr : Meta
  data : Nat → Nat

/-- BlockHeader_t: one OS extent.  freeRegions becomes freeLists, a list of
6 lists of region header addresses; the linked-list order of the C is the
list order here. -/
structure Block where
  addr : Nat
  pages : Nat
  size : Nat
  usedSize : Nat
  freeLists : List (List Nat)
  regions : List Region

/-- The global allocator state: blockList (in linked-list order),
emptyBlockOverheadSize, and the page-provider model (nextAddr is the next
fresh page-aligned address mmap will return; osFail is the script of
failures of upcoming mmap calls, an empty script meaning success). -/
structure AState where
  blocks : List Block
  emptyBlockOverheadSize : Nat
  nextAddr : Nat
  osFail : List Bool

/-- toFreeListIndex of malloc.c.  (The C copies size into a uint32_t; all
sizes in this development are far below 2^32, so the cast is dropped.) -/
def toFreeListIndex (size : Nat) : Nat :=
  if size ≤ 32 then 0
  else if size ≤ 64 then 1
  else if size ≤ 128 then 2
  else if size ≤ 256 then 3
  else if size ≤ 512 then 4
  else 5

/-- FreeRegion_getSizeForAlignment of malloc.c.  regionEndAddress is a
uint32_t in the C; only its value mod 16 is used and 2^32 is a multiple of
16, so the truncation is invisible and dropped. -/
def FreeRegion_getSizeForAlignment (originalAddr size : Nat) : Nat :=
  let freeRegionMinimumSize := sizeofFreeRegionHeader + sizeofAllocMetadata
  let freeMetadataPaddingAmount :=
    if size ≥ freeRegionMinimumSize then 0
    else freeRegionMinimumSize - size % freeRegionMinimumSize
  let regionAlignment := 16
  let regionEndAddress :=
    originalAddr + size + freeMetadataPaddingAmount + sizeofAllocMetadata
  let alignmentPaddingAmount := regionAlignment - regionEndAddress % regionAlignment
  size + freeMetadataPaddingAmount + alignmentPaddingAmount

/-- FreeRegion_create of malloc.c: write a fresh free header at start and
copy it to the footer at start + size - 4.  The data parameter supplies the
payload bytes already present at that place in memory. -/
def FreeRegion_create (start size : Nat) (data : Nat → Nat) : Region :=
  { addr := start
    hdr := { used := false, size := size }
    ftr := { used := false, size := size }
    data := data }

/-- Reading the 4 bytes at absolute address a inside region r: the header
word at addr, the footer word at addr + size - 4, or 4 payload bytes
decoded as a metadata word. -/
def regionRawRead (r : Region) (a : Nat) : RawMeta :=
  if a = r.addr then rawOfMeta r.hdr
  else if a = r.addr + r.hdr.size - sizeofAllocMetadata then rawOfMeta r.ftr
  else
    let o := a - (r.addr + sizeofAllocMetadata)
    rawMetaOfWord (wordOfBytes (r.data o) (r.data (o + 1)) (r.data (o + 2)) (r.data (o + 3)))

/-- FreeRegion_split of malloc.c.  Returns the rewritten original region
(now of the aligned size) and the splinter, if one was created.  The C
first rewrites the original via FreeRegion_create, then reads the raw
metadata at newFreeAddr (stale payload bytes of the original free region)
and bails out if its used field is exactly 1, then bails out if the
splinter would be too small for its own free-region metadata. -/
def FreeRegion_split (original : Region) (size : Nat) : Region × Option Region :=
  let originalAddr := original.addr
  let alignedSize := FreeRegion_getSizeForAlignment originalAddr size
  let newFreeAddr := originalAddr + alignedSize
  let newFreeSize := original.hdr.size - alignedSize
  let head := FreeRegion_create originalAddr alignedSize original.data
  if (regionRawRead original newFreeAddr).used4 = 1 then (head, none)
  else if newFreeSize < sizeofFreeRegionHeader + sizeofAllocMetadata then (head, none)
  else
    (head, some (FreeRegion_create newFreeAddr newFreeSize
      (fun i => original.data (alignedSize + i))))

/-- The insertion walk shared by BlockList_addBlockToList and
Block_addRegionToFreeList: starting at the list head, advance aux while
(aux.next is not nil and item < aux.next), then link item after aux.
(Note the comparison: this is the walk exactly as the C writes it.) -/
def addrListInsertTail (item : Nat) : List Nat → List Nat
  | [] => [item]
  | [a] => [a, item]
  | a :: b :: rest =>
    if item < b then a :: addrListInsertTail item (b :: rest)
    else a :: item :: b :: rest

/-- Address-ordered list insertion of Block_addRegionToFreeList: prepend
when the head is greater than item, otherwise run the walk. -/
def addrListInsert (item : Nat) (l : List Nat) : List Nat :=
  match l with
  | [] => [item]
  | a :: rest => if item < a then item :: a :: rest else addrListInsertTail item (a :: rest)

/-- The same insertion walk for the block list, comparing block start
addresses (the C compares the BlockHeader_t pointers themselves). -/
def blockInsertTail (item : Block) : List Block → List Block
  | [] => [item]
  | [a] => [a, item]
  | a :: b :: rest =>
    if item.addr < b.addr then a :: blockInsertTail item (b :: rest)
    else a :: item :: b :: rest

/-- BlockList_addBlockToList of malloc.c (the nil-item early return is
handled at the call sites, which only pass real blocks). -/
def BlockList_addBlockToList (list : List Block) (item : Block) : List Block :=
  match list with
  | [] => [item]
  | a :: rest => if item.addr < a.addr then item :: a :: rest else blockInsertTail item (a :: rest)

/-- BlockList_removeBlockFromList of malloc.c: unlink the first block with
the given start address. -/
def BlockList_removeBlockFromList (list : List Block) (itemAddr : Nat) : List Block :=
  match list with
  | [] => []
  | a :: rest =>
    if a.addr = itemAddr then rest
    else a :: BlockList_removeBlockFromList rest itemAddr

/-- The region of b whose header is at address a, if any. -/
def findRegion (b : Block) (a : Nat) : Option Region :=
  b.regions.find? (fun r => r.addr == a)

/-- Reading the 4 raw bytes at address a inside block b: find the region
covering a and read inside it.  Bytes of the block covered by no region
(the block header and orphaned slack) are untracked and decode as zero;
no theorem below depends on a read at such an address. -/
def Block_rawRead (b : Block) (a : Nat) : RawMeta :=
  match b.regions.find? (fun r => decide (r.addr ≤ a ∧ a < r.addr + r.hdr.size)) with
  | some r => regionRawRead r a
  | none => { used4 := 0, size := 0 }

/-- Rewrite the region of b whose header is at address a. -/
def updateRegion (b : Block) (a : Nat) (f : Region → Region) : Block :=
  { b with regions := b.regions.map (fun r => if r.addr = a then f r else r) }

/-- The i-th free list of b (freeRegions[i] of the C). -/
def getFreeList (b : Block) (i : Nat) : List Nat :=
  b.freeLists.getD i []

/-- Replace the i-th free list of b. -/
def setFreeList (b : Block) (i : Nat) (l : List Nat) : Block :=
  { b with freeLists := b.freeLists.set i l }

/-- Block_addRegionToFreeList of malloc.c: a nil item or a zero size is a
no-op; otherwise insert the address into the list of its size class using
the address-ordered insertion above.  The size is read through the header
at the item address. -/
def Block_addRegionToFreeList (b : Block) (item : Option Nat) : Block :=
  match item with
  | none => b
  | some a =>
    let sz := (Block_rawRead b a).size
    if sz = 0 then b
    else
      let i := toFreeListIndex sz
      setFreeList b i (addrListInsert a (getFreeList b i))

/-- Block_removeRegionFromFreeList of malloc.c: locate the size class from
the size read at the item header, then unlink the first occurrence. -/
def Block_removeRegionFromFreeList (b : Block) (a : Nat) : Block :=
  let i := toFreeListIndex ((Block_rawRead b a).size)
  setFreeList b i ((getFreeList b i).erase a)

/-- Block_isFreeRegion of malloc.c: scan every free list of the block for a
node whose header address or footer address equals addr. -/
def Block_isFreeRegion (b : Block) (addr : Nat) : Bool :=
  b.freeLists.any (fun l => l.any (fun it =>
    let sz := (Block_rawRead b it).size
    it == addr || it + sz - sizeofAllocMetadata == addr))

/-- Block_useRegion of malloc.c: flip the used bit of header and footer of
the free region at a to 1, add its size to usedSize, return its address. -/
def Block_useRegion (b : Block) (a : Nat) : Nat × Block :=
  let sz := (Block_rawRead b a).size
  let b1 := updateRegion b a (fun r =>
    { r with hdr := { r.hdr with used := true }, ftr := { r.ftr with used := true } })
  (a, { b1 with usedSize := b1.usedSize + sz })

/-- Block_freeRegion of malloc.c: flip the used bits of header and footer
to 0, copy the header size into the footer, write nil into the overlay next
and previous links (payload bytes 4 to 19 on x86-64), subtract the size
from usedSize. -/
def Block_freeRegion (b : Block) (a : Nat) : Block :=
  let sz := (Block_rawRead b a).size
  let b1 := updateRegion b a (fun r =>
    { r with
      hdr := { r.hdr with used := false }
      ftr := { used := false, size := r.hdr.size }
      data := fun i => if 4 ≤ i ∧ i < 20 then 0 else r.data i })
  { b1 with usedSize := b1.usedSize - sz }

/-- Block_isFull of malloc.c. -/
def Block_isFull (b : Block) : Bool :=
  b.usedSize == b.size

/-- Block_haveUserAllocations of malloc.c; the global
emptyBlockOverheadSize is passed explicitly. -/
def Block_haveUserAllocations (b : Block) (emptyBlockOverheadSize : Nat) : Bool :=
  decide (b.usedSize > emptyBlockOverheadSize)

/-- Concatenation of the free lists in scan order (class 0 first, each list
front to back), as the two nested loops of Block_canAllocateSize visit
them. -/
def concatLists : List (List Nat) → List Nat
  | [] => []
  | l :: ls => l ++ concatLists ls

/-- Block_canAllocateSize of malloc.c: the first free region, scanning
classes 0 to 5 and each list front to back, whose size strictly exceeds the
aligned size required at its address. -/
def Block_canAllocateSize (b : Block) (size : Nat) : Option Nat :=
  (concatLists b.freeLists).find? (fun it =>
    decide (FreeRegion_getSizeForAlignment it size < (Block_rawRead b it).size))

/-- Block_allocateRegion of malloc.c: find a usable free region, unlink it,
split it, put the splinter (if any) on its free list, mark the head used.
The returned address is the header address of the used region. -/
def Block_allocateRegion (b : Block) (size : Nat) : Option Nat × Block :=
  let regionSize := size + REGION_OVERHEAD_SIZE
  match Block_canAllocateSize b regionSize with
  | none => (none, b)
  | some a =>
    let b1 := Block_removeRegionFromFreeList b a
    match findRegion b1 a with
    | none => (none, b1)
    | some r =>
      let hs := FreeRegion_split r regionSize
      let b2 := { b1 with
        regions := b1.regions.map (fun r0 => if r0.addr = a then hs.1 else r0) }
      let b3 := match hs.2 with
        | none => b2
        | some nf => { b2 with regions := b2.regions ++ [nf] }
      let b4 := Block_addRegionToFreeList b3 (hs.2.map Region.addr)
      let ub := Block_useRegion b4 a
      (some ub.1, ub.2)

/-- Block_coallesceRightSide of malloc.c: absorb the adjacent right free
region into the reference region.  Only the size field of the far footer is
rewritten; its used bit keeps the value the right region left there. -/
def Block_coallesceRightSide (b : Block) (refA rightA : Nat) : Block :=
  let rightSz := (Block_rawRead b rightA).size
  let refSz := (Block_rawRead b refA).size
  let b1 := Block_removeRegionFromFreeList b rightA
  let b2 := Block_removeRegionFromFreeList b1 refA
  match findRegion b refA, findRegion b rightA with
  | some refr, some rr =>
    let newSz := refSz + rightSz
    let merged : Region :=
      { addr := refA
        hdr := { used := refr.hdr.used, size := newSz }
        ftr := { used := rr.ftr.used, size := newSz }
        data := fun i =>
          if i < refSz - 8 then refr.data i
          else if i < refSz - 4 then metaByte refr.ftr (i - (refSz - 8))
          else if i < refSz then metaByte rr.hdr (i - (refSz - 4))
          else rr.data (i - refSz) }
    let b3 := { b2 with
      regions := (b2.regions.filter (fun r => r.addr ≠ rightA)).map
        (fun r => if r.addr = refA then merged else r) }
    Block_addRegionToFreeList b3 (some refA)
  | _, _ => b2

/-- Block_coallesceLeftSide of malloc.c: the left neighbour is located
through the footer word just before the reference region; it absorbs the
reference region. -/
def Block_coallesceLeftSide (b : Block) (refA : Nat) : Block :=
  let leftSz := (Block_rawRead b (refA - sizeofAllocMetadata)).size
  let leftA := refA - leftSz
  let refSz := (Block_rawRead b refA).size
  let b1 := Block_removeRegionFromFreeList b leftA
  let b2 := Block_removeRegionFromFreeList b1 refA
  match findRegion b leftA, findRegion b refA with
  | some lr, some refr =>
    let newSz := lr.hdr.size + refSz
    let merged : Region :=
      { addr := leftA
        hdr := { used := lr.hdr.used, size := newSz }
        ftr := { used := refr.ftr.used, size := newSz }
        data := fun i =>
          if i < lr.hdr.size - 8 then lr.data i
          else if i < lr.hdr.size - 4 then metaByte lr.ftr (i - (lr.hdr.size - 8))
          else if i < lr.hdr.size then metaByte refr.hdr (i - (lr.hdr.size - 4))
          else refr.data (i - lr.hdr.size) }
    let b3 := { b2 with
      regions := (b2.regions.filter (fun r => r.addr ≠ refA)).map
        (fun r => if r.addr = leftA then merged else r) }
    Block_addRegionToFreeList b3 (some leftA)
  | _, _ => b2

/-- Block_coallesceBothSides of malloc.c: the left neighbour absorbs both
the reference region and the right neighbour. -/
def Block_coallesceBothSides (b : Block) (refA rightA : Nat) : Block :=
  let leftSz := (Block_rawRead b (refA - sizeofAllocMetadata)).size
  let leftA := refA - leftSz
  let refSz := (Block_rawRead b refA).size
  let rightSz := (Block_rawRead b rightA).size
  let b1 := Block_removeRegionFromFreeList b leftA
  let b2 := Block_removeRegionFromFreeList b1 rightA
  let b3 := Block_removeRegionFromFreeList b2 refA
  match findRegion b leftA, findRegion b refA, findRegion b rightA with
  | some lr, some refr, some rr =>
    let newSz := lr.hdr.size + refSz + rightSz
    let merged : Region :=
      { addr := leftA
        hdr := { used := lr.hdr.used, size := newSz }
        ftr := { used := rr.ftr.used, size := newSz }
        data := fun i =>
          if i < lr.hdr.size - 8 then lr.data i
          else if i < lr.hdr.size - 4 then metaByte lr.ftr (i - (lr.hdr.size - 8))
          else if i < lr.hdr.size then metaByte refr.hdr (i - (lr.hdr.size - 4))
          else if i < lr.hdr.size + refSz - 8 then refr.data (i - lr.hdr.size)
          else if i < lr.hdr.size + refSz - 4 then
            metaByte refr.ftr (i - (lr.hdr.size + refSz - 8))
          else if i < lr.hdr.size + refSz then
            metaByte rr.hdr (i - (lr.hdr.size + refSz - 4))
          else rr.data (i - (lr.hdr.size + refSz)) }
    let b4 := { b3 with
      regions := (b3.regions.filter (fun r => r.addr ≠ refA ∧ r.addr ≠ rightA)).map
        (fun r => if r.addr = leftA then merged else r) }
    Block_addRegionToFreeList b4 (some leftA)
  | _, _, _ => b3

/-- Block_coallesceFreeRegion of malloc.c: classify the word before the
region and the word after its end through the free-list search, then
dispatch to the matching coalesce case. -/
def Block_coallesceFreeRegion (b : Block) (fA : Nat) : Block :=
  let sz := (Block_rawRead b fA).size
  let prevA := fA - sizeofAllocMetadata
  let nextA := fA + sz
  let prevIsFree := Block_isFreeRegion b prevA
  let nextIsFree := Block_isFreeRegion b nextA
  if prevIsFree then
    if nextIsFree then Block_coallesceBothSides b fA nextA
    else Block_coallesceLeftSide b fA
  else
    if nextIsFree then Block_coallesceRightSide b fA nextA
    else b

/-- Block_deallocateRegion of malloc.c. -/
def Block_deallocateRegion (b : Block) (a : Nat) : Block :=
  let b1 := Block_freeRegion b a
  let b2 := Block_addRegionToFreeList b1 (some a)
  Block_coallesceFreeRegion b2 a

/-- libhalloc_alloc of linux.c, modelled as a bump source of fresh
page-aligned zero memory with a failure script (see the header comment). -/
def libhalloc_alloc (s : AState) (pages : Nat) : Option Nat × AState :=
  match s.osFail with
  | [] => (some s.nextAddr, { s with nextAddr := s.nextAddr + pages * PAGE_SIZE })
  | f :: rest =>
    if f then (none, { s with osFail := rest })
    else (some s.nextAddr,
      { s with osFail := rest, nextAddr := s.nextAddr + pages * PAGE_SIZE })

/-- Block_create of malloc.c: round the needed bytes up to whole pages,
obtain them, lay out the block header and one free region covering the
remainder, placed directly into freeRegions[LARGE_FREE_BLOCK_INDEX].
Fresh anonymous pages read as zero, hence the zero payload. -/
def Block_create (s : AState) (size : Nat) : Option Block × AState :=
  let memorySize := size + sizeofBlockHeader + sizeofFreeRegionHeader + sizeofAllocMetadata
  let pageQuantity := memorySize / PAGE_SIZE + (if memorySize % PAGE_SIZE > 0 then 1 else 0)
  match libhalloc_alloc s pageQuantity with
  | (none, s1) => (none, s1)
  | (some memoryPtr, s1) =>
    let bsize := pageQuantity * PAGE_SIZE
    let blk : Block :=
      { addr := memoryPtr
        pages := pageQuantity
        size := bsize
        usedSize := sizeofBlockHeader
        freeLists := [[], [], [], [], [], [memoryPtr + sizeofBlockHeader]]
        regions := [FreeRegion_create (memoryPtr + sizeofBlockHeader)
          (bsize - sizeofBlockHeader) (fun _ => 0)] }
    (some blk, s1)

/-- createHeapBlock of malloc.c: create a block and perform the synthetic
alignment allocation of 2 pointers (16 bytes on x86-64).  When Block_create
fails the C passes the nil block to Block_allocateRegion, which returns nil
without touching anything. -/
def createHeapBlock (s : AState) (size : Nat) : Option Block × AState :=
  let alignRegionSize := 16
  match Block_create s size with
  | (none, s1) => (none, s1)
  | (some blk, s1) =>
    let ab := Block_allocateRegion blk alignRegionSize
    (some ab.2, s1)

/-- getBlockWithFreeRegion of malloc.c.  The outer none is undefined
behaviour: on the first-ever call, if block creation fails, the C
dereferences the nil block to record emptyBlockOverheadSize.  The inner
Option is the returned block address (none standing for the nil block). -/
def getBlockWithFreeRegion (s : AState) (size : Nat) : Option (Option Nat × AState) :=
  if s.blocks.isEmpty then
    match createHeapBlock s (PAGE_SIZE * 4) with
    | (none, _) => none
    | (some blk, s1) =>
      some (some blk.addr,
        { s1 with
          blocks := BlockList_addBlockToList s1.blocks blk
          emptyBlockOverheadSize := blk.usedSize })
  else
    match s.blocks.find? (fun b =>
      !Block_isFull b && (Block_canAllocateSize b size).isSome) with
    | some b => some (some b.addr, s)
    | none =>
      match createHeapBlock s size with
      | (none, s1) => some (none, s1)
      | (some blk, s1) =>
        some (some blk.addr, { s1 with blocks := BlockList_addBlockToList s1.blocks blk })

/-- getBlockWithRegion of malloc.c: the first block whose address range
contains the given address. -/
def getBlockWithRegion (s : AState) (p : Nat) : Option Nat :=
  (s.blocks.find? (fun b => decide (b.addr ≤ p ∧ p < b.addr + b.size))).map Block.addr

/-- The block of the state with the given start address. -/
def getBlock (s : AState) (a : Nat) : Option Block :=
  s.blocks.find? (fun b => b.addr == a)

/-- Rewrite the block of the state with the given start address. -/
def updateBlock (s : AState) (a : Nat) (f : Block → Block) : AState :=
  { s with blocks := s.blocks.map (fun b => if b.addr = a then f b else b) }

/-- Reading 4 raw bytes at an absolute address: find the block mapping the
address.  Addresses outside every block are unmapped; reading them is
undefined behaviour, modelled as none. -/
def rawReadGlobal (s : AState) (a : Nat) : Option RawMeta :=
  match s.blocks.find? (fun b => decide (b.addr ≤ a ∧ a < b.addr + b.size)) with
  | some b => some (Block_rawRead b a)
  | none => none

/-- The region (of any block) whose header is at address a. -/
def findRegionGlobal (s : AState) (a : Nat) : Option Region :=
  match s.blocks.find? (fun b => decide (b.addr ≤ a ∧ a < b.addr + b.size)) with
  | some b => findRegion b a
  | none => none

/-- Rewrite the region (of whichever block holds it) whose header is at
address a. -/
def updateRegionGlobal (s : AState) (a : Nat) (f : Region → Region) : AState :=
  { s with blocks := s.blocks.map (fun b => updateRegion b a f) }

/-- malloc of malloc.c.  The result is none on undefined behaviour;
otherwise the returned payload pointer (none standing for the nil pointer)
and the new state. -/
def malloc (s : AState) (size : Nat) : Option (Option Nat × AState) :=
  match getBlockWithFreeRegion s size with
  | none => none
  | some (none, s1) => some (none, s1)
  | some (some ba, s1) =>
    match getBlock s1 ba with
    | none => some (none, s1)
    | some b =>
      let ab := Block_allocateRegion b size
      let s2 := updateBlock s1 ba (fun _ => ab.2)
      match ab.1 with
      | none => some (none, s2)
      | some a => some (some (a + sizeofAllocMetadata), s2)

/-- free of malloc.c.  The header at pointer - 4 is read before any nil
test; for the nil pointer the C address wraps to 2^64 - 4, outside every
mapping, and the Nat model address 0 - 4 = 0 is likewise below every block;
either way the read is undefined behaviour (none).  If the used field reads
0 the call returns silently; then the enclosing block is located by address
range (a miss returns silently); the region is deallocated and the block is
returned to the OS if no user allocations remain. -/
def free (s : AState) (p : Nat) : Option AState :=
  let hA := p - sizeofAllocMetadata
  match rawReadGlobal s hA with
  | none => none
  | some m =>
    if m.used4 = 0 then some s
    else
      match getBlockWithRegion s p with
      | none => some s
      | some ba =>
        match getBlock s ba with
        | none => some s
        | some b =>
          let b1 := Block_deallocateRegion b hA
          let s1 := updateBlock s ba (fun _ => b1)
          if Block_haveUserAllocations b1 s1.emptyBlockOverheadSize then some s1
          else some { s1 with blocks := BlockList_removeBlockFromList s1.blocks ba }

/-- realloc of malloc.c.  The header at pointer - 4 is read (to initialise
payloadLength) before the nil test, exactly as the C declarations do; then:
nil falls back to malloc, an equal payload length returns the pointer
unchanged, otherwise allocate-copy-free. -/
def realloc (s : AState) (p size : Nat) : Option (Option Nat × AState) :=
  let hA := p - sizeofAllocMetadata
  match rawReadGlobal s hA with
  | none => none
  | some m =>
    let payloadLength := m.size - 2 * sizeofAllocMetadata
    if p = 0 then malloc s size
    else if payloadLength = size then some (some p, s)
    else
      let copyLength := if size < payloadLength then size else payloadLength
      match malloc s size with
      | none => none
      | some (none, s1) => some (none, s1)
      | some (some np, s1) =>
        let srcData := match findRegionGlobal s1 hA with
          | some r => r.data
          | none => fun _ => 0
        let s2 := updateRegionGlobal s1 (np - sizeofAllocMetadata) (fun r =>
          { r with data := fun i => if i < copyLength then srcData i else r.data i })
        match free s2 p with
        | none => none
        | some s3 => some (some np, s3)

/-- calloc of malloc.c: nil on a zero size, otherwise malloc num * size
(no overflow check), read the payload length back from the header, zero the
whole payload. -/
def calloc (s : AState) (num size : Nat) : Option (Option Nat × AState) :=
  if size = 0 then some (none, s)
  else
    match malloc s (num * size) with
    | none => none
    | some (none, s1) => some (none, s1)
    | some (some p, s1) =>
      match rawReadGlobal s1 (p - sizeofAllocMetadata) with
      | none => none
      | some hm =>
        let payloadLength := hm.size - 2 * sizeofAllocMetadata
        let s2 := updateRegionGlobal s1 (p - sizeofAllocMetadata) (fun r =>
          { r with data := fun i => if i < payloadLength then 0 else r.data i })
        some (some p, s2)

/-- The returned pointer of a public call (none when the call itself is
undefined behaviour, some none for a nil return). -/
def retOf : Option (Option Nat × AState) → Option (Option Nat)
  | none => none
  | some rs => some rs.1

/-- The state after a public call (none on undefined behaviour). -/
def stOf : Option (Option Nat × AState) → Option AState
  | none => none
  | some rs => some rs.2

/-! ## Well-formedness

The inductive invariant of reachable allocator states used by the proofs.
It is deliberately decidable so that concrete states can be checked by
decide. -/

/-- Two regions occupy disjoint byte intervals. -/
def regionDisjoint (r1 r2 : Region) : Prop :=
  r1.addr + r1.hdr.size ≤ r2.addr ∨ r2.addr + r2.hdr.size ≤ r1.addr

/-- A region is well formed inside its block: at least the minimum
free-region footprint (24 byte free header + 4 byte footer), header and
footer in agreement, and within the block after the block header. -/
def WFregion (b : Block) (r : Region) : Prop :=
  sizeofFreeRegionHeader + sizeofAllocMetadata ≤ r.hdr.size ∧
  r.hdr = r.ftr ∧
  b.addr + sizeofBlockHeader ≤ r.addr ∧
  r.addr + r.hdr.size ≤ b.addr + b.size

/-- A free-list entry of class i names a free region of that size class
whose payload is 16-byte aligned (header address 12 mod 16). -/
def WFfreeEntry (b : Block) (i a : Nat) : Prop :=
  a % 16 = 12 ∧
  ∃ r ∈ b.regions, r.addr = a ∧ r.hdr.used = false ∧ toFreeListIndex r.hdr.size = i

/-- Well-formedness of one block. -/
def WFblock (b : Block) : Prop :=
  b.freeLists.length = 6 ∧
  PAGE_SIZE ≤ b.size ∧
  (∀ r ∈ b.regions, WFregion b r) ∧
  b.regions.Pairwise regionDisjoint ∧
  ∀ i ∈ List.range 6, (getFreeList b i).Nodup ∧ ∀ a ∈ getFreeList b i, WFfreeEntry b i a

/-- Two blocks occupy disjoint address ranges. -/
def blockDisjoint (b1 b2 : Block) : Prop :=
  b1.addr + b1.size ≤ b2.addr ∨ b2.addr + b2.size ≤ b1.addr

/-- Well-formedness of an allocator state: every block well formed, blocks
pairwise disjoint, every block page-aligned, at or above the first page and
below the bump frontier of the page-provider model, which itself stays page
aligned. -/
def WF (s : AState) : Prop :=
  (∀ b ∈ s.blocks, WFblock b) ∧
  s.blocks.Pairwise blockDisjoint ∧
  (∀ b ∈ s.blocks, b.addr % PAGE_SIZE = 0 ∧ PAGE_SIZE ≤ b.addr ∧
    b.addr + b.size ≤ s.nextAddr) ∧
  s.nextAddr % PAGE_SIZE = 0 ∧ PAGE_SIZE ≤ s.nextAddr

/-- Header and footer of every region of every live block agree. -/
def HdrFtrAgree (s : AState) : Prop :=
  ∀ b ∈ s.blocks, ∀ r ∈ b.regions, r.hdr = r.ftr

/-- HdrFtrAgree lifted over undefined behaviour. -/
def AgreeOpt : Option AState → Prop
  | none => True
  | some s => HdrFtrAgree s

/-- Every region of every live block has size at least 16 bytes. -/
def Min16 (s : AState) : Prop :=
  ∀ b ∈ s.blocks, ∀ r ∈ b.regions, MINIMUM_REGION_SIZE ≤ r.hdr.size

/-- Min16 lifted over undefined behaviour. -/
def Min16Opt : Option AState → Prop
  | none => True
  | some s => Min16 s

/-- WF lifted over undefined behaviour. -/
def WFopt : Option AState → Prop
  | none => True
  | some s => WF s

/-- The pointer p is a live allocation: it points just past the header of a
used region of some block. -/
def ValidPtr (s : AState) (p : Nat) : Prop :=
  4 ≤ p ∧
  (findRegionGlobal s (p - 4)).map (fun r => (r.addr, r.hdr.used)) = some (p - 4, true)

/-- The next page request of the script will succeed. -/
def osOk (s : AState) : Prop :=
  s.osFail.headD false = false

instance (r1 r2 : Region) : Decidable (regionDisjoint r1 r2) :=
  inferInstanceAs (Decidable (_ ∨ _))

instance (b : Block) (r : Region) : Decidable (WFregion b r) :=
  inferInstanceAs (Decidable (_ ∧ _ ∧ _ ∧ _))

instance (b : Block) (i a : Nat) : Decidable (WFfreeEntry b i a) :=
  inferInstanceAs (Decidable (_ ∧ ∃ r ∈ b.regions, _ ∧ _ ∧ _))

instance (b : Block) : Decidable (WFblock b) :=
  inferInstanceAs (Decidable (_ ∧ _ ∧ (∀ r ∈ b.regions, _) ∧ List.Pairwise _ _ ∧
    ∀ i ∈ List.range 6, _ ∧ ∀ a ∈ getFreeList b i, _))

instance (b1 b2 : Block) : Decidable (blockDisjoint b1 b2) :=
  inferInstanceAs (Decidable (_ ∨ _))

instance (s : AState) : Decidable (WF s) :=
  inferInstanceAs (Decidable ((∀ b ∈ s.blocks, _) ∧ List.Pairwise _ _ ∧
    (∀ b ∈ s.blocks, _ ∧ _ ∧ _) ∧ _ ∧ _))

instance (s : AState) : Decidable (HdrFtrAgree s) :=
  inferInstanceAs (Decidable (∀ b ∈ s.blocks, ∀ r ∈ b.regions, _))

instance (s : AState) : Decidable (Min16 s) :=
  inferInstanceAs (Decidable (∀ b ∈ s.blocks, ∀ r ∈ b.regions, _))

instance (s : AState) (p : Nat) : Decidable (ValidPtr s p) :=
  inferInstanceAs (Decidable (_ ∧ _))

instance (s : AState) : Decidable (osOk s) :=
  inferInstanceAs (Decidable (_ = _))

/-! ## Concrete states used by witnesses and counterexamples -/

/-- Zero-filled payload bytes. -/
def zeroData : Nat → Nat := fun _ => 0

/-- The empty initial state: no blocks, bump frontier at the first page. -/
def stInit : AState :=
  { blocks := [], emptyBlockOverheadSize := 0, nextAddr := PAGE_SIZE, osFail := [] }

/-- A one-block state as produced by a first allocation and subsequent
free: the synthetic 44-byte bookkeeping region and one big free region. -/
def stOne : AState :=
  { blocks := [
      { addr := 4096, pages := 4, size := 16384, usedSize := 124
        freeLists := [[], [], [], [], [], [4220]]
        regions := [
          { addr := 4176, hdr := ⟨true, 44⟩, ftr := ⟨true, 44⟩, data := zeroData },
          { addr := 4220, hdr := ⟨false, 16260⟩, ftr := ⟨false, 16260⟩, data := zeroData }] }]
    emptyBlockOverheadSize := 124, nextAddr := 20480, osFail := [] }

/-- A one-block state with one live 32-byte user allocation at header 4220
(payload pointer 4224) followed by a big free region. -/
def stLive : AState :=
  { blocks := [
      { addr := 4096, pages := 4, size := 16384, usedSize := 156
        freeLists := [[], [], [], [], [], [4252]]
        regions := [
          { addr := 4176, hdr := ⟨true, 44⟩, ftr := ⟨true, 44⟩, data := zeroData },
          { addr := 4220, hdr := ⟨true, 32⟩, ftr := ⟨true, 32⟩, data := zeroData },
          { addr := 4252, hdr := ⟨false, 16228⟩, ftr := ⟨false, 16228⟩, data := zeroData }] }]
    emptyBlockOverheadSize := 124, nextAddr := 20480, osFail := [] }

/-- A one-block state with no free region at all and a page-provider script
whose next request fails: every allocation from this state fails. -/
def stFull : AState :=
  { blocks := [
      { addr := 4096, pages := 2, size := 8192, usedSize := 156
        freeLists := [[], [], [], [], [], []]
        regions := [
          { addr := 4176, hdr := ⟨true, 44⟩, ftr := ⟨true, 44⟩, data := zeroData },
          { addr := 4220, hdr := ⟨true, 32⟩, ftr := ⟨true, 32⟩, data := zeroData }] }]
    emptyBlockOverheadSize := 124, nextAddr := 12288, osFail := [true] }

/-- A block with a free region of 64 bytes at header address 4220: the
aligned size of a 24-byte payload request inside it is 48, leaving a
16-byte splinter, smaller than the minimum free-region footprint of 28, so
FreeRegion_split returns nil (claim C3). -/
def blkSplit : Block :=
  { addr := 4096, pages := 1, size := 4096, usedSize := 124
    freeLists := [[], [4220], [], [], [], []]
    regions := [
      { addr := 4176, hdr := ⟨true, 44⟩, ftr := ⟨true, 44⟩, data := zeroData },
      { addr := 4220, hdr := ⟨false, 64⟩, ftr := ⟨false, 64⟩, data := zeroData }] }

/-- A bare block record at a given start address (claim C4 insertion). -/
def blkAt (a : Nat) : Block :=
  { addr := a, pages := 1, size := 4096, usedSize := 124
    freeLists := [[], [], [], [], [], []], regions := [] }

/-! ## List utilities -/

theorem addrListInsertTail_perm (item : Nat) :
    ∀ l : List Nat, (addrListInsertTail item l).Perm (item :: l) := by
  intro l
  induction l with
  | nil => simp [addrListInsertTail]
  | cons a t ih =>
    cases t with
    | nil => simpa [addrListInsertTail] using List.Perm.swap item a []
    | cons c rest =>
      by_cases h : item < c
      · have h1 : addrListInsertTail item (a :: c :: rest)
            = a :: addrListInsertTail item (c :: rest) := by
          simp [addrListInsertTail, h]
        rw [h1]
        exact (ih.cons a).trans (List.Perm.swap item a (c :: rest))
      · have h1 : addrListInsertTail item (a :: c :: rest)
            = a :: item :: c :: rest := by
          simp [addrListInsertTail, h]
        rw [h1]
        exact List.Perm.swap item a (c :: rest)

theorem addrListInsert_perm (item : Nat) (l : List Nat) :
    (addrListInsert item l).Perm (item :: l) := by
  cases l with
  | nil => simp [addrListInsert]
  | cons a t =>
    by_cases h : item < a
    · simp [addrListInsert, h]
    · simpa [addrListInsert, h] using addrListInsertTail_perm item (a :: t)

theorem mem_addrListInsert {item x : Nat} {l : List Nat} :
    x ∈ addrListInsert item l ↔ x = item ∨ x ∈ l := by
  rw [List.Perm.mem_iff (addrListInsert_perm item l)]
  simp

theorem nodup_addrListInsert {item : Nat} {l : List Nat}
    (hn : l.Nodup) (hm : item ∉ l) : (addrListInsert item l).Nodup := by
  rw [List.Perm.nodup_iff (addrListInsert_perm item l)]
  exact List.nodup_cons.2 ⟨hm, hn⟩

theorem mem_concatLists {x : Nat} : ∀ {ls : List (List Nat)},
    x ∈ concatLists ls ↔ ∃ l ∈ ls, x ∈ l := by
  intro ls
  induction ls with
  | nil => simp [concatLists]
  | cons l t ih => simp [concatLists, ih]

theorem concatLists_mem_index {x : Nat} : ∀ {ls : List (List Nat)},
    x ∈ concatLists ls → ∃ i, i < ls.length ∧ x ∈ ls.getD i [] := by
  intro ls
  induction ls with
  | nil => simp [concatLists]
  | cons l t ih =>
    intro hx
    rcases List.mem_append.1 (by simpa [concatLists] using hx) with h | h
    · exact ⟨0, by simp, by simpa using h⟩
    · obtain ⟨i, hi, hm⟩ := ih h
      exact ⟨i + 1, by simpa using hi, by simpa using hm⟩

theorem find?_eq_some_of_unique {α : Type} (p : α → Bool) (x : α) :
    ∀ l : List α, x ∈ l → p x = true → (∀ y ∈ l, p y = true → y = x) →
      l.find? p = some x := by
  intro l
  induction l with
  | nil => simp
  | cons a t ih =>
    intro hx hpx huniq
    by_cases hpa : p a = true
    · rw [List.find?_cons_of_pos _ hpa, huniq a (by simp) hpa]
    · have hxt : x ∈ t := by
        rcases List.mem_cons.1 hx with h | h
        · exact absurd (h ▸ hpx) hpa
        · exact h
      rw [List.find?_cons_of_neg _ (by simpa using hpa)]
      exact ih hxt hpx (fun y hy => huniq y (List.mem_cons_of_mem _ hy))

theorem getD_set_self {α : Type} : ∀ (l : List α) (i : Nat) (x d : α),
    i < l.length → (l.set i x).getD i d = x := by
  intro l
  induction l with
  | nil => simp
  | cons a t ih =>
    intro i x d hi
    cases i with
    | zero => simp
    | succ j => simpa using ih j x d (by simpa using hi)

theorem getD_set_ne {α : Type} : ∀ (l : List α) (i j : Nat) (x d : α),
    i ≠ j → (l.set i x).getD j d = l.getD j d := by
  intro l
  induction l with
  | nil => simp
  | cons a t ih =>
    intro i j x d hij
    cases i with
    | zero =>
      cases j with
      | zero => exact absurd rfl hij
      | succ k => simp
    | succ i2 =>
      cases j with
      | zero => simp
      | succ k => simpa using ih i2 k x d (by omega)

theorem sublist_removeBlock (l : List Block) (a : Nat) :
    (BlockList_removeBlockFromList l a).Sublist l := by
  induction l with
  | nil => simp [BlockList_removeBlockFromList]
  | cons b t ih =>
    by_cases h : b.addr = a
    · simp [BlockList_removeBlockFromList, h]
    · simpa [BlockList_removeBlockFromList, h] using ih.cons₂ b

/-! ## Alignment arithmetic -/

theorem getSizeForAlignment_ge (a n : Nat) :
    29 ≤ FreeRegion_getSizeForAlignment a n := by
  unfold FreeRegion_getSizeForAlignment sizeofFreeRegionHeader sizeofAllocMetadata
  dsimp only
  split <;> omega

theorem getSizeForAlignment_gt (a n : Nat) :
    n + 1 ≤ FreeRegion_getSizeForAlignment a n := by
  unfold FreeRegion_getSizeForAlignment sizeofFreeRegionHeader sizeofAllocMetadata
  dsimp only
  split <;> omega

theorem getSizeForAlignment_align (a n : Nat) :
    (a + FreeRegion_getSizeForAlignment a n + 4) % 16 = 0 := by
  unfold FreeRegion_getSizeForAlignment sizeofFreeRegionHeader sizeofAllocMetadata
  dsimp only
  split <;> omega

theorem toFreeListIndex_lt_6 (s : Nat) : toFreeListIndex s < 6 := by
  unfold toFreeListIndex
  repeat' split
  all_goals omega

theorem toFreeListIndex_eq_5 {s : Nat} (h : 512 < s) : toFreeListIndex s = 5 := by
  unfold toFreeListIndex
  repeat' split
  all_goals omega

@[simp] theorem sizeofAllocMetadata_eq : sizeofAllocMetadata = 4 := rfl

@[simp] theorem sizeofFreeRegionHeader_eq : sizeofFreeRegionHeader = 24 := rfl

@[simp] theorem sizeofBlockHeader_eq : sizeofBlockHeader = 80 := rfl

@[simp] theorem REGION_OVERHEAD_SIZE_eq : REGION_OVERHEAD_SIZE = 8 := rfl

@[simp] theorem PAGE_SIZE_eq : PAGE_SIZE = 4096 := rfl

@[simp] theorem MINIMUM_REGION_SIZE_eq : MINIMUM_REGION_SIZE = 16 := rfl

/-! ## Reads and lookups inside a well-formed block -/

theorem wfb_len {b : Block} (hb : WFblock b) : b.freeLists.length = 6 := hb.1

theorem wfb_regionWF {b : Block} (hb : WFblock b) : ∀ r ∈ b.regions, WFregion b r :=
  hb.2.2.1

theorem wfb_size28 {b : Block} (hb : WFblock b) {r : Region} (hr : r ∈ b.regions) :
    28 ≤ r.hdr.size := by
  have := (wfb_regionWF hb r hr).1
  simpa using this

theorem wfb_agree {b : Block} (hb : WFblock b) {r : Region} (hr : r ∈ b.regions) :
    r.hdr = r.ftr :=
  (wfb_regionWF hb r hr).2.1

theorem wfb_bounds {b : Block} (hb : WFblock b) {r : Region} (hr : r ∈ b.regions) :
    b.addr + 80 ≤ r.addr ∧ r.addr + r.hdr.size ≤ b.addr + b.size := by
  have h := (wfb_regionWF hb r hr).2.2
  simpa using h

theorem wfb_disjoint_all {b : Block} (hb : WFblock b) :
    ∀ r1 ∈ b.regions, ∀ r2 ∈ b.regions, r1 ≠ r2 → regionDisjoint r1 r2 := by
  intro r1 h1 r2 h2 hne
  exact List.Pairwise.forall (fun _ _ h => Or.symm h) hb.2.2.2.1 h1 h2 hne

theorem wfb_lists {b : Block} (hb : WFblock b) {i : Nat} (hi : i < 6) :
    (getFreeList b i).Nodup ∧ ∀ a ∈ getFreeList b i, WFfreeEntry b i a :=
  hb.2.2.2.2 i (List.mem_range.2 hi)

theorem wfb_addr_inj {b : Block} (hb : WFblock b) {r1 r2 : Region}
    (h1 : r1 ∈ b.regions) (h2 : r2 ∈ b.regions) (h : r1.addr = r2.addr) : r1 = r2 := by
  by_contra hne
  have hd := wfb_disjoint_all hb r1 h1 r2 h2 hne
  have hs1 := wfb_size28 hb h1
  have hs2 := wfb_size28 hb h2
  unfold regionDisjoint at hd
  omega

theorem covers_unique {b : Block} (hb : WFblock b) {r : Region} (hr : r ∈ b.regions)
    {x : Nat} (h1 : r.addr ≤ x) (h2 : x < r.addr + r.hdr.size) :
    ∀ y ∈ b.regions, y.addr ≤ x → x < y.addr + y.hdr.size → y = r := by
  intro y hy hy1 hy2
  by_contra hne
  have hd := wfb_disjoint_all hb y hy r hr hne
  unfold regionDisjoint at hd
  omega

theorem Block_rawRead_of_mem {b : Block} (hb : WFblock b) {r : Region}
    (hr : r ∈ b.regions) {x : Nat} (h1 : r.addr ≤ x) (h2 : x < r.addr + r.hdr.size) :
    Block_rawRead b x = regionRawRead r x := by
  unfold Block_rawRead
  rw [find?_eq_some_of_unique _ r _ hr (by simp [h1, h2])
    (fun y hy hpy => by
      simp only [decide_eq_true_eq] at hpy
      exact covers_unique hb hr h1 h2 y hy hpy.1 hpy.2)]

theorem Block_rawRead_hdr {b : Block} (hb : WFblock b) {r : Region}
    (hr : r ∈ b.regions) : Block_rawRead b r.addr = rawOfMeta r.hdr := by
  have hs := wfb_size28 hb hr
  rw [Block_rawRead_of_mem hb hr le_rfl (by omega)]
  simp [regionRawRead]

theorem Block_rawRead_ftr {b : Block} (hb : WFblock b) {r : Region}
    (hr : r ∈ b.regions) :
    Block_rawRead b (r.addr + r.hdr.size - 4) = rawOfMeta r.ftr := by
  have hs := wfb_size28 hb hr
  rw [Block_rawRead_of_mem hb hr (by omega) (by omega)]
  unfold regionRawRead
  rw [if_neg (by omega), if_pos (by simp)]

theorem findRegion_eq_some {b : Block} (hb : WFblock b) {r : Region}
    (hr : r ∈ b.regions) : findRegion b r.addr = some r := by
  unfold findRegion
  refine find?_eq_some_of_unique _ r _ hr (by simp) ?_
  intro y hy hpy
  simp only [beq_iff_eq] at hpy
  exact wfb_addr_inj hb hy hr hpy

theorem findRegion_mem {b : Block} {a : Nat} {r : Region}
    (h : findRegion b a = some r) : r ∈ b.regions ∧ r.addr = a := by
  unfold findRegion at h
  refine ⟨List.mem_of_find?_eq_some h, ?_⟩
  have := List.find?_some h
  simpa using this

theorem listed_entry {b : Block} (hb : WFblock b) {i x : Nat} (hi : i < 6)
    (hx : x ∈ getFreeList b i) : WFfreeEntry b i x :=
  (wfb_lists hb hi).2 x hx

theorem listed_concat {b : Block} (hb : WFblock b) {x : Nat}
    (hx : x ∈ concatLists b.freeLists) :
    ∃ i, i < 6 ∧ x ∈ getFreeList b i ∧ WFfreeEntry b i x := by
  obtain ⟨i, hi, hm⟩ := concatLists_mem_index hx
  rw [wfb_len hb] at hi
  exact ⟨i, hi, hm, listed_entry hb hi hm⟩

theorem listed_region {b : Block} (hb : WFblock b) {x : Nat}
    (hx : x ∈ concatLists b.freeLists) :
    x % 16 = 12 ∧ ∃ r ∈ b.regions, r.addr = x ∧ r.hdr.used = false := by
  obtain ⟨i, hi, hm, hmod, r, hr, ha, hu, hidx⟩ := listed_concat hb hx
  exact ⟨hmod, r, hr, ha, hu⟩

theorem getD_mem {α : Type} (d : α) : ∀ (l : List α) (i : Nat),
    i < l.length → l.getD i d ∈ l := by
  intro l
  induction l with
  | nil => simp
  | cons a t ih =>
    intro i hi
    cases i with
    | zero => simp
    | succ j =>
      simp only [List.getD_cons_succ, List.mem_cons]
      exact Or.inr (ih j (by simpa using hi))

theorem mem_getFreeList_concat {b : Block} {i x : Nat} (hlen : b.freeLists.length = 6)
    (hi : i < 6) (hx : x ∈ getFreeList b i) : x ∈ concatLists b.freeLists := by
  rw [mem_concatLists]
  exact ⟨getFreeList b i, getD_mem [] b.freeLists i (by omega), hx⟩

theorem listed_index_unique {b : Block} (hb : WFblock b) {i j x : Nat} (hi : i < 6)
    (hj : j < 6) (hxi : x ∈ getFreeList b i) (hxj : x ∈ getFreeList b j) : i = j := by
  obtain ⟨-, r1, hr1, ha1, -, hidx1⟩ := listed_entry hb hi hxi
  obtain ⟨-, r2, hr2, ha2, -, hidx2⟩ := listed_entry hb hj hxj
  have he : r1 = r2 := wfb_addr_inj hb hr1 hr2 (by rw [ha1, ha2])
  rw [← hidx1, ← hidx2, he]

/-! ## Free-list operations on a block -/

@[simp] theorem setFreeList_regions (b : Block) (i : Nat) (l : List Nat) :
    (setFreeList b i l).regions = b.regions := rfl

@[simp] theorem setFreeList_addr (b : Block) (i : Nat) (l : List Nat) :
    (setFreeList b i l).addr = b.addr := rfl

@[simp] theorem setFreeList_size (b : Block) (i : Nat) (l : List Nat) :
    (setFreeList b i l).size = b.size := rfl

@[simp] theorem setFreeList_usedSize (b : Block) (i : Nat) (l : List Nat) :
    (setFreeList b i l).usedSize = b.usedSize := rfl

@[simp] theorem setFreeList_len (b : Block) (i : Nat) (l : List Nat) :
    (setFreeList b i l).freeLists.length = b.freeLists.length := by
  simp [setFreeList]

theorem getFreeList_set_self {b : Block} {i : Nat} (l : List Nat)
    (h : i < b.freeLists.length) : getFreeList (setFreeList b i l) i = l :=
  getD_set_self b.freeLists i l [] h

theorem getFreeList_set_ne {b : Block} {i j : Nat} (l : List Nat) (h : i ≠ j) :
    getFreeList (setFreeList b i l) j = getFreeList b j :=
  getD_set_ne b.freeLists i j l [] h

theorem removeFromFreeList_eq {b : Block} (hb : WFblock b) {r : Region}
    (hr : r ∈ b.regions) :
    Block_removeRegionFromFreeList b r.addr =
      setFreeList b (toFreeListIndex r.hdr.size)
        ((getFreeList b (toFreeListIndex r.hdr.size)).erase r.addr) := by
  unfold Block_removeRegionFromFreeList
  rw [Block_rawRead_hdr hb hr]
  rfl

theorem addToFreeList_eq {b : Block} (hb : WFblock b) {r : Region}
    (hr : r ∈ b.regions) :
    Block_addRegionToFreeList b (some r.addr) =
      setFreeList b (toFreeListIndex r.hdr.size)
        (addrListInsert r.addr (getFreeList b (toFreeListIndex r.hdr.size))) := by
  have hs := wfb_size28 hb hr
  unfold Block_addRegionToFreeList
  dsimp only
  rw [Block_rawRead_hdr hb hr]
  simp only [rawOfMeta]
  rw [if_neg (by omega)]

theorem WFblock_usedSize {b : Block} (hb : WFblock b) (u : Nat) :
    WFblock { b with usedSize := u } := hb

theorem WFblock_set_erase {b : Block} (hb : WFblock b) {i : Nat} (hi : i < 6)
    (x : Nat) : WFblock (setFreeList b i ((getFreeList b i).erase x)) := by
  obtain ⟨hlen, hsz, hreg, hpw, hlists⟩ := hb
  refine ⟨by simpa using hlen, hsz, hreg, hpw, ?_⟩
  intro j hj
  rcases eq_or_ne i j with h | h
  · subst h
    rw [getFreeList_set_self _ (by omega)]
    obtain ⟨hnd, hent⟩ := hlists i hj
    exact ⟨hnd.erase x, fun a ha => hent a (List.mem_of_mem_erase ha)⟩
  · rw [getFreeList_set_ne _ h]
    exact hlists j hj

theorem WFblock_set_insert {b : Block} (hb : WFblock b) {r : Region}
    (hr : r ∈ b.regions) (hu : r.hdr.used = false) (hmod : r.addr % 16 = 12)
    (hnot : ∀ j, j < 6 → r.addr ∉ getFreeList b j) :
    WFblock (setFreeList b (toFreeListIndex r.hdr.size)
      (addrListInsert r.addr (getFreeList b (toFreeListIndex r.hdr.size)))) := by
  have hidx := toFreeListIndex_lt_6 r.hdr.size
  obtain ⟨hlen, hsz, hreg, hpw, hlists⟩ := hb
  refine ⟨by simpa using hlen, hsz, hreg, hpw, ?_⟩
  intro j hj
  have hj6 : j < 6 := List.mem_range.1 hj
  rcases eq_or_ne (toFreeListIndex r.hdr.size) j with h | h
  · rw [← h] at hj6 ⊢
    rw [getFreeList_set_self _ (by omega)]
    obtain ⟨hnd, hent⟩ := hlists _ (List.mem_range.2 hidx)
    refine ⟨nodup_addrListInsert hnd (hnot _ hidx), ?_⟩
    intro a ha
    rcases mem_addrListInsert.1 ha with ha | ha
    · subst ha
      exact ⟨hmod, r, hr, rfl, hu, rfl⟩
    · exact hent a ha
  · rw [getFreeList_set_ne _ h]
    exact hlists j hj

theorem WFblock_replace_region {b : Block} (hb : WFblock b) {r nr : Region}
    (hr : r ∈ b.regions) (haddr : nr.addr = r.addr) (hsub : nr.hdr.size ≤ r.hdr.size)
    (hs28 : 28 ≤ nr.hdr.size) (hagree : nr.hdr = nr.ftr)
    (hnl : ∀ j, j < 6 → r.addr ∉ getFreeList b j) :
    WFblock { b with
      regions := b.regions.map (fun r0 => if r0.addr = r.addr then nr else r0) } := by
  obtain ⟨hlen, hsz, hreg, hpw, hlists⟩ := hb
  have hb2 : WFblock b := ⟨hlen, hsz, hreg, hpw, hlists⟩
  refine ⟨hlen, hsz, ?_, ?_, ?_⟩
  · intro r0 h0
    obtain ⟨r1, hr1, he⟩ := List.mem_map.1 h0
    by_cases h : r1.addr = r.addr
    · have he2 : r1 = r := wfb_addr_inj hb2 hr1 hr (by rw [h])
      subst he2
      rw [if_pos rfl] at he
      subst he
      obtain ⟨hbd1, hbd2⟩ := wfb_bounds hb2 hr1
      refine ⟨by simpa using hs28, hagree, ?_, ?_⟩
      · show b.addr + sizeofBlockHeader ≤ nr.addr
        simp only [sizeofBlockHeader_eq]
        omega
      · show nr.addr + nr.hdr.size ≤ b.addr + b.size
        omega
    · rw [if_neg h] at he
      subst he
      exact hreg r1 hr1
  · rw [List.pairwise_map]
    refine List.Pairwise.imp_of_mem ?_ hpw
    intro a c ha hc hd
    have hsa := wfb_size28 hb2 ha
    by_cases h1 : a.addr = r.addr
    · have he1 : a = r := wfb_addr_inj hb2 ha hr (by rw [h1])
      by_cases h2 : c.addr = r.addr
      · have he2 : c = a := wfb_addr_inj hb2 hc ha (by rw [h2, h1])
        exfalso
        rw [he2] at hd
        unfold regionDisjoint at hd
        omega
      · simp only [if_pos h1, if_neg h2]
        rw [he1] at hd
        unfold regionDisjoint at hd ⊢
        omega
    · by_cases h2 : c.addr = r.addr
      · have he2 : c = r := wfb_addr_inj hb2 hc hr (by rw [h2])
        simp only [if_neg h1, if_pos h2]
        rw [he2] at hd
        unfold regionDisjoint at hd ⊢
        omega
      · simp only [if_neg h1, if_neg h2]
        exact hd
  · intro j hj
    have hj6 : j < 6 := List.mem_range.1 hj
    obtain ⟨hnd, hent⟩ := hlists j hj
    refine ⟨hnd, ?_⟩
    intro a ha
    obtain ⟨hmod, ra, hra, haa, hua, hia⟩ := hent a ha
    have hne : ra.addr ≠ r.addr := by
      intro h
      have h2 : a = r.addr := by rw [← haa, h]
      have h3 : r.addr ∈ getFreeList b j := by
        rw [← h2]
        exact ha
      exact hnl j hj6 h3
    refine ⟨hmod, ra, ?_, haa, hua, hia⟩
    exact List.mem_map.2 ⟨ra, hra, by rw [if_neg hne]⟩

theorem WFblock_append_region {b : Block} (hb : WFblock b) {nr : Region}
    (hs28 : 28 ≤ nr.hdr.size) (hagree : nr.hdr = nr.ftr)
    (hlo : b.addr + 80 ≤ nr.addr) (hhi : nr.addr + nr.hdr.size ≤ b.addr + b.size)
    (hdisj : ∀ r ∈ b.regions, regionDisjoint r nr) :
    WFblock { b with regions := b.regions ++ [nr] } := by
  obtain ⟨hlen, hsz, hreg, hpw, hlists⟩ := hb
  refine ⟨hlen, hsz, ?_, ?_, ?_⟩
  · intro r0 h0
    rcases List.mem_append.1 h0 with h | h
    · exact hreg r0 h
    · have : r0 = nr := by simpa using h
      subst this
      exact ⟨by simpa using hs28, hagree, by simpa using hlo, hhi⟩
  · rw [List.pairwise_append]
    exact ⟨hpw, List.pairwise_singleton _ _, fun a ha c hc => by
      have : c = nr := by simpa using hc
      subst this
      exact hdisj a ha⟩
  · intro j hj
    obtain ⟨hnd, hent⟩ := hlists j hj
    refine ⟨hnd, ?_⟩
    intro a ha
    obtain ⟨hmod, ra, hra, haa, hua, hia⟩ := hent a ha
    exact ⟨hmod, ra, List.mem_append_left _ hra, haa, hua, hia⟩

/-! ## FreeRegion_split and Block_canAllocateSize -/

theorem split_fst (r : Region) (n : Nat) :
    (FreeRegion_split r n).1 =
      FreeRegion_create r.addr (FreeRegion_getSizeForAlignment r.addr n) r.data := by
  unfold FreeRegion_split
  dsimp only
  repeat' split
  all_goals rfl

theorem split_snd_spec (r : Region) (n : Nat) {nf : Region}
    (h : (FreeRegion_split r n).2 = some nf) :
    nf = FreeRegion_create (r.addr + FreeRegion_getSizeForAlignment r.addr n)
        (r.hdr.size - FreeRegion_getSizeForAlignment r.addr n)
        (fun i => r.data (FreeRegion_getSizeForAlignment r.addr n + i)) ∧
      28 ≤ r.hdr.size - FreeRegion_getSizeForAlignment r.addr n := by
  unfold FreeRegion_split at h
  dsimp only at h
  split at h
  · exact absurd h (by simp)
  · split at h
    · exact absurd h (by simp)
    · rename_i hcond
      simp only [sizeofFreeRegionHeader_eq, sizeofAllocMetadata_eq] at hcond
      refine ⟨by injection h with h2; exact h2.symm, by omega⟩

theorem canAllocateSize_spec {b : Block} (hb : WFblock b) {n a : Nat}
    (h : Block_canAllocateSize b n = some a) :
    ∃ i r, i < 6 ∧ a ∈ getFreeList b i ∧ r ∈ b.regions ∧ r.addr = a ∧
      r.hdr.used = false ∧ toFreeListIndex r.hdr.size = i ∧ a % 16 = 12 ∧
      FreeRegion_getSizeForAlignment a n < r.hdr.size := by
  unfold Block_canAllocateSize at h
  have hmem := List.mem_of_find?_eq_some h
  have hp := List.find?_some h
  obtain ⟨i, hi6, hgi, hmod, r, hr, ha, hu, hidx⟩ := listed_concat hb hmem
  refine ⟨i, r, hi6, hgi, hr, ha, hu, hidx, hmod, ?_⟩
  rw [← ha, Block_rawRead_hdr hb hr] at hp
  rw [← ha]
  simpa [rawOfMeta] using hp

theorem erased_not_listed {b : Block} (hb : WFblock b) {i a : Nat} (hi : i < 6)
    (ha : a ∈ getFreeList b i) :
    ∀ j, j < 6 → a ∉ getFreeList (setFreeList b i ((getFreeList b i).erase a)) j := by
  intro j hj hmem
  rcases eq_or_ne i j with h | h
  · rw [← h] at hmem
    rw [getFreeList_set_self _ (by rw [wfb_len hb]; omega)] at hmem
    exact (wfb_lists hb hi).1.not_mem_erase hmem
  · rw [getFreeList_set_ne _ h] at hmem
    exact h (listed_index_unique hb hi hj ha hmem)

theorem interior_not_listed {b : Block} (hb : WFblock b) {r : Region}
    (hr : r ∈ b.regions) {x : Nat} (hx1 : r.addr < x)
    (hx2 : x < r.addr + r.hdr.size) : ∀ j, j < 6 → x ∉ getFreeList b j := by
  intro j hj hmem
  obtain ⟨-, rx, hrx, hax, -, -⟩ := listed_entry hb hj hmem
  have hsx := wfb_size28 hb hrx
  have hne : rx ≠ r := by
    intro h
    subst h
    omega
  have hd := wfb_disjoint_all hb rx hrx r hr hne
  unfold regionDisjoint at hd
  omega

/-! ## Block_allocateRegion specification -/

theorem updateRegion_eq_replace {b : Block} (hb : WFblock b) {r : Region}
    (hr : r ∈ b.regions) (f : Region → Region) :
    updateRegion b r.addr f =
      { b with
        regions := b.regions.map (fun r0 => if r0.addr = r.addr then f r else r0) } := by
  unfold updateRegion
  congr 1
  apply List.map_congr_left
  intro r0 h0
  by_cases h : r0.addr = r.addr
  · rw [if_pos h, if_pos h, wfb_addr_inj hb h0 hr h]
  · rw [if_neg h, if_neg h]

theorem useRegion_eq {b : Block} (hb : WFblock b) {r : Region} (hr : r ∈ b.regions) :
    Block_useRegion b r.addr =
      (r.addr, { b with
        usedSize := b.usedSize + r.hdr.size,
        regions := b.regions.map (fun r0 => if r0.addr = r.addr then
          { addr := r.addr, hdr := ⟨true, r.hdr.size⟩, ftr := ⟨true, r.ftr.size⟩,
            data := r.data } else r0) }) := by
  unfold Block_useRegion
  dsimp only
  rw [Block_rawRead_hdr hb hr, updateRegion_eq_replace hb hr]
  rfl

theorem useRegion_wf {b : Block} (hb : WFblock b) {r : Region} (hr : r ∈ b.regions)
    (hnl : ∀ j, j < 6 → r.addr ∉ getFreeList b j) :
    WFblock { b with
      usedSize := b.usedSize + r.hdr.size,
      regions := b.regions.map (fun r0 => if r0.addr = r.addr then
        { addr := r.addr, hdr := ⟨true, r.hdr.size⟩, ftr := ⟨true, r.ftr.size⟩,
          data := r.data } else r0) } := by
  have hagree := wfb_agree hb hr
  have h28 : (28 : Nat) ≤ r.hdr.size := wfb_size28 hb hr
  have h := @WFblock_replace_region b hb r
      { addr := r.addr, hdr := ⟨true, r.hdr.size⟩, ftr := ⟨true, r.ftr.size⟩, data := r.data }
    hr rfl le_rfl h28 (by rw [hagree]) hnl
  exact h

theorem allocate_finish {b2 : Block} {hd : Region} {a : Nat} (hb2 : WFblock b2)
    (hhd : hd ∈ b2.regions) (haddr : hd.addr = a)
    (hnl : ∀ j, j < 6 → a ∉ getFreeList b2 j) :
    WFblock (Block_useRegion b2 a).2 ∧
    (Block_useRegion b2 a).2.addr = b2.addr ∧
    (Block_useRegion b2 a).2.size = b2.size ∧
    (Block_useRegion b2 a).1 = a ∧
    (∀ r0 ∈ b2.regions, r0.addr ≠ a → r0 ∈ (Block_useRegion b2 a).2.regions) ∧
    (∃ r2 ∈ (Block_useRegion b2 a).2.regions, r2.addr = a ∧ r2.hdr.used = true) := by
  subst haddr
  rw [useRegion_eq hb2 hhd]
  dsimp only
  refine ⟨useRegion_wf hb2 hhd hnl, rfl, rfl, rfl, ?_, ?_⟩
  · intro r0 h0 hne
    exact List.mem_map.2 ⟨r0, h0, by rw [if_neg hne]⟩
  · refine ⟨{ addr := hd.addr
              hdr := ⟨true, hd.hdr.size⟩
              ftr := ⟨true, hd.ftr.size⟩
              data := hd.data },
      List.mem_map.2 ⟨hd, hhd, by rw [if_pos rfl]⟩, rfl, rfl⟩

theorem allocateRegion_spec {b : Block} (hb : WFblock b) (n : Nat) :
    WFblock (Block_allocateRegion b n).2 ∧
    (Block_allocateRegion b n).2.addr = b.addr ∧
    (Block_allocateRegion b n).2.size = b.size ∧
    (∀ r0 ∈ b.regions, r0.hdr.used = true → r0 ∈ (Block_allocateRegion b n).2.regions) ∧
    (∀ a, (Block_allocateRegion b n).1 = some a →
      a ∈ concatLists b.freeLists ∧
      ∃ r2 ∈ (Block_allocateRegion b n).2.regions, r2.addr = a ∧ r2.hdr.used = true) := by
  rcases hca : Block_canAllocateSize b (n + REGION_OVERHEAD_SIZE) with _ | a
  · have hres : Block_allocateRegion b n = (none, b) := by
      unfold Block_allocateRegion
      dsimp only
      rw [hca]
    rw [hres]
    exact ⟨hb, rfl, rfl, fun r0 h0 _ => h0, fun a h => by cases h⟩
  · obtain ⟨i, r, hi6, hgi, hr, haddr, hu, hidx, hmod, hlt⟩ := canAllocateSize_spec hb hca
    subst haddr
    have hs28r := wfb_size28 hb hr
    obtain ⟨hbd1, hbd2⟩ := wfb_bounds hb hr
    have hA29 : 29 ≤ FreeRegion_getSizeForAlignment r.addr (n + REGION_OVERHEAD_SIZE) :=
      getSizeForAlignment_ge _ _
    have hAmod : (r.addr + FreeRegion_getSizeForAlignment r.addr (n + REGION_OVERHEAD_SIZE)
        + 4) % 16 = 0 := getSizeForAlignment_align _ _
    have husedne : ∀ r0 ∈ b.regions, r0.hdr.used = true → r0.addr ≠ r.addr := by
      intro r0 h0 hused hne
      have he : r0 = r := wfb_addr_inj hb h0 hr hne
      rw [he] at hused
      rw [hused] at hu
      cases hu
    -- short names for the intermediate states of Block_allocateRegion
    obtain ⟨B1, hB1⟩ : ∃ x : Block,
        x = setFreeList b i ((getFreeList b i).erase r.addr) := ⟨_, rfl⟩
    have hrem : Block_removeRegionFromFreeList b r.addr = B1 := by
      rw [hB1, removeFromFreeList_eq hb hr, hidx]
    have hb1wf : WFblock B1 := by
      rw [hB1]
      exact WFblock_set_erase hb hi6 r.addr
    have hr1 : r ∈ B1.regions := by
      rw [hB1]
      exact hr
    have hnl1 : ∀ j, j < 6 → r.addr ∉ getFreeList B1 j := by
      rw [hB1]
      exact erased_not_listed hb hi6 hgi
    have hsubl : ∀ j, j < 6 → ∀ x, x ∈ getFreeList B1 j → x ∈ getFreeList b j := by
      intro j hj x hx
      rw [hB1] at hx
      rcases eq_or_ne i j with h | h
      · subst h
        rw [getFreeList_set_self _ (by rw [wfb_len hb]; omega)] at hx
        exact List.mem_of_mem_erase hx
      · rw [getFreeList_set_ne _ h] at hx
        exact hx
    have hlenB1 : B1.freeLists.length = 6 := by
      rw [hB1, setFreeList_len, wfb_len hb]
    have hfind : findRegion B1 r.addr = some r := findRegion_eq_some hb1wf hr1
    obtain ⟨HD, hHD⟩ : ∃ x : Region,
        x = FreeRegion_create r.addr
          (FreeRegion_getSizeForAlignment r.addr (n + REGION_OVERHEAD_SIZE)) r.data :=
      ⟨_, rfl⟩
    have hsfst : (FreeRegion_split r (n + REGION_OVERHEAD_SIZE)).1 = HD := by
      rw [hHD]
      exact split_fst r _
    have hhdaddr : HD.addr = r.addr := by
      rw [hHD]
      rfl
    have hhdsize : HD.hdr.size
        = FreeRegion_getSizeForAlignment r.addr (n + REGION_OVERHEAD_SIZE) := by
      rw [hHD]
      rfl
    obtain ⟨B2, hB2⟩ : ∃ x : Block,
        x = { B1 with
          regions := B1.regions.map (fun r0 => if r0.addr = r.addr then HD else r0) } :=
      ⟨_, rfl⟩
    have hb2wf : WFblock B2 := by
      rw [hB2]
      refine WFblock_replace_region hb1wf hr1 hhdaddr ?_ ?_ ?_ hnl1
      · rw [hhdsize]
        exact le_of_lt hlt
      · rw [hhdsize]
        omega
      · rw [hHD]
        rfl
    have hheadmem : HD ∈ B2.regions := by
      rw [hB2]
      exact List.mem_map.2 ⟨r, hr1, by rw [if_pos rfl]⟩
    have hpresmap : ∀ r0 ∈ b.regions, r0.addr ≠ r.addr → r0 ∈ B2.regions := by
      intro r0 h0 hne
      rw [hB2]
      refine List.mem_map.2 ⟨r0, ?_, by rw [if_neg hne]⟩
      rw [hB1]
      exact h0
    have hfreeB2 : ∀ j, j < 6 → getFreeList B2 j = getFreeList B1 j := by
      intro j hj
      rw [hB2]
      rfl
    have haddrB2 : B2.addr = b.addr := by
      rw [hB2, hB1]
      rfl
    have hsizeB2 : B2.size = b.size := by
      rw [hB2, hB1]
      rfl
    rcases hsp : (FreeRegion_split r (n + REGION_OVERHEAD_SIZE)).2 with _ | nf
    · -- no splinter: the rewritten head region itself is marked used
      have hnl2 : ∀ j, j < 6 → r.addr ∉ getFreeList B2 j := by
        intro j hj
        rw [hfreeB2 j hj]
        exact hnl1 j hj
      obtain ⟨hwfF, haddrF, hsizeF, hretF, hpresF, hexF⟩ :=
        allocate_finish hb2wf hheadmem hhdaddr hnl2
      have hres : Block_allocateRegion b n =
          (some (Block_useRegion B2 r.addr).1, (Block_useRegion B2 r.addr).2) := by
        unfold Block_allocateRegion
        dsimp only
        rw [hca]
        dsimp only
        rw [hrem, hfind]
        dsimp only
        rw [hsfst, hsp]
        dsimp only [Option.map, Block_addRegionToFreeList]
        rw [← hB2]
      rw [hres]
      dsimp only
      refine ⟨hwfF, by rw [haddrF, haddrB2], by rw [hsizeF, hsizeB2], ?_, ?_⟩
      · intro r0 h0 hused
        exact hpresF r0 (hpresmap r0 h0 (husedne r0 h0 hused)) (husedne r0 h0 hused)
      · intro a0 ha0
        rw [hretF] at ha0
        have ha0e : r.addr = a0 := by
          injection ha0
        subst ha0e
        exact ⟨mem_getFreeList_concat (wfb_len hb) hi6 hgi, hexF⟩
    · -- a splinter region is carved off and inserted into its free list
      obtain ⟨hnfeq, hnf28⟩ := split_snd_spec r (n + REGION_OVERHEAD_SIZE) hsp
      obtain ⟨NF, hNF⟩ : ∃ x : Region,
          x = FreeRegion_create
            (r.addr + FreeRegion_getSizeForAlignment r.addr (n + REGION_OVERHEAD_SIZE))
            (r.hdr.size - FreeRegion_getSizeForAlignment r.addr (n + REGION_OVERHEAD_SIZE))
            (fun i2 => r.data
              (FreeRegion_getSizeForAlignment r.addr (n + REGION_OVERHEAD_SIZE) + i2)) :=
        ⟨_, rfl⟩
      have hsp2 : (FreeRegion_split r (n + REGION_OVERHEAD_SIZE)).2 = some NF := by
        rw [hsp, hnfeq, hNF]
      have hnfaddr : NF.addr
          = r.addr + FreeRegion_getSizeForAlignment r.addr (n + REGION_OVERHEAD_SIZE) := by
        rw [hNF]
        rfl
      have hnfsize : NF.hdr.size
          = r.hdr.size - FreeRegion_getSizeForAlignment r.addr (n + REGION_OVERHEAD_SIZE) := by
        rw [hNF]
        rfl
      obtain ⟨B3, hB3⟩ : ∃ x : Block,
          x = { B2 with regions := B2.regions ++ [NF] } := ⟨_, rfl⟩
      have hb3wf : WFblock B3 := by
        rw [hB3]
        refine WFblock_append_region hb2wf ?_ ?_ ?_ ?_ ?_
        · rw [hnfsize]
          omega
        · rw [hNF]
          rfl
        · rw [hnfaddr, haddrB2]
          omega
        · rw [hnfaddr, hnfsize, haddrB2, hsizeB2]
          omega
        · intro r0 h0
          rw [hB2] at h0
          obtain ⟨r1, hr01, he⟩ := List.mem_map.1 h0
          by_cases hcase : r1.addr = r.addr
          · rw [if_pos hcase] at he
            subst he
            unfold regionDisjoint
            rw [hhdaddr, hhdsize, hnfaddr]
            left
            omega
          · rw [if_neg hcase] at he
            subst he
            have hr1b : r1 ∈ b.regions := by
              rw [hB1] at hr01
              exact hr01
            have hne : r1 ≠ r := fun h => hcase (by rw [h])
            have hd := wfb_disjoint_all hb r1 hr1b r hr hne
            have hs1 := wfb_size28 hb hr1b
            unfold regionDisjoint at hd ⊢
            rw [hnfaddr, hnfsize]
            omega
      have hnfmem : NF ∈ B3.regions := by
        rw [hB3]
        exact List.mem_append_right _ (by simp)
      have hheadmem3 : HD ∈ B3.regions := by
        rw [hB3]
        exact List.mem_append_left _ hheadmem
      have hfreeB3 : ∀ j, j < 6 → getFreeList B3 j = getFreeList B1 j := by
        intro j hj
        rw [hB3]
        exact hfreeB2 j hj
      have hlenB3 : B3.freeLists.length = 6 := by
        rw [hB3, hB2]
        exact hlenB1
      have hnf12 : NF.addr % 16 = 12 := by
        rw [hnfaddr]
        omega
      have hnfnl : ∀ j, j < 6 → NF.addr ∉ getFreeList B3 j := by
        intro j hj hmem
        rw [hfreeB3 j hj] at hmem
        have hmb : NF.addr ∈ getFreeList b j := hsubl j hj _ hmem
        refine interior_not_listed hb hr ?_ ?_ j hj hmb
        · rw [hnfaddr]
          omega
        · rw [hnfaddr]
          omega
      obtain ⟨B4, hB4⟩ : ∃ x : Block,
          x = setFreeList B3 (toFreeListIndex NF.hdr.size)
            (addrListInsert NF.addr (getFreeList B3 (toFreeListIndex NF.hdr.size))) :=
        ⟨_, rfl⟩
      have hadd : Block_addRegionToFreeList B3 (some NF.addr) = B4 := by
        rw [hB4]
        exact addToFreeList_eq hb3wf hnfmem
      have hb4wf : WFblock B4 := by
        rw [hB4]
        refine WFblock_set_insert hb3wf hnfmem ?_ hnf12 hnfnl
        rw [hNF]
        rfl
      have hheadmem4 : HD ∈ B4.regions := by
        rw [hB4]
        exact hheadmem3
      have hnl4 : ∀ j, j < 6 → r.addr ∉ getFreeList B4 j := by
        intro j hj hmem
        rw [hB4] at hmem
        rcases eq_or_ne (toFreeListIndex NF.hdr.size) j with hh | hh
        · rw [← hh] at hmem
          rw [getFreeList_set_self _ (by rw [hlenB3]; exact toFreeListIndex_lt_6 _)]
            at hmem
          rcases mem_addrListInsert.1 hmem with hmem | hmem
          · rw [hnfaddr] at hmem
            omega
          · rw [hfreeB3 _ (toFreeListIndex_lt_6 _)] at hmem
            exact hnl1 _ (toFreeListIndex_lt_6 _) hmem
        · rw [getFreeList_set_ne _ hh] at hmem
          rw [hfreeB3 j hj] at hmem
          exact hnl1 j hj hmem
      obtain ⟨hwfF, haddrF, hsizeF, hretF, hpresF, hexF⟩ :=
        allocate_finish hb4wf hheadmem4 hhdaddr hnl4
      have haddrB4 : B4.addr = b.addr := by
        rw [hB4, hB3]
        exact haddrB2
      have hsizeB4 : B4.size = b.size := by
        rw [hB4, hB3]
        exact hsizeB2
      have hB3flat : B3 =
          { addr := B1.addr
            pages := B1.pages
            size := B1.size
            usedSize := B1.usedSize
            freeLists := B1.freeLists
            regions :=
              List.map (fun r0 => if r0.addr = r.addr then HD else r0) B1.regions ++ [NF] } := by
        rw [hB3, hB2]
      have hres : Block_allocateRegion b n =
          (some (Block_useRegion B4 r.addr).1, (Block_useRegion B4 r.addr).2) := by
        unfold Block_allocateRegion
        dsimp only
        rw [hca]
        dsimp only
        rw [hrem, hfind]
        dsimp only
        rw [hsfst, hsp2]
        dsimp only [Option.map]
        rw [← hB3flat, hadd]
      rw [hres]
      dsimp only
      refine ⟨hwfF, by rw [haddrF, haddrB4], by rw [hsizeF, hsizeB4], ?_, ?_⟩
      · intro r0 h0 hused
        refine hpresF r0 ?_ (husedne r0 h0 hused)
        rw [hB4, hB3]
        show r0 ∈ B2.regions ++ [NF]
        exact List.mem_append_left _ (hpresmap r0 h0 (husedne r0 h0 hused))
      · intro a0 ha0
        rw [hretF] at ha0
        have ha0e : r.addr = a0 := by
          injection ha0
        subst ha0e
        exact ⟨mem_getFreeList_concat (wfb_len hb) hi6 hgi, hexF⟩

/-! ## Deallocation and coalescing -/

theorem used_not_listed {b : Block} (hb : WFblock b) {r : Region} (hr : r ∈ b.regions)
    (hused : r.hdr.used = true) : ∀ j, j < 6 → r.addr ∉ getFreeList b j := by
  intro j hj hmem
  obtain ⟨-, rx, hrx, hax, hux, -⟩ := listed_entry hb hj hmem
  have hxe : rx = r := wfb_addr_inj hb hrx hr hax
  rw [hxe, hused] at hux
  cases hux

theorem freeRegion_eq {b : Block} (hb : WFblock b) {r : Region} (hr : r ∈ b.regions) :
    Block_freeRegion b r.addr = { b with
      usedSize := b.usedSize - r.hdr.size,
      regions := b.regions.map (fun r0 => if r0.addr = r.addr then
        { addr := r.addr
          hdr := ⟨false, r.hdr.size⟩
          ftr := ⟨false, r.hdr.size⟩
          data := fun i2 => if 4 ≤ i2 ∧ i2 < 20 then 0 else r.data i2 } else r0) } := by
  unfold Block_freeRegion
  dsimp only
  rw [Block_rawRead_hdr hb hr, updateRegion_eq_replace hb hr]
  rfl

theorem freeRegion_wf {b : Block} (hb : WFblock b) {r : Region} (hr : r ∈ b.regions)
    (hused : r.hdr.used = true) :
    WFblock { b with
      usedSize := b.usedSize - r.hdr.size,
      regions := b.regions.map (fun r0 => if r0.addr = r.addr then
        { addr := r.addr
          hdr := ⟨false, r.hdr.size⟩
          ftr := ⟨false, r.hdr.size⟩
          data := fun i2 => if 4 ≤ i2 ∧ i2 < 20 then 0 else r.data i2 } else r0) } := by
  have h28 : (28 : Nat) ≤ r.hdr.size := wfb_size28 hb hr
  have h := @WFblock_replace_region b hb r
      { addr := r.addr
        hdr := ⟨false, r.hdr.size⟩
        ftr := ⟨false, r.hdr.size⟩
        data := fun i2 => if 4 ≤ i2 ∧ i2 < 20 then 0 else r.data i2 }
    hr rfl le_rfl h28 rfl (used_not_listed hb hr hused)
  exact h

theorem mem_index_of_mem {α : Type} (d : α) {ls : List α} {l : α} (h : l ∈ ls) :
    ∃ j, j < ls.length ∧ ls.getD j d = l := by
  induction ls with
  | nil => cases h
  | cons a t ih =>
    rcases List.mem_cons.1 h with h | h
    · exact ⟨0, by simp, by simp [h.symm]⟩
    · obtain ⟨j, hj, he⟩ := ih h
      exact ⟨j + 1, by simpa using hj, by simpa using he⟩

theorem isFreeRegion_true {b : Block} (hb : WFblock b) {x : Nat}
    (h : Block_isFreeRegion b x = true) :
    ∃ L j, L ∈ b.regions ∧ L.hdr.used = false ∧ L.addr % 16 = 12 ∧ j < 6 ∧
      L.addr ∈ getFreeList b j ∧ toFreeListIndex L.hdr.size = j ∧
      (L.addr = x ∨ L.addr + L.hdr.size - 4 = x) := by
  unfold Block_isFreeRegion at h
  rw [List.any_eq_true] at h
  obtain ⟨l, hl, h⟩ := h
  rw [List.any_eq_true] at h
  obtain ⟨it, hit, hpred⟩ := h
  obtain ⟨j, hj, hje⟩ := mem_index_of_mem [] hl
  rw [wfb_len hb] at hj
  have hit2 : it ∈ getFreeList b j := by
    unfold getFreeList
    rw [hje]
    exact hit
  obtain ⟨hm12, L, hL, haL, huL, hidxL⟩ := listed_entry hb hj hit2
  subst haL
  rw [Block_rawRead_hdr hb hL] at hpred
  refine ⟨L, j, hL, huL, hm12, hj, hit2, hidxL, ?_⟩
  simpa [rawOfMeta] using hpred

theorem prev_free_adjacent {b : Block} (hb : WFblock b) {fr : Region}
    (hfr : fr ∈ b.regions)
    (h : Block_isFreeRegion b (fr.addr - 4) = true) :
    ∃ L j, L ∈ b.regions ∧ L.hdr.used = false ∧ L.addr % 16 = 12 ∧ j < 6 ∧
      L.addr ∈ getFreeList b j ∧ toFreeListIndex L.hdr.size = j ∧
      L.addr + L.hdr.size = fr.addr := by
  obtain ⟨L, j, hL, huL, hm12, hj, hmem, hidx, hcase⟩ := isFreeRegion_true hb h
  have hsL := wfb_size28 hb hL
  have hsf := wfb_size28 hb hfr
  obtain ⟨hfb1, -⟩ := wfb_bounds hb hfr
  refine ⟨L, j, hL, huL, hm12, hj, hmem, hidx, ?_⟩
  have hne : L ≠ fr := by
    intro he
    rw [he] at hcase
    omega
  have hd := wfb_disjoint_all hb L hL fr hfr hne
  unfold regionDisjoint at hd
  omega

theorem next_free_adjacent {b : Block} (hb : WFblock b) {fr : Region}
    (hfr : fr ∈ b.regions)
    (h : Block_isFreeRegion b (fr.addr + fr.hdr.size) = true) :
    ∃ L j, L ∈ b.regions ∧ L.hdr.used = false ∧ L.addr % 16 = 12 ∧ j < 6 ∧
      L.addr ∈ getFreeList b j ∧ toFreeListIndex L.hdr.size = j ∧
      L.addr = fr.addr + fr.hdr.size := by
  obtain ⟨L, j, hL, huL, hm12, hj, hmem, hidx, hcase⟩ := isFreeRegion_true hb h
  have hsL := wfb_size28 hb hL
  have hsf := wfb_size28 hb hfr
  refine ⟨L, j, hL, huL, hm12, hj, hmem, hidx, ?_⟩
  have hne : L ≠ fr := by
    intro he
    rw [he] at hcase
    omega
  have hd := wfb_disjoint_all hb L hL fr hfr hne
  unfold regionDisjoint at hd
  omega

theorem WFblock_merge2 {b : Block} (hb : WFblock b) {r1 r2 : Region}
    (h1 : r1 ∈ b.regions) (h2 : r2 ∈ b.regions)
    (hadj : r1.addr + r1.hdr.size = r2.addr) {nr : Region} (haddr : nr.addr = r1.addr)
    (hsize : nr.hdr.size = r1.hdr.size + r2.hdr.size) (hagree : nr.hdr = nr.ftr)
    (hnl1 : ∀ j, j < 6 → r1.addr ∉ getFreeList b j)
    (hnl2 : ∀ j, j < 6 → r2.addr ∉ getFreeList b j) :
    WFblock { b with
      regions := (b.regions.filter (fun r0 => r0.addr ≠ r2.addr)).map
        (fun r0 => if r0.addr = r1.addr then nr else r0) } := by
  obtain ⟨hlen, hsz, hreg, hpw, hlists⟩ := hb
  have hb2 : WFblock b := ⟨hlen, hsz, hreg, hpw, hlists⟩
  have hs1 := wfb_size28 hb2 h1
  have hs2 := wfb_size28 hb2 h2
  obtain ⟨hlo1, hhi1⟩ := wfb_bounds hb2 h1
  obtain ⟨hlo2, hhi2⟩ := wfb_bounds hb2 h2
  refine ⟨hlen, hsz, ?_, ?_, ?_⟩
  · intro r0 h0
    obtain ⟨ra, hra, he⟩ := List.mem_map.1 h0
    obtain ⟨hram, hraf⟩ := List.mem_filter.1 hra
    by_cases h : ra.addr = r1.addr
    · rw [if_pos h] at he
      subst he
      refine ⟨?_, hagree, ?_, ?_⟩
      · show sizeofFreeRegionHeader + sizeofAllocMetadata ≤ nr.hdr.size
        simp only [sizeofFreeRegionHeader_eq, sizeofAllocMetadata_eq]
        omega
      · show b.addr + sizeofBlockHeader ≤ nr.addr
        simp only [sizeofBlockHeader_eq]
        omega
      · show nr.addr + nr.hdr.size ≤ b.addr + b.size
        omega
    · rw [if_neg h] at he
      subst he
      exact hreg ra hram
  · rw [List.pairwise_map]
    refine List.Pairwise.imp_of_mem ?_ (hpw.sublist (List.filter_sublist _))
    · intro a c ha hc hd
      obtain ⟨ham, haf⟩ := List.mem_filter.1 ha
      obtain ⟨hcm, hcf⟩ := List.mem_filter.1 hc
      simp only [decide_eq_true_eq] at haf hcf
      have hsa := wfb_size28 hb2 ham
      have hsc := wfb_size28 hb2 hcm
      by_cases hh1 : a.addr = r1.addr
      · have he1 : a = r1 := wfb_addr_inj hb2 ham h1 hh1
        by_cases hh2 : c.addr = r1.addr
        · have he2 : c = a := wfb_addr_inj hb2 hcm ham (by rw [hh2, hh1])
          exfalso
          rw [he2] at hd
          unfold regionDisjoint at hd
          omega
        · simp only [if_pos hh1, if_neg hh2]
          rw [he1] at hd
          have hne2 : c ≠ r2 := fun h => hcf (by rw [h])
          have hd2 := wfb_disjoint_all hb2 c hcm r2 h2 hne2
          unfold regionDisjoint at hd hd2 ⊢
          omega
      · by_cases hh2 : c.addr = r1.addr
        · have he2 : c = r1 := wfb_addr_inj hb2 hcm h1 hh2
          simp only [if_neg hh1, if_pos hh2]
          rw [he2] at hd
          have hne2 : a ≠ r2 := fun h => haf (by rw [h])
          have hd2 := wfb_disjoint_all hb2 a ham r2 h2 hne2
          unfold regionDisjoint at hd hd2 ⊢
          omega
        · simp only [if_neg hh1, if_neg hh2]
          exact hd
  · intro j hj
    have hj6 : j < 6 := List.mem_range.1 hj
    obtain ⟨hnd, hent⟩ := hlists j hj
    refine ⟨hnd, ?_⟩
    intro a ha
    obtain ⟨hmod, ra, hra, haa, hua, hia⟩ := hent a ha
    have hne1 : ra.addr ≠ r1.addr := by
      intro h
      have h2a : a = r1.addr := by rw [← haa, h]
      exact hnl1 j hj6 (by rw [← h2a]; exact ha)
    have hne2 : ra.addr ≠ r2.addr := by
      intro h
      have h2a : a = r2.addr := by rw [← haa, h]
      exact hnl2 j hj6 (by rw [← h2a]; exact ha)
    refine ⟨hmod, ra, ?_, haa, hua, hia⟩
    exact List.mem_map.2 ⟨ra, List.mem_filter.2 ⟨hra, by simpa using hne2⟩,
      by rw [if_neg hne1]⟩

theorem WFblock_merge3 {b : Block} (hb : WFblock b) {r1 r2 r3 : Region}
    (h1 : r1 ∈ b.regions) (h2 : r2 ∈ b.regions) (h3 : r3 ∈ b.regions)
    (hadj1 : r1.addr + r1.hdr.size = r2.addr)
    (hadj2 : r2.addr + r2.hdr.size = r3.addr) {nr : Region} (haddr : nr.addr = r1.addr)
    (hsize : nr.hdr.size = r1.hdr.size + r2.hdr.size + r3.hdr.size)
    (hagree : nr.hdr = nr.ftr)
    (hnl1 : ∀ j, j < 6 → r1.addr ∉ getFreeList b j)
    (hnl2 : ∀ j, j < 6 → r2.addr ∉ getFreeList b j)
    (hnl3 : ∀ j, j < 6 → r3.addr ∉ getFreeList b j) :
    WFblock { b with
      regions := (b.regions.filter (fun r0 => r0.addr ≠ r2.addr ∧ r0.addr ≠ r3.addr)).map
        (fun r0 => if r0.addr = r1.addr then nr else r0) } := by
  obtain ⟨hlen, hsz, hreg, hpw, hlists⟩ := hb
  have hb2 : WFblock b := ⟨hlen, hsz, hreg, hpw, hlists⟩
  have hs1 := wfb_size28 hb2 h1
  have hs2 := wfb_size28 hb2 h2
  have hs3 := wfb_size28 hb2 h3
  obtain ⟨hlo1, hhi1⟩ := wfb_bounds hb2 h1
  obtain ⟨hlo3, hhi3⟩ := wfb_bounds hb2 h3
  refine ⟨hlen, hsz, ?_, ?_, ?_⟩
  · intro r0 h0
    obtain ⟨ra, hra, he⟩ := List.mem_map.1 h0
    obtain ⟨hram, hraf⟩ := List.mem_filter.1 hra
    by_cases h : ra.addr = r1.addr
    · rw [if_pos h] at he
      subst he
      refine ⟨?_, hagree, ?_, ?_⟩
      · show sizeofFreeRegionHeader + sizeofAllocMetadata ≤ nr.hdr.size
        simp only [sizeofFreeRegionHeader_eq, sizeofAllocMetadata_eq]
        omega
      · show b.addr + sizeofBlockHeader ≤ nr.addr
        simp only [sizeofBlockHeader_eq]
        omega
      · show nr.addr + nr.hdr.size ≤ b.addr + b.size
        omega
    · rw [if_neg h] at he
      subst he
      exact hreg ra hram
  · rw [List.pairwise_map]
    refine List.Pairwise.imp_of_mem ?_ (hpw.sublist (List.filter_sublist _))
    · intro a c ha hc hd
      obtain ⟨ham, haf⟩ := List.mem_filter.1 ha
      obtain ⟨hcm, hcf⟩ := List.mem_filter.1 hc
      simp only [decide_eq_true_eq] at haf hcf
      have hsa := wfb_size28 hb2 ham
      have hsc := wfb_size28 hb2 hcm
      by_cases hh1 : a.addr = r1.addr
      · have he1 : a = r1 := wfb_addr_inj hb2 ham h1 hh1
        by_cases hh2 : c.addr = r1.addr
        · have he2 : c = a := wfb_addr_inj hb2 hcm ham (by rw [hh2, hh1])
          exfalso
          rw [he2] at hd
          unfold regionDisjoint at hd
          omega
        · simp only [if_pos hh1, if_neg hh2]
          rw [he1] at hd
          have hne2 : c ≠ r2 := fun h => hcf.1 (by rw [h])
          have hne3 : c ≠ r3 := fun h => hcf.2 (by rw [h])
          have hd2 := wfb_disjoint_all hb2 c hcm r2 h2 hne2
          have hd3 := wfb_disjoint_all hb2 c hcm r3 h3 hne3
          unfold regionDisjoint at hd hd2 hd3 ⊢
          omega
      · by_cases hh2 : c.addr = r1.addr
        · have he2 : c = r1 := wfb_addr_inj hb2 hcm h1 hh2
          simp only [if_neg hh1, if_pos hh2]
          rw [he2] at hd
          have hne2 : a ≠ r2 := fun h => haf.1 (by rw [h])
          have hne3 : a ≠ r3 := fun h => haf.2 (by rw [h])
          have hd2 := wfb_disjoint_all hb2 a ham r2 h2 hne2
          have hd3 := wfb_disjoint_all hb2 a ham r3 h3 hne3
          unfold regionDisjoint at hd hd2 hd3 ⊢
          omega
        · simp only [if_neg hh1, if_neg hh2]
          exact hd
  · intro j hj
    have hj6 : j < 6 := List.mem_range.1 hj
    obtain ⟨hnd, hent⟩ := hlists j hj
    refine ⟨hnd, ?_⟩
    intro a ha
    obtain ⟨hmod, ra, hra, haa, hua, hia⟩ := hent a ha
    have hne1 : ra.addr ≠ r1.addr := by
      intro h
      have h2a : a = r1.addr := by rw [← haa, h]
      exact hnl1 j hj6 (by rw [← h2a]; exact ha)
    have hne2 : ra.addr ≠ r2.addr := by
      intro h
      have h2a : a = r2.addr := by rw [← haa, h]
      exact hnl2 j hj6 (by rw [← h2a]; exact ha)
    have hne3 : ra.addr ≠ r3.addr := by
      intro h
      have h2a : a = r3.addr := by rw [← haa, h]
      exact hnl3 j hj6 (by rw [← h2a]; exact ha)
    refine ⟨hmod, ra, ?_, haa, hua, hia⟩
    exact List.mem_map.2 ⟨ra, List.mem_filter.2 ⟨hra, by simp [hne2, hne3]⟩,
      by rw [if_neg hne1]⟩

theorem mem_getFreeList_erase_ne {b : Block} (hlen : b.freeLists.length = 6)
    {i j x y : Nat} (hj : j < 6) (hne : x ≠ y) (hx : x ∈ getFreeList b j) :
    x ∈ getFreeList (setFreeList b i ((getFreeList b i).erase y)) j := by
  rcases eq_or_ne i j with h | h
  · subst h
    rw [getFreeList_set_self _ (by rw [hlen]; exact hj)]
    exact (List.mem_erase_of_ne hne).2 hx
  · rw [getFreeList_set_ne _ h]
    exact hx

theorem not_listed_setFreeList {b : Block} (hlen : b.freeLists.length = 6)
    {i : Nat} (hi : i < 6) {l2 : List Nat} (hsub : ∀ y ∈ l2, y ∈ getFreeList b i)
    {x : Nat} (hx : ∀ j, j < 6 → x ∉ getFreeList b j) :
    ∀ j, j < 6 → x ∉ getFreeList (setFreeList b i l2) j := by
  intro j hj hmem
  rcases eq_or_ne i j with h | h
  · subst h
    rw [getFreeList_set_self _ (by rw [hlen]; exact hi)] at hmem
    exact hx i hi (hsub x hmem)
  · rw [getFreeList_set_ne _ h] at hmem
    exact hx j hj hmem

theorem coallesceRight_spec {b : Block} (hb : WFblock b) {fr R : Region}
    (hfr : fr ∈ b.regions) (hufr : fr.hdr.used = false)
    (hlfr : fr.addr ∈ getFreeList b (toFreeListIndex fr.hdr.size))
    (hmod : fr.addr % 16 = 12)
    (hR : R ∈ b.regions) (huR : R.hdr.used = false)
    (hlR : R.addr ∈ getFreeList b (toFreeListIndex R.hdr.size))
    (hadj : R.addr = fr.addr + fr.hdr.size) :
    WFblock (Block_coallesceRightSide b fr.addr R.addr) ∧
    (Block_coallesceRightSide b fr.addr R.addr).addr = b.addr ∧
    (Block_coallesceRightSide b fr.addr R.addr).size = b.size := by
  have hsf := wfb_size28 hb hfr
  have hsR := wfb_size28 hb hR
  have hagR := wfb_agree hb hR
  have hfru2 : R.ftr.used = false := by rw [← hagR]; exact huR
  have hne : fr.addr ≠ R.addr := by omega
  have hrdR : Block_rawRead b R.addr = rawOfMeta R.hdr := Block_rawRead_hdr hb hR
  have hrdf : Block_rawRead b fr.addr = rawOfMeta fr.hdr := Block_rawRead_hdr hb hfr
  obtain ⟨B1, hB1⟩ : ∃ x, x = setFreeList b (toFreeListIndex R.hdr.size)
      ((getFreeList b (toFreeListIndex R.hdr.size)).erase R.addr) := ⟨_, rfl⟩
  have hE1 : Block_removeRegionFromFreeList b R.addr = B1 := by
    rw [hB1]
    exact removeFromFreeList_eq hb hR
  have hWB1 : WFblock B1 := by
    rw [hB1]
    exact WFblock_set_erase hb (toFreeListIndex_lt_6 _) R.addr
  have hfr1 : fr ∈ B1.regions := by rw [hB1]; simpa using hfr
  have hR1 : R ∈ B1.regions := by rw [hB1]; simpa using hR
  have hnlR1 : ∀ j, j < 6 → R.addr ∉ getFreeList B1 j := by
    rw [hB1]
    exact erased_not_listed hb (toFreeListIndex_lt_6 _) hlR
  have hlfr1 : fr.addr ∈ getFreeList B1 (toFreeListIndex fr.hdr.size) := by
    rw [hB1]
    exact mem_getFreeList_erase_ne (wfb_len hb) (toFreeListIndex_lt_6 _) hne hlfr
  obtain ⟨B2, hB2⟩ : ∃ x, x = setFreeList B1 (toFreeListIndex fr.hdr.size)
      ((getFreeList B1 (toFreeListIndex fr.hdr.size)).erase fr.addr) := ⟨_, rfl⟩
  have hE2 : Block_removeRegionFromFreeList B1 fr.addr = B2 := by
    rw [hB2]
    exact removeFromFreeList_eq hWB1 hfr1
  have hWB2 : WFblock B2 := by
    rw [hB2]
    exact WFblock_set_erase hWB1 (toFreeListIndex_lt_6 _) fr.addr
  have hfr2 : fr ∈ B2.regions := by rw [hB2]; simpa using hfr1
  have hR2 : R ∈ B2.regions := by rw [hB2]; simpa using hR1
  have hnlF2 : ∀ j, j < 6 → fr.addr ∉ getFreeList B2 j := by
    rw [hB2]
    exact erased_not_listed hWB1 (toFreeListIndex_lt_6 _) hlfr1
  have hnlR2 : ∀ j, j < 6 → R.addr ∉ getFreeList B2 j := by
    rw [hB2]
    exact not_listed_setFreeList (wfb_len hWB1) (toFreeListIndex_lt_6 _)
      (fun y hy => List.mem_of_mem_erase hy) hnlR1
  obtain ⟨MR, hMR⟩ : ∃ x : Region, x =
      { addr := fr.addr
        hdr := { used := false, size := fr.hdr.size + R.hdr.size }
        ftr := { used := false, size := fr.hdr.size + R.hdr.size }
        data := fun i =>
          if i < fr.hdr.size - 8 then fr.data i
          else if i < fr.hdr.size - 4 then metaByte fr.ftr (i - (fr.hdr.size - 8))
          else if i < fr.hdr.size then metaByte R.hdr (i - (fr.hdr.size - 4))
          else R.data (i - fr.hdr.size) } := ⟨_, rfl⟩
  obtain ⟨B3, hB3⟩ : ∃ x : Block, x = { B2 with
      regions := (B2.regions.filter (fun r0 => r0.addr ≠ R.addr)).map
        (fun r0 => if r0.addr = fr.addr then MR else r0) } := ⟨_, rfl⟩
  have hEQ : Block_coallesceRightSide b fr.addr R.addr =
      Block_addRegionToFreeList B3 (some fr.addr) := by
    unfold Block_coallesceRightSide
    dsimp only
    rw [hrdR, hrdf]
    rw [findRegion_eq_some hb hfr, findRegion_eq_some hb hR]
    dsimp only [rawOfMeta]
    rw [hE1, hE2, hufr, hfru2, ← hMR, ← hB3]
  have hMaddr : MR.addr = fr.addr := by rw [hMR]
  have hMsize : MR.hdr.size = fr.hdr.size + R.hdr.size := by rw [hMR]
  have hMused : MR.hdr.used = false := by rw [hMR]
  have hMagree : MR.hdr = MR.ftr := by rw [hMR]
  have hWB3 : WFblock B3 := by
    rw [hB3]
    exact WFblock_merge2 hWB2 hfr2 hR2 hadj.symm hMaddr hMsize hMagree hnlF2 hnlR2
  have hMR3 : MR ∈ B3.regions := by
    rw [hB3]
    exact List.mem_map.2 ⟨fr, List.mem_filter.2 ⟨hfr2, by simpa using hne⟩,
      by rw [if_pos rfl]⟩
  have hnlF3 : ∀ j, j < 6 → MR.addr ∉ getFreeList B3 j := by
    rw [hMaddr, hB3]
    intro j hj
    exact hnlF2 j hj
  have hEQ2 : Block_addRegionToFreeList B3 (some fr.addr) =
      setFreeList B3 (toFreeListIndex MR.hdr.size)
        (addrListInsert MR.addr (getFreeList B3 (toFreeListIndex MR.hdr.size))) := by
    rw [← hMaddr]
    exact addToFreeList_eq hWB3 hMR3
  rw [hEQ, hEQ2]
  refine ⟨WFblock_set_insert hWB3 hMR3 hMused (by rw [hMaddr]; exact hmod) hnlF3, ?_, ?_⟩
  · simp only [setFreeList_addr, hB3, hB2, hB1]
  · simp only [setFreeList_size, hB3, hB2, hB1]

theorem coallesceLeft_spec {b : Block} (hb : WFblock b) {fr L : Region}
    (hfr : fr ∈ b.regions) (hufr : fr.hdr.used = false)
    (hlfr : fr.addr ∈ getFreeList b (toFreeListIndex fr.hdr.size))
    (hL : L ∈ b.regions) (huL : L.hdr.used = false)
    (hlL : L.addr ∈ getFreeList b (toFreeListIndex L.hdr.size))
    (hmodL : L.addr % 16 = 12)
    (hadjL : fr.addr = L.addr + L.hdr.size) :
    WFblock (Block_coallesceLeftSide b fr.addr) ∧
    (Block_coallesceLeftSide b fr.addr).addr = b.addr ∧
    (Block_coallesceLeftSide b fr.addr).size = b.size := by
  have hsf := wfb_size28 hb hfr
  have hsL := wfb_size28 hb hL
  have hagL := wfb_agree hb hL
  have hagf := wfb_agree hb hfr
  have hfrftru : fr.ftr.used = false := by rw [← hagf]; exact hufr
  have hne : L.addr ≠ fr.addr := by omega
  have hrdf : Block_rawRead b fr.addr = rawOfMeta fr.hdr := Block_rawRead_hdr hb hfr
  have hrd4 : Block_rawRead b (fr.addr - sizeofAllocMetadata) = rawOfMeta L.ftr := by
    have h4 : fr.addr - sizeofAllocMetadata = L.addr + L.hdr.size - 4 := by
      simp only [sizeofAllocMetadata_eq]
      omega
    rw [h4]
    exact Block_rawRead_ftr hb hL
  have hLa : fr.addr - L.ftr.size = L.addr := by
    rw [← hagL]
    omega
  obtain ⟨B1, hB1⟩ : ∃ x, x = setFreeList b (toFreeListIndex L.hdr.size)
      ((getFreeList b (toFreeListIndex L.hdr.size)).erase L.addr) := ⟨_, rfl⟩
  have hE1 : Block_removeRegionFromFreeList b L.addr = B1 := by
    rw [hB1]
    exact removeFromFreeList_eq hb hL
  have hWB1 : WFblock B1 := by
    rw [hB1]
    exact WFblock_set_erase hb (toFreeListIndex_lt_6 _) L.addr
  have hfr1 : fr ∈ B1.regions := by rw [hB1]; simpa using hfr
  have hL1 : L ∈ B1.regions := by rw [hB1]; simpa using hL
  have hnlL1 : ∀ j, j < 6 → L.addr ∉ getFreeList B1 j := by
    rw [hB1]
    exact erased_not_listed hb (toFreeListIndex_lt_6 _) hlL
  have hlfr1 : fr.addr ∈ getFreeList B1 (toFreeListIndex fr.hdr.size) := by
    rw [hB1]
    exact mem_getFreeList_erase_ne (wfb_len hb) (toFreeListIndex_lt_6 _)
      (fun h => hne h.symm) hlfr
  obtain ⟨B2, hB2⟩ : ∃ x, x = setFreeList B1 (toFreeListIndex fr.hdr.size)
      ((getFreeList B1 (toFreeListIndex fr.hdr.size)).erase fr.addr) := ⟨_, rfl⟩
  have hE2 : Block_removeRegionFromFreeList B1 fr.addr = B2 := by
    rw [hB2]
    exact removeFromFreeList_eq hWB1 hfr1
  have hWB2 : WFblock B2 := by
    rw [hB2]
    exact WFblock_set_erase hWB1 (toFreeListIndex_lt_6 _) fr.addr
  have hfr2 : fr ∈ B2.regions := by rw [hB2]; simpa using hfr1
  have hL2 : L ∈ B2.regions := by rw [hB2]; simpa using hL1
  have hnlF2 : ∀ j, j < 6 → fr.addr ∉ getFreeList B2 j := by
    rw [hB2]
    exact erased_not_listed hWB1 (toFreeListIndex_lt_6 _) hlfr1
  have hnlL2 : ∀ j, j < 6 → L.addr ∉ getFreeList B2 j := by
    rw [hB2]
    exact not_listed_setFreeList (wfb_len hWB1) (toFreeListIndex_lt_6 _)
      (fun y hy => List.mem_of_mem_erase hy) hnlL1
  obtain ⟨MR, hMR⟩ : ∃ x : Region, x =
      { addr := L.addr
        hdr := { used := false, size := L.hdr.size + fr.hdr.size }
        ftr := { used := false, size := L.hdr.size + fr.hdr.size }
        data := fun i =>
          if i < L.hdr.size - 8 then L.data i
          else if i < L.hdr.size - 4 then metaByte L.ftr (i - (L.hdr.size - 8))
          else if i < L.hdr.size then metaByte fr.hdr (i - (L.hdr.size - 4))
          else fr.data (i - L.hdr.size) } := ⟨_, rfl⟩
  obtain ⟨B3, hB3⟩ : ∃ x : Block, x = { B2 with
      regions := (B2.regions.filter (fun r0 => r0.addr ≠ fr.addr)).map
        (fun r0 => if r0.addr = L.addr then MR else r0) } := ⟨_, rfl⟩
  have hEQ : Block_coallesceLeftSide b fr.addr =
      Block_addRegionToFreeList B3 (some L.addr) := by
    unfold Block_coallesceLeftSide
    dsimp only
    rw [hrd4, hrdf]
    dsimp only [rawOfMeta]
    rw [hLa]
    rw [findRegion_eq_some hb hL, findRegion_eq_some hb hfr]
    dsimp only
    rw [hE1, hE2, huL, hfrftru, ← hMR, ← hB3]
  have hMaddr : MR.addr = L.addr := by rw [hMR]
  have hMsize : MR.hdr.size = L.hdr.size + fr.hdr.size := by rw [hMR]
  have hMused : MR.hdr.used = false := by rw [hMR]
  have hMagree : MR.hdr = MR.ftr := by rw [hMR]
  have hWB3 : WFblock B3 := by
    rw [hB3]
    exact WFblock_merge2 hWB2 hL2 hfr2 hadjL.symm hMaddr hMsize hMagree hnlL2 hnlF2
  have hMR3 : MR ∈ B3.regions := by
    rw [hB3]
    exact List.mem_map.2 ⟨L, List.mem_filter.2 ⟨hL2, by simpa using hne⟩,
      by rw [if_pos rfl]⟩
  have hnlL3 : ∀ j, j < 6 → MR.addr ∉ getFreeList B3 j := by
    rw [hMaddr, hB3]
    intro j hj
    exact hnlL2 j hj
  have hEQ2 : Block_addRegionToFreeList B3 (some L.addr) =
      setFreeList B3 (toFreeListIndex MR.hdr.size)
        (addrListInsert MR.addr (getFreeList B3 (toFreeListIndex MR.hdr.size))) := by
    rw [← hMaddr]
    exact addToFreeList_eq hWB3 hMR3
  rw [hEQ, hEQ2]
  refine ⟨WFblock_set_insert hWB3 hMR3 hMused (by rw [hMaddr]; exact hmodL) hnlL3,
    ?_, ?_⟩
  · simp only [setFreeList_addr, hB3, hB2, hB1]
  · simp only [setFreeList_size, hB3, hB2, hB1]

theorem coallesceBoth_spec {b : Block} (hb : WFblock b) {fr L R : Region}
    (hfr : fr ∈ b.regions) (hufr : fr.hdr.used = false)
    (hlfr : fr.addr ∈ getFreeList b (toFreeListIndex fr.hdr.size))
    (hL : L ∈ b.regions) (huL : L.hdr.used = false)
    (hlL : L.addr ∈ getFreeList b (toFreeListIndex L.hdr.size))
    (hmodL : L.addr % 16 = 12)
    (hadjL : fr.addr = L.addr + L.hdr.size)
    (hR : R ∈ b.regions) (huR : R.hdr.used = false)
    (hlR : R.addr ∈ getFreeList b (toFreeListIndex R.hdr.size))
    (hadjR : R.addr = fr.addr + fr.hdr.size) :
    WFblock (Block_coallesceBothSides b fr.addr R.addr) ∧
    (Block_coallesceBothSides b fr.addr R.addr).addr = b.addr ∧
    (Block_coallesceBothSides b fr.addr R.addr).size = b.size := by
  have hsf := wfb_size28 hb hfr
  have hsL := wfb_size28 hb hL
  have hsR := wfb_size28 hb hR
  have hagL := wfb_agree hb hL
  have hagR := wfb_agree hb hR
  have hfru2 : R.ftr.used = false := by rw [← hagR]; exact huR
  have hneLF : L.addr ≠ fr.addr := by omega
  have hneFR : fr.addr ≠ R.addr := by omega
  have hneLR : L.addr ≠ R.addr := by omega
  have hrdf : Block_rawRead b fr.addr = rawOfMeta fr.hdr := Block_rawRead_hdr hb hfr
  have hrdR : Block_rawRead b R.addr = rawOfMeta R.hdr := Block_rawRead_hdr hb hR
  have hrd4 : Block_rawRead b (fr.addr - sizeofAllocMetadata) = rawOfMeta L.ftr := by
    have h4 : fr.addr - sizeofAllocMetadata = L.addr + L.hdr.size - 4 := by
      simp only [sizeofAllocMetadata_eq]
      omega
    rw [h4]
    exact Block_rawRead_ftr hb hL
  have hLa : fr.addr - L.ftr.size = L.addr := by
    rw [← hagL]
    omega
  obtain ⟨B1, hB1⟩ : ∃ x, x = setFreeList b (toFreeListIndex L.hdr.size)
      ((getFreeList b (toFreeListIndex L.hdr.size)).erase L.addr) := ⟨_, rfl⟩
  have hE1 : Block_removeRegionFromFreeList b L.addr = B1 := by
    rw [hB1]
    exact removeFromFreeList_eq hb hL
  have hWB1 : WFblock B1 := by
    rw [hB1]
    exact WFblock_set_erase hb (toFreeListIndex_lt_6 _) L.addr
  have hfr1 : fr ∈ B1.regions := by rw [hB1]; simpa using hfr
  have hL1 : L ∈ B1.regions := by rw [hB1]; simpa using hL
  have hR1 : R ∈ B1.regions := by rw [hB1]; simpa using hR
  have hnlL1 : ∀ j, j < 6 → L.addr ∉ getFreeList B1 j := by
    rw [hB1]
    exact erased_not_listed hb (toFreeListIndex_lt_6 _) hlL
  have hlfr1 : fr.addr ∈ getFreeList B1 (toFreeListIndex fr.hdr.size) := by
    rw [hB1]
    exact mem_getFreeList_erase_ne (wfb_len hb) (toFreeListIndex_lt_6 _)
      (fun h => hneLF h.symm) hlfr
  have hlR1 : R.addr ∈ getFreeList B1 (toFreeListIndex R.hdr.size) := by
    rw [hB1]
    exact mem_getFreeList_erase_ne (wfb_len hb) (toFreeListIndex_lt_6 _)
      (fun h => hneLR h.symm) hlR
  obtain ⟨B2, hB2⟩ : ∃ x, x = setFreeList B1 (toFreeListIndex R.hdr.size)
      ((getFreeList B1 (toFreeListIndex R.hdr.size)).erase R.addr) := ⟨_, rfl⟩
  have hE2 : Block_removeRegionFromFreeList B1 R.addr = B2 := by
    rw [hB2]
    exact removeFromFreeList_eq hWB1 hR1
  have hWB2 : WFblock B2 := by
    rw [hB2]
    exact WFblock_set_erase hWB1 (toFreeListIndex_lt_6 _) R.addr
  have hfr2 : fr ∈ B2.regions := by rw [hB2]; simpa using hfr1
  have hL2 : L ∈ B2.regions := by rw [hB2]; simpa using hL1
  have hR2 : R ∈ B2.regions := by rw [hB2]; simpa using hR1
  have hnlL2 : ∀ j, j < 6 → L.addr ∉ getFreeList B2 j := by
    rw [hB2]
    exact not_listed_setFreeList (wfb_len hWB1) (toFreeListIndex_lt_6 _)
      (fun y hy => List.mem_of_mem_erase hy) hnlL1
  have hnlR2 : ∀ j, j < 6 → R.addr ∉ getFreeList B2 j := by
    rw [hB2]
    exact erased_not_listed hWB1 (toFreeListIndex_lt_6 _) hlR1
  have hlfr2 : fr.addr ∈ getFreeList B2 (toFreeListIndex fr.hdr.size) := by
    rw [hB2]
    exact mem_getFreeList_erase_ne (wfb_len hWB1) (toFreeListIndex_lt_6 _)
      hneFR hlfr1
  obtain ⟨B3, hB3⟩ : ∃ x, x = setFreeList B2 (toFreeListIndex fr.hdr.size)
      ((getFreeList B2 (toFreeListIndex fr.hdr.size)).erase fr.addr) := ⟨_, rfl⟩
  have hE3 : Block_removeRegionFromFreeList B2 fr.addr = B3 := by
    rw [hB3]
    exact removeFromFreeList_eq hWB2 hfr2
  have hWB3 : WFblock B3 := by
    rw [hB3]
    exact WFblock_set_erase hWB2 (toFreeListIndex_lt_6 _) fr.addr
  have hfr3 : fr ∈ B3.regions := by rw [hB3]; simpa using hfr2
  have hL3 : L ∈ B3.regions := by rw [hB3]; simpa using hL2
  have hR3 : R ∈ B3.regions := by rw [hB3]; simpa using hR2
  have hnlL3 : ∀ j, j < 6 → L.addr ∉ getFreeList B3 j := by
    rw [hB3]
    exact not_listed_setFreeList (wfb_len hWB2) (toFreeListIndex_lt_6 _)
      (fun y hy => List.mem_of_mem_erase hy) hnlL2
  have hnlR3 : ∀ j, j < 6 → R.addr ∉ getFreeList B3 j := by
    rw [hB3]
    exact not_listed_setFreeList (wfb_len hWB2) (toFreeListIndex_lt_6 _)
      (fun y hy => List.mem_of_mem_erase hy) hnlR2
  have hnlF3 : ∀ j, j < 6 → fr.addr ∉ getFreeList B3 j := by
    rw [hB3]
    exact erased_not_listed hWB2 (toFreeListIndex_lt_6 _) hlfr2
  obtain ⟨MR, hMR⟩ : ∃ x : Region, x =
      { addr := L.addr
        hdr := { used := false, size := L.hdr.size + fr.hdr.size + R.hdr.size }
        ftr := { used := false, size := L.hdr.size + fr.hdr.size + R.hdr.size }
        data := fun i =>
          if i < L.hdr.size - 8 then L.data i
          else if i < L.hdr.size - 4 then metaByte L.ftr (i - (L.hdr.size - 8))
          else if i < L.hdr.size then metaByte fr.hdr (i - (L.hdr.size - 4))
          else if i < L.hdr.size + fr.hdr.size - 8 then fr.data (i - L.hdr.size)
          else if i < L.hdr.size + fr.hdr.size - 4 then
            metaByte fr.ftr (i - (L.hdr.size + fr.hdr.size - 8))
          else if i < L.hdr.size + fr.hdr.size then
            metaByte R.hdr (i - (L.hdr.size + fr.hdr.size - 4))
          else R.data (i - (L.hdr.size + fr.hdr.size)) } := ⟨_, rfl⟩
  obtain ⟨B4, hB4⟩ : ∃ x : Block, x = { B3 with
      regions := (B3.regions.filter
        (fun r0 => r0.addr ≠ fr.addr ∧ r0.addr ≠ R.addr)).map
        (fun r0 => if r0.addr = L.addr then MR else r0) } := ⟨_, rfl⟩
  have hEQ : Block_coallesceBothSides b fr.addr R.addr =
      Block_addRegionToFreeList B4 (some L.addr) := by
    unfold Block_coallesceBothSides
    dsimp only
    rw [hrd4, hrdf, hrdR]
    dsimp only [rawOfMeta]
    rw [hLa]
    rw [findRegion_eq_some hb hL, findRegion_eq_some hb hfr, findRegion_eq_some hb hR]
    dsimp only
    rw [hE1, hE2, hE3, huL, hfru2, ← hMR, ← hB4]
  have hMaddr : MR.addr = L.addr := by rw [hMR]
  have hMsize : MR.hdr.size = L.hdr.size + fr.hdr.size + R.hdr.size := by rw [hMR]
  have hMused : MR.hdr.used = false := by rw [hMR]
  have hMagree : MR.hdr = MR.ftr := by rw [hMR]
  have hWB4 : WFblock B4 := by
    rw [hB4]
    exact WFblock_merge3 hWB3 hL3 hfr3 hR3 hadjL.symm hadjR.symm hMaddr hMsize
      hMagree hnlL3 hnlF3 hnlR3
  have hMR4 : MR ∈ B4.regions := by
    rw [hB4]
    exact List.mem_map.2 ⟨L, List.mem_filter.2 ⟨hL3, by simp [hneLF, hneLR]⟩,
      by rw [if_pos rfl]⟩
  have hnlL4 : ∀ j, j < 6 → MR.addr ∉ getFreeList B4 j := by
    rw [hMaddr, hB4]
    intro j hj
    exact hnlL3 j hj
  have hEQ2 : Block_addRegionToFreeList B4 (some L.addr) =
      setFreeList B4 (toFreeListIndex MR.hdr.size)
        (addrListInsert MR.addr (getFreeList B4 (toFreeListIndex MR.hdr.size))) := by
    rw [← hMaddr]
    exact addToFreeList_eq hWB4 hMR4
  rw [hEQ, hEQ2]
  refine ⟨WFblock_set_insert hWB4 hMR4 hMused (by rw [hMaddr]; exact hmodL) hnlL4,
    ?_, ?_⟩
  · simp only [setFreeList_addr, hB4, hB3, hB2, hB1]
  · simp only [setFreeList_size, hB4, hB3, hB2, hB1]

theorem coallesceFreeRegion_spec {b : Block} (hb : WFblock b) {fr : Region}
    (hfr : fr ∈ b.regions) (hufr : fr.hdr.used = false)
    (hlfr : fr.addr ∈ getFreeList b (toFreeListIndex fr.hdr.size))
    (hmod : fr.addr % 16 = 12) :
    WFblock (Block_coallesceFreeRegion b fr.addr) ∧
    (Block_coallesceFreeRegion b fr.addr).addr = b.addr ∧
    (Block_coallesceFreeRegion b fr.addr).size = b.size := by
  have hEQ : Block_coallesceFreeRegion b fr.addr =
      (if Block_isFreeRegion b (fr.addr - sizeofAllocMetadata) then
        (if Block_isFreeRegion b (fr.addr + fr.hdr.size) then
          Block_coallesceBothSides b fr.addr (fr.addr + fr.hdr.size)
        else Block_coallesceLeftSide b fr.addr)
      else
        (if Block_isFreeRegion b (fr.addr + fr.hdr.size) then
          Block_coallesceRightSide b fr.addr (fr.addr + fr.hdr.size)
        else b)) := by
    unfold Block_coallesceFreeRegion
    dsimp only
    rw [Block_rawRead_hdr hb hfr]
    rfl
  rw [hEQ]
  cases hprev : Block_isFreeRegion b (fr.addr - sizeofAllocMetadata) with
  | false =>
    cases hnext : Block_isFreeRegion b (fr.addr + fr.hdr.size) with
    | false =>
      simp only [hprev, hnext, Bool.false_eq_true, if_false]
      exact ⟨hb, trivial, trivial⟩
    | true =>
      simp only [hprev, hnext, Bool.false_eq_true, if_false, if_true]
      obtain ⟨R, j, hR, huR, hmR, hj, hmem, hidx, hadjR⟩ :=
        next_free_adjacent hb hfr hnext
      have hlR : R.addr ∈ getFreeList b (toFreeListIndex R.hdr.size) := by
        rw [hidx]
        exact hmem
      rw [← hadjR]
      exact coallesceRight_spec hb hfr hufr hlfr hmod hR huR hlR hadjR
  | true =>
    have hprev4 : Block_isFreeRegion b (fr.addr - 4) = true := by
      rw [← sizeofAllocMetadata_eq]
      exact hprev
    obtain ⟨L, jL, hL, huL, hmL, hjL, hmemL, hidxL, hadjL0⟩ :=
      prev_free_adjacent hb hfr hprev4
    have hlL : L.addr ∈ getFreeList b (toFreeListIndex L.hdr.size) := by
      rw [hidxL]
      exact hmemL
    have hadjL : fr.addr = L.addr + L.hdr.size := hadjL0.symm
    cases hnext : Block_isFreeRegion b (fr.addr + fr.hdr.size) with
    | false =>
      simp only [hprev, hnext, Bool.false_eq_true, if_false, if_true]
      exact coallesceLeft_spec hb hfr hufr hlfr hL huL hlL hmL hadjL
    | true =>
      simp only [hprev, hnext, if_true]
      obtain ⟨R, jR, hR, huR, hmR, hjR, hmemR, hidxR, hadjR⟩ :=
        next_free_adjacent hb hfr hnext
      have hlR : R.addr ∈ getFreeList b (toFreeListIndex R.hdr.size) := by
        rw [hidxR]
        exact hmemR
      rw [← hadjR]
      exact coallesceBoth_spec hb hfr hufr hlfr hL huL hlL hmL hadjL hR huR hlR hadjR

theorem deallocateRegion_spec {b : Block} (hb : WFblock b) {r : Region}
    (hr : r ∈ b.regions) (hused : r.hdr.used = true) (hmod : r.addr % 16 = 12) :
    WFblock (Block_deallocateRegion b r.addr) ∧
    (Block_deallocateRegion b r.addr).addr = b.addr ∧
    (Block_deallocateRegion b r.addr).size = b.size := by
  obtain ⟨NR, hNR⟩ : ∃ x : Region, x =
      { addr := r.addr
        hdr := ⟨false, r.hdr.size⟩
        ftr := ⟨false, r.hdr.size⟩
        data := fun i2 => if 4 ≤ i2 ∧ i2 < 20 then 0 else r.data i2 } := ⟨_, rfl⟩
  obtain ⟨B1, hB1⟩ : ∃ x : Block, x = { b with
      usedSize := b.usedSize - r.hdr.size,
      regions := b.regions.map (fun r0 => if r0.addr = r.addr then NR else r0) } :=
    ⟨_, rfl⟩
  have hE1 : Block_freeRegion b r.addr = B1 := by
    rw [hB1, hNR]
    exact freeRegion_eq hb hr
  have hWB1 : WFblock B1 := by
    rw [hB1, hNR]
    exact freeRegion_wf hb hr hused
  have hNR1 : NR ∈ B1.regions := by
    rw [hB1]
    exact List.mem_map.2 ⟨r, hr, by rw [if_pos rfl]⟩
  have hNRaddr : NR.addr = r.addr := by rw [hNR]
  have hNRused : NR.hdr.used = false := by rw [hNR]
  have hnl1 : ∀ j, j < 6 → NR.addr ∉ getFreeList B1 j := by
    rw [hNRaddr, hB1]
    intro j hj
    exact used_not_listed hb hr hused j hj
  obtain ⟨B2, hB2⟩ : ∃ x : Block, x = setFreeList B1 (toFreeListIndex NR.hdr.size)
      (addrListInsert NR.addr (getFreeList B1 (toFreeListIndex NR.hdr.size))) :=
    ⟨_, rfl⟩
  have hE2 : Block_addRegionToFreeList B1 (some r.addr) = B2 := by
    rw [hB2, ← hNRaddr]
    exact addToFreeList_eq hWB1 hNR1
  have hWB2 : WFblock B2 := by
    rw [hB2]
    exact WFblock_set_insert hWB1 hNR1 hNRused (by rw [hNRaddr]; exact hmod) hnl1
  have hNR2 : NR ∈ B2.regions := by rw [hB2]; simpa using hNR1
  have hlNR2 : NR.addr ∈ getFreeList B2 (toFreeListIndex NR.hdr.size) := by
    rw [hB2]
    rw [getFreeList_set_self _ (by rw [wfb_len hWB1]; exact toFreeListIndex_lt_6 _)]
    exact mem_addrListInsert.2 (Or.inl rfl)
  have hEQ : Block_deallocateRegion b r.addr = Block_coallesceFreeRegion B2 r.addr := by
    unfold Block_deallocateRegion
    dsimp only
    rw [hE1, hE2]
  rw [hEQ, ← hNRaddr]
  have hspec := coallesceFreeRegion_spec hWB2 hNR2 hNRused hlNR2
    (by rw [hNRaddr]; exact hmod)
  refine ⟨hspec.1, ?_, ?_⟩
  · rw [hspec.2.1]
    simp only [hB2, setFreeList_addr, hB1]
  · rw [hspec.2.2]
    simp only [hB2, setFreeList_size, hB1]

/-! ## State-level lemmas -/

theorem ws_blockWF {s : AState} (hs : WF s) {b : Block} (hb : b ∈ s.blocks) :
    WFblock b := hs.1 b hb

theorem ws_range {s : AState} (hs : WF s) {b : Block} (hb : b ∈ s.blocks) :
    b.addr % PAGE_SIZE = 0 ∧ PAGE_SIZE ≤ b.addr ∧ b.addr + b.size ≤ s.nextAddr :=
  hs.2.2.1 b hb

theorem ws_disjoint_all {s : AState} (hs : WF s) :
    ∀ b1 ∈ s.blocks, ∀ b2 ∈ s.blocks, b1 ≠ b2 → blockDisjoint b1 b2 := by
  intro b1 h1 b2 h2 hne
  exact List.Pairwise.forall (fun _ _ h => Or.symm h) hs.2.1 h1 h2 hne

theorem ws_addr_inj {s : AState} (hs : WF s) {b1 b2 : Block}
    (h1 : b1 ∈ s.blocks) (h2 : b2 ∈ s.blocks) (h : b1.addr = b2.addr) : b1 = b2 := by
  by_contra hne
  have hd := ws_disjoint_all hs b1 h1 b2 h2 hne
  have hp1 : PAGE_SIZE ≤ b1.size := (ws_blockWF hs h1).2.1
  have hp2 : PAGE_SIZE ≤ b2.size := (ws_blockWF hs h2).2.1
  unfold blockDisjoint at hd
  have hpg : PAGE_SIZE = 4096 := rfl
  omega

theorem getBlock_eq_some {s : AState} (hs : WF s) {b : Block} (hb : b ∈ s.blocks) :
    getBlock s b.addr = some b := by
  unfold getBlock
  refine find?_eq_some_of_unique _ b _ hb (by simp) ?_
  intro y hy hpy
  simp only [beq_iff_eq] at hpy
  exact ws_addr_inj hs hy hb hpy

theorem block_covers_unique {s : AState} (hs : WF s) {b : Block} (hb : b ∈ s.blocks)
    {x : Nat} (h1 : b.addr ≤ x) (h2 : x < b.addr + b.size) :
    ∀ y ∈ s.blocks, y.addr ≤ x → x < y.addr + y.size → y = b := by
  intro y hy hy1 hy2
  by_contra hne
  have hd := ws_disjoint_all hs y hy b hb hne
  unfold blockDisjoint at hd
  omega

theorem blocks_find_cover {s : AState} (hs : WF s) {b : Block} (hb : b ∈ s.blocks)
    {x : Nat} (h1 : b.addr ≤ x) (h2 : x < b.addr + b.size) :
    s.blocks.find? (fun b0 => decide (b0.addr ≤ x ∧ x < b0.addr + b0.size)) = some b := by
  refine find?_eq_some_of_unique _ b _ hb (by simp [h1, h2]) ?_
  intro y hy hpy
  simp only [decide_eq_true_eq] at hpy
  exact block_covers_unique hs hb h1 h2 y hy hpy.1 hpy.2

theorem findRegionGlobal_eq {s : AState} (hs : WF s) {b : Block} (hb : b ∈ s.blocks)
    {x : Nat} (h1 : b.addr ≤ x) (h2 : x < b.addr + b.size) :
    findRegionGlobal s x = findRegion b x := by
  unfold findRegionGlobal
  rw [blocks_find_cover hs hb h1 h2]

theorem rawReadGlobal_eq {s : AState} (hs : WF s) {b : Block} (hb : b ∈ s.blocks)
    {x : Nat} (h1 : b.addr ≤ x) (h2 : x < b.addr + b.size) :
    rawReadGlobal s x = some (Block_rawRead b x) := by
  unfold rawReadGlobal
  rw [blocks_find_cover hs hb h1 h2]

theorem findRegionGlobal_elim {s : AState} {x : Nat} {r : Region}
    (h : findRegionGlobal s x = some r) :
    ∃ b ∈ s.blocks, findRegion b x = some r := by
  unfold findRegionGlobal at h
  rcases hf : s.blocks.find? (fun b0 => decide (b0.addr ≤ x ∧ x < b0.addr + b0.size))
    with _ | b
  · rw [hf] at h
    cases h
  · rw [hf] at h
    exact ⟨b, List.mem_of_find?_eq_some hf, h⟩

theorem validPtr_elim {s : AState} {p : Nat} (hs : WF s) (hp : ValidPtr s p) :
    ∃ b r, b ∈ s.blocks ∧ r ∈ b.regions ∧ r.addr = p - 4 ∧ r.hdr.used = true ∧
      findRegionGlobal s (p - 4) = some r ∧ 4 ≤ p := by
  obtain ⟨hp4, hmap⟩ := hp
  rcases hfg : findRegionGlobal s (p - 4) with _ | r
  · rw [hfg] at hmap
    cases hmap
  · rw [hfg] at hmap
    simp only [Option.map_some', Option.some.injEq, Prod.mk.injEq] at hmap
    obtain ⟨b, hbmem, hfr⟩ := findRegionGlobal_elim hfg
    obtain ⟨hrm, -⟩ := findRegion_mem hfr
    exact ⟨b, r, hbmem, hrm, hmap.1, hmap.2, rfl, hp4⟩

theorem updateBlock_eq {s : AState} (hs : WF s) {b : Block} (hb : b ∈ s.blocks)
    (f : Block → Block) :
    updateBlock s b.addr f =
      { s with blocks := s.blocks.map (fun b0 => if b0.addr = b.addr then f b else b0) } := by
  unfold updateBlock
  congr 1
  apply List.map_congr_left
  intro b0 h0
  by_cases h : b0.addr = b.addr
  · rw [if_pos h, if_pos h, ws_addr_inj hs h0 hb h]
  · rw [if_neg h, if_neg h]

theorem WF_updateBlock {s : AState} (hs : WF s) {b nb : Block} (hb : b ∈ s.blocks)
    (hwf : WFblock nb) (haddr : nb.addr = b.addr) (hsize : nb.size = b.size) :
    WF { s with blocks := s.blocks.map (fun b0 => if b0.addr = b.addr then nb else b0) } := by
  obtain ⟨hbw, hpw, hrange, hna, hnm⟩ := hs
  have hs2 : WF s := ⟨hbw, hpw, hrange, hna, hnm⟩
  refine ⟨?_, ?_, ?_, hna, hnm⟩
  · intro b0 h0
    obtain ⟨b1, hb1, he⟩ := List.mem_map.1 h0
    by_cases h : b1.addr = b.addr
    · rw [if_pos h] at he
      subst he
      exact hwf
    · rw [if_neg h] at he
      subst he
      exact hbw b1 hb1
  · rw [List.pairwise_map]
    refine List.Pairwise.imp_of_mem ?_ hpw
    intro a c ha hc hd
    by_cases h1 : a.addr = b.addr
    · have he1 : a = b := ws_addr_inj hs2 ha hb (by rw [h1])
      by_cases h2 : c.addr = b.addr
      · have he2 : c = a := ws_addr_inj hs2 hc ha (by rw [h2, h1])
        exfalso
        rw [he2] at hd
        have hp1 : PAGE_SIZE ≤ a.size := (ws_blockWF hs2 ha).2.1
        have hpg : PAGE_SIZE = 4096 := rfl
        unfold blockDisjoint at hd
        omega
      · simp only [if_pos h1, if_neg h2]
        rw [he1] at hd
        unfold blockDisjoint at hd ⊢
        omega
    · by_cases h2 : c.addr = b.addr
      · have he2 : c = b := ws_addr_inj hs2 hc hb (by rw [h2])
        simp only [if_neg h1, if_pos h2]
        rw [he2] at hd
        unfold blockDisjoint at hd ⊢
        omega
      · simp only [if_neg h1, if_neg h2]
        exact hd
  · intro b0 h0
    obtain ⟨b1, hb1, he⟩ := List.mem_map.1 h0
    by_cases h : b1.addr = b.addr
    · rw [if_pos h] at he
      subst he
      have he1 : b1 = b := ws_addr_inj hs2 hb1 hb h
      have hr := hrange b hb
      rw [haddr, hsize]
      exact hr
    · rw [if_neg h] at he
      subst he
      exact hrange b1 hb1

theorem WF_removeBlock {s : AState} (hs : WF s) (a : Nat) :
    WF { s with blocks := BlockList_removeBlockFromList s.blocks a } := by
  obtain ⟨hbw, hpw, hrange, hna, hnm⟩ := hs
  have hsub := sublist_removeBlock s.blocks a
  refine ⟨?_, ?_, ?_, hna, hnm⟩
  · intro b0 h0
    exact hbw b0 (hsub.mem h0)
  · exact hpw.sublist hsub
  · intro b0 h0
    exact hrange b0 (hsub.mem h0)

theorem blockInsertTail_perm (x : Block) :
    ∀ l : List Block, (blockInsertTail x l).Perm (x :: l) := by
  intro l
  induction l with
  | nil => exact List.Perm.refl _
  | cons a t ih =>
    cases t with
    | nil =>
      exact List.Perm.swap x a []
    | cons c rest =>
      show (if x.addr < c.addr then a :: blockInsertTail x (c :: rest)
        else a :: x :: c :: rest).Perm (x :: a :: c :: rest)
      split
      · exact (ih.cons a).trans (List.Perm.swap x a _)
      · exact List.Perm.swap x a _

theorem blockInsert_perm (l : List Block) (x : Block) :
    (BlockList_addBlockToList l x).Perm (x :: l) := by
  cases l with
  | nil => exact List.Perm.refl _
  | cons a rest =>
    show (if x.addr < a.addr then x :: a :: rest
      else blockInsertTail x (a :: rest)).Perm (x :: a :: rest)
    split
    · exact List.Perm.refl _
    · exact blockInsertTail_perm x (a :: rest)

theorem WF_blocks_perm {s : AState} {l2 : List Block} (hp : s.blocks.Perm l2)
    (h : WF { s with blocks := l2 }) : WF s := by
  obtain ⟨hbw, hpw, hrange, hna, hnm⟩ := h
  refine ⟨?_, ?_, ?_, hna, hnm⟩
  · intro b0 h0
    exact hbw b0 (hp.mem_iff.1 h0)
  · exact (hp.pairwise_iff (fun h => Or.symm h)).2 hpw
  · intro b0 h0
    exact hrange b0 (hp.mem_iff.1 h0)

theorem free_spec {s : AState} {p : Nat} (hs : WF s) (hp : ValidPtr s p)
    (h16 : p % 16 = 0) : ∃ s1, free s p = some s1 ∧ WF s1 := by
  obtain ⟨b, r, hbmem, hrm, hraddr, hused, -, hp4⟩ := validPtr_elim hs hp
  have hwb := ws_blockWF hs hbmem
  have hs28 := wfb_size28 hwb hrm
  obtain ⟨hbd1, hbd2⟩ := wfb_bounds hwb hrm
  have hPA : p - sizeofAllocMetadata = r.addr := by
    simp only [sizeofAllocMetadata_eq]
    omega
  have hcov1 : b.addr ≤ r.addr := by omega
  have hcov2 : r.addr < b.addr + b.size := by omega
  have hRRG : rawReadGlobal s r.addr = some (rawOfMeta r.hdr) := by
    rw [rawReadGlobal_eq hs hbmem hcov1 hcov2, Block_rawRead_hdr hwb hrm]
  have hpcov1 : b.addr ≤ p := by omega
  have hpcov2 : p < b.addr + b.size := by omega
  have hGBR : getBlockWithRegion s p = some b.addr := by
    unfold getBlockWithRegion
    rw [blocks_find_cover hs hbmem hpcov1 hpcov2]
    rfl
  have hGB : getBlock s b.addr = some b := getBlock_eq_some hs hbmem
  have hmod : r.addr % 16 = 12 := by omega
  obtain ⟨hwf1, haddr1, hsize1⟩ := deallocateRegion_spec hwb hrm hused hmod
  obtain ⟨S1, hS1⟩ : ∃ x : AState,
      x = updateBlock s b.addr (fun _ => Block_deallocateRegion b r.addr) := ⟨_, rfl⟩
  have hWFS1 : WF S1 := by
    rw [hS1]
    unfold updateBlock
    exact WF_updateBlock hs hbmem hwf1 haddr1 hsize1
  have hEQ : free s p =
      if Block_haveUserAllocations (Block_deallocateRegion b r.addr)
          S1.emptyBlockOverheadSize then some S1
      else some { S1 with blocks := BlockList_removeBlockFromList S1.blocks b.addr } := by
    unfold free
    dsimp only
    rw [hPA, hRRG]
    dsimp only
    rw [if_neg (by simp [rawOfMeta, hused]), hGBR]
    dsimp only
    rw [hGB]
    dsimp only
    rw [← hS1]
  rw [hEQ]
  split
  · exact ⟨S1, rfl, hWFS1⟩
  · exact ⟨_, rfl, WF_removeBlock hWFS1 b.addr⟩

/-! ## The fresh-block path -/

theorem getSizeForAlignment_24 {a : Nat} (h : a % 16 = 0) :
    FreeRegion_getSizeForAlignment a 24 = 44 := by
  unfold FreeRegion_getSizeForAlignment
  dsimp only
  simp only [sizeofFreeRegionHeader_eq, sizeofAllocMetadata_eq]
  rw [if_neg (by omega)]
  omega

theorem getSizeForAlignment_8 {a : Nat} (h : a % 16 = 12) :
    FreeRegion_getSizeForAlignment a 8 = 32 := by
  unfold FreeRegion_getSizeForAlignment
  dsimp only
  simp only [sizeofFreeRegionHeader_eq, sizeofAllocMetadata_eq]
  rw [if_neg (by omega)]
  omega

theorem getSizeForAlignment_zero (a : Nat) :
    FreeRegion_getSizeForAlignment a 0 = FreeRegion_getSizeForAlignment a 8 := by
  unfold FreeRegion_getSizeForAlignment
  dsimp only
  simp only [sizeofFreeRegionHeader_eq, sizeofAllocMetadata_eq]
  rw [if_neg (by omega), if_neg (by omega)]

theorem find?_congr {α : Type} (p q : α → Bool) (hpq : ∀ a, p a = q a) :
    ∀ l : List α, l.find? p = l.find? q := by
  intro l
  induction l with
  | nil => rfl
  | cons a t ih =>
    rw [List.find?_cons, List.find?_cons, hpq a, ih]

theorem canAllocateSize_zero (b : Block) :
    Block_canAllocateSize b 0 = Block_canAllocateSize b 8 := by
  unfold Block_canAllocateSize
  refine find?_congr _ _ ?_ _
  intro a
  rw [getSizeForAlignment_zero]

theorem createHeapBlock_spec {s : AState} (hos : osOk s)
    (hal : s.nextAddr % PAGE_SIZE = 0) (sz : Nat) :
    ∃ blk1 s1, createHeapBlock s sz = (some blk1, s1) ∧
      s1.blocks = s.blocks ∧
      s1.emptyBlockOverheadSize = s.emptyBlockOverheadSize ∧
      s1.nextAddr = s.nextAddr + blk1.pages * PAGE_SIZE ∧
      blk1.addr = s.nextAddr ∧
      blk1.size = blk1.pages * PAGE_SIZE ∧
      PAGE_SIZE ≤ blk1.size ∧
      blk1.usedSize = 124 ∧
      blk1.freeLists = [[], [], [], [], [], [s.nextAddr + 124]] ∧
      (∃ d1 d2, blk1.regions =
        [{ addr := s.nextAddr + 80, hdr := ⟨true, 44⟩, ftr := ⟨true, 44⟩, data := d1 },
         { addr := s.nextAddr + 124, hdr := ⟨false, blk1.size - 124⟩
           ftr := ⟨false, blk1.size - 124⟩, data := d2 }]) ∧
      WFblock blk1 := by
  have hal4096 : s.nextAddr % 4096 = 0 := by simpa using hal
  obtain ⟨pq, hpq⟩ : ∃ x, x = (sz + 108) / 4096 +
      (if (sz + 108) % 4096 > 0 then 1 else 0) := ⟨_, rfl⟩
  have hpq1 : 1 ≤ pq := by
    rw [hpq]
    split
    all_goals omega
  have hbsz : 4096 ≤ pq * 4096 := by omega
  have hlib : ∃ S1 : AState, libhalloc_alloc s pq = (some s.nextAddr, S1) ∧
      S1.blocks = s.blocks ∧ S1.emptyBlockOverheadSize = s.emptyBlockOverheadSize ∧
      S1.nextAddr = s.nextAddr + pq * PAGE_SIZE := by
    unfold libhalloc_alloc
    rcases hof : s.osFail with _ | ⟨f, rest⟩
    · exact ⟨_, rfl, rfl, rfl, rfl⟩
    · have hf : f = false := by
        unfold osOk at hos
        rw [hof] at hos
        simpa using hos
      subst hf
      dsimp only
      rw [if_neg (by simp)]
      exact ⟨_, rfl, rfl, rfl, rfl⟩
  obtain ⟨S1, hLA, hS1b, hS1e, hS1n⟩ := hlib
  obtain ⟨R0, hR0⟩ : ∃ x : Region, x = FreeRegion_create (s.nextAddr + 80)
      (pq * 4096 - 80) (fun _ => 0) := ⟨_, rfl⟩
  obtain ⟨B0, hB0⟩ : ∃ x : Block, x =
      { addr := s.nextAddr
        pages := pq
        size := pq * 4096
        usedSize := 80
        freeLists := [[], [], [], [], [], [s.nextAddr + 80]]
        regions := [R0] } := ⟨_, rfl⟩
  have hBC : Block_create s sz = (some B0, S1) := by
    unfold Block_create
    dsimp only
    simp only [sizeofBlockHeader_eq, sizeofFreeRegionHeader_eq, sizeofAllocMetadata_eq,
      PAGE_SIZE_eq]
    rw [← hpq, hLA]
    dsimp only
    rw [← hR0, ← hB0]
  have hA16 : (s.nextAddr + 80) % 16 = 0 := by omega
  have hR0addr : R0.addr = s.nextAddr + 80 := by rw [hR0]; rfl
  have hR0size : R0.hdr.size = pq * 4096 - 80 := by rw [hR0]; rfl
  have hR0data : R0.data = fun _ => (0 : Nat) := by rw [hR0]; rfl
  have hrr0 : Block_rawRead B0 (s.nextAddr + 80) = rawOfMeta R0.hdr := by
    rw [hB0]
    unfold Block_rawRead
    dsimp only
    rw [List.find?_cons_of_pos _ (by
      simp only [hR0addr, hR0size, decide_eq_true_eq]
      omega)]
    dsimp only
    unfold regionRawRead
    rw [if_pos hR0addr.symm]
  have hcan24 : Block_canAllocateSize B0 24 = some (s.nextAddr + 80) := by
    have hconc : concatLists B0.freeLists = [s.nextAddr + 80] := by
      rw [hB0]
      rfl
    unfold Block_canAllocateSize
    rw [hconc, List.find?_cons_of_pos _ (by
      rw [hrr0, getSizeForAlignment_24 hA16]
      simp only [rawOfMeta, hR0size, decide_eq_true_eq]
      omega)]
  obtain ⟨B1, hB1⟩ : ∃ x : Block, x = { B0 with
      freeLists := [[], [], [], [], [], []] } := ⟨_, rfl⟩
  have hrem : Block_removeRegionFromFreeList B0 (s.nextAddr + 80) = B1 := by
    unfold Block_removeRegionFromFreeList
    dsimp only
    rw [hrr0]
    have hsz5 : toFreeListIndex (rawOfMeta R0.hdr).size = 5 := by
      show toFreeListIndex R0.hdr.size = 5
      rw [hR0size]
      exact toFreeListIndex_eq_5 (by omega)
    rw [hsz5, hB1, hB0]
    simp [setFreeList, getFreeList]
  have hfind : findRegion B1 (s.nextAddr + 80) = some R0 := by
    unfold findRegion
    rw [hB1]
    dsimp only
    rw [hB0]
    dsimp only
    rw [List.find?_cons_of_pos _ (by simp [hR0addr])]
  obtain ⟨HD, hHD⟩ : ∃ x : Region,
      x = FreeRegion_create (s.nextAddr + 80) 44 R0.data := ⟨_, rfl⟩
  obtain ⟨NF, hNF⟩ : ∃ x : Region, x = FreeRegion_create (s.nextAddr + 124)
      (pq * 4096 - 80 - 44) (fun i => R0.data (44 + i)) := ⟨_, rfl⟩
  have hguard : (regionRawRead R0 (s.nextAddr + 124)).used4 = 0 := by
    unfold regionRawRead
    rw [if_neg (by rw [hR0addr]; omega),
      if_neg (by
        rw [hR0addr, hR0size]
        simp only [sizeofAllocMetadata_eq]
        omega)]
    rw [hR0data]
    rfl
  have hsfst : (FreeRegion_split R0 24).1 = HD := by
    rw [hHD]
    have h := split_fst R0 24
    rw [hR0addr, getSizeForAlignment_24 hA16] at h
    exact h
  have hsplit2 : (FreeRegion_split R0 24).2 = some NF := by
    unfold FreeRegion_split
    dsimp only
    simp only [hR0addr, hR0size, getSizeForAlignment_24 hA16]
    rw [if_neg (by rw [hguard]; omega)]
    rw [if_neg (by
      simp only [sizeofFreeRegionHeader_eq, sizeofAllocMetadata_eq]
      omega)]
    rw [← hNF]
  have hmap : B1.regions.map (fun r0 => if r0.addr = s.nextAddr + 80 then HD else r0)
      = [HD] := by
    rw [hB1]
    dsimp only
    rw [hB0]
    dsimp only
    simp only [List.map_cons, List.map_nil]
    rw [if_pos hR0addr]
  obtain ⟨B3, hB3⟩ : ∃ x : Block, x = { B1 with regions := [HD, NF] } := ⟨_, rfl⟩
  have hB3flat : B3 =
      { addr := B1.addr
        pages := B1.pages
        size := B1.size
        usedSize := B1.usedSize
        freeLists := B1.freeLists
        regions := (B1.regions.map
          (fun r0 => if r0.addr = s.nextAddr + 80 then HD else r0)) ++ [NF] } := by
    rw [hB3, hmap]
    rfl
  have hNFaddr : NF.addr = s.nextAddr + 124 := by rw [hNF]; rfl
  have hNFsize : NF.hdr.size = pq * 4096 - 80 - 44 := by rw [hNF]; rfl
  have hHDaddr : HD.addr = s.nextAddr + 80 := by rw [hHD]; rfl
  have hHDsize : HD.hdr.size = 44 := by rw [hHD]; rfl
  have hrrNF : Block_rawRead B3 (s.nextAddr + 124) = rawOfMeta NF.hdr := by
    rw [hB3]
    unfold Block_rawRead
    dsimp only
    rw [List.find?_cons_of_neg _ (by
      simp only [hHDaddr, hHDsize, decide_eq_true_eq]
      omega)]
    rw [List.find?_cons_of_pos _ (by
      simp only [hNFaddr, hNFsize, decide_eq_true_eq]
      omega)]
    dsimp only
    unfold regionRawRead
    rw [if_pos hNFaddr.symm]
  obtain ⟨B4, hB4⟩ : ∃ x : Block, x = { B3 with
      freeLists := [[], [], [], [], [], [s.nextAddr + 124]] } := ⟨_, rfl⟩
  have hi5NF : toFreeListIndex (rawOfMeta NF.hdr).size = 5 := by
    show toFreeListIndex NF.hdr.size = 5
    rw [hNFsize]
    exact toFreeListIndex_eq_5 (by omega)
  have hadd : Block_addRegionToFreeList B3 (some (s.nextAddr + 124)) = B4 := by
    unfold Block_addRegionToFreeList
    dsimp only
    rw [hrrNF]
    rw [if_neg (by
      show ¬(NF.hdr.size = 0)
      rw [hNFsize]
      omega)]
    rw [hi5NF, hB4, hB3, hB1]
    simp [setFreeList, getFreeList, addrListInsert]
  obtain ⟨BLK1, hBLK1⟩ : ∃ x : Block, x =
      { addr := s.nextAddr
        pages := pq
        size := pq * 4096
        usedSize := 124
        freeLists := [[], [], [], [], [], [s.nextAddr + 124]]
        regions := [(⟨s.nextAddr + 80, ⟨true, 44⟩, ⟨true, 44⟩, R0.data⟩ : Region),
          NF] } := ⟨_, rfl⟩
  have hrrHD : Block_rawRead B4 (s.nextAddr + 80) = rawOfMeta HD.hdr := by
    rw [hB4]
    unfold Block_rawRead
    dsimp only
    rw [hB3]
    dsimp only
    rw [List.find?_cons_of_pos _ (by
      simp only [hHDaddr, hHDsize, decide_eq_true_eq]
      omega)]
    dsimp only
    unfold regionRawRead
    rw [if_pos hHDaddr.symm]
  have h44 : (rawOfMeta HD.hdr).size = 44 := by
    show HD.hdr.size = 44
    exact hHDsize
  have hUSE : Block_useRegion B4 (s.nextAddr + 80) = (s.nextAddr + 80, BLK1) := by
    unfold Block_useRegion
    dsimp only
    rw [hrrHD, h44]
    unfold updateRegion
    dsimp only
    rw [hB4]
    dsimp only
    rw [hB3]
    dsimp only
    simp only [List.map_cons, List.map_nil]
    rw [if_pos hHDaddr, if_neg (by rw [hNFaddr]; omega)]
    simp only [hBLK1, hHD, hB1, hB0]
    simp [FreeRegion_create]
  have hAB : Block_allocateRegion B0 16 = (some (s.nextAddr + 80), BLK1) := by
    unfold Block_allocateRegion
    dsimp only
    simp only [REGION_OVERHEAD_SIZE_eq]
    rw [hcan24]
    dsimp only
    rw [hrem, hfind]
    dsimp only
    rw [hsfst, hsplit2]
    dsimp only [Option.map]
    rw [← hB3flat, hNFaddr, hadd, hUSE]
  have hCH : createHeapBlock s sz = (some BLK1, S1) := by
    unfold createHeapBlock
    dsimp only
    rw [hBC]
    dsimp only
    rw [hAB]
  have hwfB : WFblock BLK1 := by
    rw [hBLK1]
    refine ⟨rfl, ?_, ?_, ?_, ?_⟩
    · show PAGE_SIZE ≤ pq * 4096
      simp only [PAGE_SIZE_eq]
      omega
    · intro r hr
      rcases List.mem_cons.1 hr with he | hr2
      · subst he
        refine ⟨?_, rfl, ?_, ?_⟩
        · show sizeofFreeRegionHeader + sizeofAllocMetadata ≤ 44
          simp only [sizeofFreeRegionHeader_eq, sizeofAllocMetadata_eq]
          omega
        · show s.nextAddr + sizeofBlockHeader ≤ s.nextAddr + 80
          simp only [sizeofBlockHeader_eq]
          omega
        · show s.nextAddr + 80 + 44 ≤ s.nextAddr + pq * 4096
          omega
      · have he : r = NF := by simpa using hr2
        rw [he]
        refine ⟨?_, ?_, ?_, ?_⟩
        · show sizeofFreeRegionHeader + sizeofAllocMetadata ≤ NF.hdr.size
          rw [hNFsize]
          simp only [sizeofFreeRegionHeader_eq, sizeofAllocMetadata_eq]
          omega
        · rw [hNF]
          rfl
        · show _ + sizeofBlockHeader ≤ NF.addr
          rw [hNFaddr]
          simp only [sizeofBlockHeader_eq]
          omega
        · show NF.addr + NF.hdr.size ≤ s.nextAddr + pq * 4096
          rw [hNFaddr, hNFsize]
          omega
    · refine List.pairwise_cons.2 ⟨?_, List.pairwise_singleton _ _⟩
      intro r2 hr2
      have he : r2 = NF := by simpa using hr2
      rw [he]
      unfold regionDisjoint
      left
      show s.nextAddr + 80 + 44 ≤ NF.addr
      rw [hNFaddr]
    · intro i hi
      have hi6 : i < 6 := List.mem_range.1 hi
      interval_cases i
      · exact ⟨by simp [getFreeList], by intro a ha; simp [getFreeList] at ha⟩
      · exact ⟨by simp [getFreeList], by intro a ha; simp [getFreeList] at ha⟩
      · exact ⟨by simp [getFreeList], by intro a ha; simp [getFreeList] at ha⟩
      · exact ⟨by simp [getFreeList], by intro a ha; simp [getFreeList] at ha⟩
      · exact ⟨by simp [getFreeList], by intro a ha; simp [getFreeList] at ha⟩
      · refine ⟨by simp [getFreeList], ?_⟩
        intro a ha
        have he : a = s.nextAddr + 124 := by simpa [getFreeList] using ha
        subst he
        refine ⟨by omega, NF, by simp, hNFaddr, by rw [hNF]; rfl, ?_⟩
        rw [hNFsize]
        exact toFreeListIndex_eq_5 (by omega)
  refine ⟨BLK1, S1, hCH, hS1b, hS1e, ?_, ?_, ?_, ?_, ?_, ?_,
    ⟨R0.data, fun i => R0.data (44 + i), ?_⟩, hwfB⟩
  · simp only [hBLK1]
    exact hS1n
  · simp only [hBLK1]
  · simp only [hBLK1, PAGE_SIZE_eq]
  · simp only [hBLK1, PAGE_SIZE_eq]
    omega
  · simp only [hBLK1]
  · simp only [hBLK1]
  · simp only [hBLK1]
    rw [hNF]
    unfold FreeRegion_create
    rw [show pq * 4096 - 80 - 44 = pq * 4096 - 124 from by omega]

/-! ## malloc -/

theorem allocateRegion_none {b : Block} {n : Nat}
    (hca : Block_canAllocateSize b (n + REGION_OVERHEAD_SIZE) = none) :
    Block_allocateRegion b n = (none, b) := by
  unfold Block_allocateRegion
  dsimp only
  rw [hca]

theorem allocateRegion_ret {b : Block} (hb : WFblock b) {n a : Nat}
    (hca : Block_canAllocateSize b (n + REGION_OVERHEAD_SIZE) = some a) :
    ∃ b2, Block_allocateRegion b n = (some a, b2) := by
  obtain ⟨i, r, hi6, hgi, hr, haddr, hu, hidx, hmod, hlt⟩ := canAllocateSize_spec hb hca
  subst haddr
  have hrem : Block_removeRegionFromFreeList b r.addr =
      setFreeList b (toFreeListIndex r.hdr.size)
        ((getFreeList b (toFreeListIndex r.hdr.size)).erase r.addr) :=
    removeFromFreeList_eq hb hr
  have hb1wf : WFblock (setFreeList b (toFreeListIndex r.hdr.size)
      ((getFreeList b (toFreeListIndex r.hdr.size)).erase r.addr)) :=
    WFblock_set_erase hb (toFreeListIndex_lt_6 _) r.addr
  have hr1 : r ∈ (setFreeList b (toFreeListIndex r.hdr.size)
      ((getFreeList b (toFreeListIndex r.hdr.size)).erase r.addr)).regions := by
    simpa using hr
  have hfind := findRegion_eq_some hb1wf hr1
  unfold Block_allocateRegion
  dsimp only
  rw [hca]
  dsimp only
  rw [hrem, hfind]
  dsimp only
  unfold Block_useRegion
  dsimp only
  exact ⟨_, rfl⟩

theorem getBlock_elim {s : AState} {a : Nat} {b : Block} (h : getBlock s a = some b) :
    b ∈ s.blocks ∧ b.addr = a := by
  unfold getBlock at h
  refine ⟨List.mem_of_find?_eq_some h, ?_⟩
  have := List.find?_some h
  simpa using this

theorem findRegionGlobal_mono {s s1 : AState} (hs1 : WF s1)
    (hmem : ∀ b ∈ s.blocks, b ∈ s1.blocks) {x : Nat} {r : Region}
    (h : findRegionGlobal s x = some r) : findRegionGlobal s1 x = some r := by
  obtain ⟨b, hb, hfr⟩ := findRegionGlobal_elim h
  obtain ⟨hrm, hra⟩ := findRegion_mem hfr
  have hb1 : b ∈ s1.blocks := hmem b hb
  have hwb := ws_blockWF hs1 hb1
  have hs28 := wfb_size28 hwb hrm
  obtain ⟨hbd1, hbd2⟩ := wfb_bounds hwb hrm
  rw [findRegionGlobal_eq hs1 hb1 (by omega) (by omega)]
  exact hfr

theorem WF_transfer {s s1 : AState} (hs : WF s) (hb : s1.blocks = s.blocks)
    (hn : s1.nextAddr = s.nextAddr) : WF s1 := by
  obtain ⟨h1, h2, h3, h4, h5⟩ := hs
  refine ⟨?_, ?_, ?_, ?_, ?_⟩
  · rw [hb]
    exact h1
  · rw [hb]
    exact h2
  · rw [hb, hn]
    exact h3
  · rw [hn]
    exact h4
  · rw [hn]
    exact h5

theorem createHeapBlock_fail {s : AState} (h : ¬ osOk s) (sz : Nat) :
    ∃ s1, createHeapBlock s sz = (none, s1) ∧ s1.blocks = s.blocks ∧
      s1.nextAddr = s.nextAddr ∧ (WF s → WF s1) := by
  unfold osOk at h
  rcases hof : s.osFail with _ | ⟨f, rest⟩
  · rw [hof] at h
    simp at h
  · rw [hof] at h
    simp only [List.headD_cons] at h
    have hf : f = true := by
      cases f
      · exact absurd rfl h
      · rfl
    subst hf
    refine ⟨{ s with osFail := rest }, ?_, rfl, rfl, fun hws => WF_transfer hws rfl rfl⟩
    unfold createHeapBlock Block_create libhalloc_alloc
    dsimp only
    rw [hof]
    dsimp only
    rw [if_pos rfl]

theorem WF_addBlock {s s1 : AState} (hs : WF s) {blk : Block} (hwf : WFblock blk)
    (haddr : blk.addr = s.nextAddr) (hsz : blk.size = blk.pages * PAGE_SIZE)
    (hbl : s1.blocks = BlockList_addBlockToList s.blocks blk)
    (hn : s1.nextAddr = s.nextAddr + blk.pages * PAGE_SIZE) : WF s1 := by
  have hperm : s1.blocks.Perm (blk :: s.blocks) := by
    rw [hbl]
    exact blockInsert_perm s.blocks blk
  refine WF_blocks_perm hperm ?_
  obtain ⟨h1, h2, h3, h4, h5⟩ := hs
  have hs2 : WF s := ⟨h1, h2, h3, h4, h5⟩
  have hpg : PAGE_SIZE = 4096 := rfl
  refine ⟨?_, ?_, ?_, ?_, ?_⟩
  · intro b0 h0
    rcases List.mem_cons.1 h0 with he | h0
    · subst he
      exact hwf
    · exact h1 b0 h0
  · refine List.pairwise_cons.2 ⟨?_, h2⟩
    intro b0 h0
    obtain ⟨-, -, hlt⟩ := h3 b0 h0
    unfold blockDisjoint
    right
    omega
  · intro b0 h0
    show b0.addr % PAGE_SIZE = 0 ∧ PAGE_SIZE ≤ b0.addr ∧ b0.addr + b0.size ≤ s1.nextAddr
    rcases List.mem_cons.1 h0 with he | h0
    · subst he
      refine ⟨by rw [haddr]; exact h4, by rw [haddr]; exact h5, ?_⟩
      rw [haddr, hsz, hn]
    · obtain ⟨ha1, ha2, ha3⟩ := h3 b0 h0
      refine ⟨ha1, ha2, ?_⟩
      rw [hn]
      omega
  · rw [hn]
    simp only [PAGE_SIZE_eq] at h4 ⊢
    omega
  · rw [hn]
    simp only [PAGE_SIZE_eq] at h5 ⊢
    omega

theorem getBWFR_spec {s : AState} (hs : WF s) (n : Nat) :
    getBlockWithFreeRegion s n = none ∨
    (∃ s1, getBlockWithFreeRegion s n = some (none, s1) ∧ WF s1 ∧
      s1.blocks = s.blocks) ∨
    (∃ ba s1, getBlockWithFreeRegion s n = some (some ba, s1) ∧ WF s1 ∧
      ∀ b0 ∈ s.blocks, b0 ∈ s1.blocks) := by
  unfold getBlockWithFreeRegion
  cases hemp : s.blocks.isEmpty with
  | true =>
    simp only [hemp, if_true]
    by_cases hok : osOk s
    · obtain ⟨blk1, s1, hCH, hb1, he1, hn1, haddr, hszb, hpgb, hus, hfl, hregs, hwfb⟩ :=
        createHeapBlock_spec hok hs.2.2.2.1 (PAGE_SIZE * 4)
      rw [hCH]
      dsimp only
      right
      right
      refine ⟨blk1.addr, _, rfl, ?_, ?_⟩
      · refine WF_addBlock hs hwfb haddr hszb ?_ ?_
        · show BlockList_addBlockToList s1.blocks blk1 = _
          rw [hb1]
        · show s1.nextAddr = _
          rw [hn1]
      · intro b0 h0
        have hnil : s.blocks = [] := by
          cases hbl : s.blocks
          · rfl
          · rw [hbl] at hemp
            cases hemp
        rw [hnil] at h0
        cases h0
    · obtain ⟨s1, hCH, hb1, hn1, hwf1⟩ := createHeapBlock_fail hok (PAGE_SIZE * 4)
      rw [hCH]
      dsimp only
      left
      rfl
  | false =>
    simp only [hemp, Bool.false_eq_true, if_false]
    rcases hfind : s.blocks.find?
        (fun b => !Block_isFull b && (Block_canAllocateSize b n).isSome) with _ | b
    · by_cases hok : osOk s
      · obtain ⟨blk1, s1, hCH, hb1, he1, hn1, haddr, hszb, hpgb, hus, hfl, hregs, hwfb⟩ :=
          createHeapBlock_spec hok hs.2.2.2.1 n
        rw [hCH]
        dsimp only
        right
        right
        refine ⟨blk1.addr, _, rfl, ?_, ?_⟩
        · refine WF_addBlock hs hwfb haddr hszb ?_ ?_
          · show BlockList_addBlockToList s1.blocks blk1 = _
            rw [hb1]
          · show s1.nextAddr = _
            rw [hn1]
        · intro b0 h0
          show b0 ∈ BlockList_addBlockToList s1.blocks blk1
          refine (blockInsert_perm s1.blocks blk1).mem_iff.2 ?_
          rw [hb1]
          exact List.mem_cons_of_mem _ h0
      · obtain ⟨s1, hCH, hb1, hn1, hwf1⟩ := createHeapBlock_fail hok n
        rw [hCH]
        dsimp only
        right
        left
        exact ⟨s1, rfl, hwf1 hs, hb1⟩
    · dsimp only
      right
      right
      exact ⟨b.addr, s, rfl, hs, fun b0 h0 => h0⟩

theorem malloc_spec {s : AState} (hs : WF s) (n : Nat) :
    (∀ r s2, malloc s n = some (r, s2) → WF s2) ∧
    (∀ p s2, malloc s n = some (some p, s2) →
      p % 16 = 0 ∧ 4 ≤ p ∧
      ∃ r, findRegionGlobal s2 (p - 4) = some r ∧ r.addr = p - 4 ∧
        r.hdr.used = true) ∧
    (∀ s2, malloc s n = some (none, s2) →
      ∀ x r, findRegionGlobal s x = some r → findRegionGlobal s2 x = some r) ∧
    (∀ p2 s2, malloc s n = some (some p2, s2) →
      ∀ x r, findRegionGlobal s x = some r → r.hdr.used = true →
        findRegionGlobal s2 x = some r) := by
  unfold malloc
  rcases getBWFR_spec hs n with hg | ⟨s1, hg, hwf1, hbl1⟩ | ⟨ba, s1, hg, hwf1, hmono⟩
  · rw [hg]
    refine ⟨?_, ?_, ?_, ?_⟩
    · intro r s2 h
      cases h
    · intro p s2 h
      cases h
    · intro s2 h
      cases h
    · intro p s2 h
      cases h
  · rw [hg]
    refine ⟨?_, ?_, ?_, ?_⟩
    · intro r s2 h
      injection h with h
      injection h with h1 h2
      rw [← h2]
      exact hwf1
    · intro p s2 h
      injection h with h
      injection h with h1 h2
      cases h1
    · intro s2 h
      injection h with h
      injection h with h1 h2
      subst h2
      intro x r hx
      unfold findRegionGlobal at hx ⊢
      rw [hbl1]
      exact hx
    · intro p s2 h
      injection h with h
      injection h with h1 h2
      cases h1
  · rw [hg]
    dsimp only
    rcases hgb : getBlock s1 ba with _ | b
    · dsimp only
      refine ⟨?_, ?_, ?_, ?_⟩
      · intro r s2 h
        injection h with h
        injection h with h1 h2
        rw [← h2]
        exact hwf1
      · intro p s2 h
        injection h with h
        injection h with h1 h2
        cases h1
      · intro s2 h
        injection h with h
        injection h with h1 h2
        subst h2
        intro x r hx
        exact findRegionGlobal_mono hwf1 hmono hx
      · intro p s2 h
        injection h with h
        injection h with h1 h2
        cases h1
    · obtain ⟨hbm, hba⟩ := getBlock_elim hgb
      subst hba
      have hwb := ws_blockWF hwf1 hbm
      obtain ⟨hwfa, haddra, hsizea, hpres, hreta⟩ := allocateRegion_spec hwb n
      have hwfs2 : WF (updateBlock s1 b.addr
          (fun _ => (Block_allocateRegion b n).2)) := by
        unfold updateBlock
        exact WF_updateBlock hwf1 hbm hwfa haddra hsizea
      have habm : (Block_allocateRegion b n).2 ∈ (updateBlock s1 b.addr
          (fun _ => (Block_allocateRegion b n).2)).blocks := by
        unfold updateBlock
        exact List.mem_map.2 ⟨b, hbm, by rw [if_pos rfl]⟩
      dsimp only
      rcases hret : (Block_allocateRegion b n).1 with _ | a
      · dsimp only
        refine ⟨?_, ?_, ?_, ?_⟩
        · intro r s2 h
          injection h with h
          injection h with h1 h2
          rw [← h2]
          exact hwfs2
        · intro p s2 h
          injection h with h
          injection h with h1 h2
          cases h1
        · intro s2 h
          injection h with h
          injection h with h1 h2
          subst h2
          intro x r hx
          have hab2 : (Block_allocateRegion b n).2 = b := by
            rcases hca : Block_canAllocateSize b (n + REGION_OVERHEAD_SIZE) with _ | a0
            · rw [allocateRegion_none hca]
            · obtain ⟨b2, hb2⟩ := allocateRegion_ret hwb hca
              rw [hb2] at hret
              cases hret
          have hmapid : s1.blocks.map (fun b0 =>
              if b0.addr = b.addr then (Block_allocateRegion b n).2 else b0)
              = s1.blocks := by
            rw [hab2]
            conv_rhs => rw [← List.map_id s1.blocks]
            refine List.map_congr_left ?_
            intro b0 h0
            by_cases h : b0.addr = b.addr
            · rw [if_pos h]
              exact (ws_addr_inj hwf1 h0 hbm h).symm
            · rw [if_neg h]
              rfl
          have heqb : (updateBlock s1 b.addr
              (fun _ => (Block_allocateRegion b n).2)).blocks = s1.blocks := by
            unfold updateBlock
            exact hmapid
          unfold findRegionGlobal
          rw [heqb]
          have := findRegionGlobal_mono hwf1 hmono hx
          unfold findRegionGlobal at this
          exact this
        · intro p s2 h
          injection h with h
          injection h with h1 h2
          cases h1
      · dsimp only
        refine ⟨?_, ?_, ?_, ?_⟩
        · intro r s2 h
          injection h with h
          injection h with h1 h2
          rw [← h2]
          exact hwfs2
        · intro p s2 h
          injection h with h
          injection h with h1 h2
          subst h2
          obtain ⟨hconc, r2, hr2m, hr2a, hr2u⟩ := hreta a hret
          have hmod12 : a % 16 = 12 := (listed_region hwb hconc).1
          have hp : p = a + sizeofAllocMetadata := by
            injection h1 with h1
            exact h1.symm
          have hp4 : p = a + 4 := by
            rw [hp]
            rfl
          have hs28 := wfb_size28 hwfa hr2m
          obtain ⟨hbd1, hbd2⟩ := wfb_bounds hwfa hr2m
          refine ⟨by omega, by omega, r2, ?_, by omega, hr2u⟩
          have hpa : p - 4 = a := by omega
          rw [hpa]
          rw [findRegionGlobal_eq hwfs2 habm (by omega) (by omega)]
          rw [← hr2a]
          exact findRegion_eq_some hwfa hr2m
        · intro s2 h
          injection h with h
          injection h with h1 h2
          cases h1
        · intro p2 s2 h
          injection h with h
          injection h with h1 h2
          subst h2
          intro x r hx hu
          obtain ⟨b0, hb0, hfr0⟩ := findRegionGlobal_elim hx
          obtain ⟨hr0m, hr0a⟩ := findRegion_mem hfr0
          have hb0s1 : b0 ∈ s1.blocks := hmono b0 hb0
          by_cases hcase : b0.addr = b.addr
          · have he : b0 = b := ws_addr_inj hwf1 hb0s1 hbm hcase
            subst he
            have hrm2 : r ∈ (Block_allocateRegion b0 n).2.regions := hpres r hr0m hu
            have hs28 := wfb_size28 hwfa hrm2
            obtain ⟨hbd1, hbd2⟩ := wfb_bounds hwfa hrm2
            rw [findRegionGlobal_eq hwfs2 habm (by omega) (by omega)]
            rw [← hr0a]
            exact findRegion_eq_some hwfa hrm2
          · have hb0s2 : b0 ∈ (updateBlock s1 b.addr
                (fun _ => (Block_allocateRegion b n).2)).blocks := by
              unfold updateBlock
              exact List.mem_map.2 ⟨b0, hb0s1, by rw [if_neg hcase]⟩
            have hwb0 := ws_blockWF hwfs2 hb0s2
            have hs28 := wfb_size28 hwb0 hr0m
            obtain ⟨hbd1, hbd2⟩ := wfb_bounds hwb0 hr0m
            rw [findRegionGlobal_eq hwfs2 hb0s2 (by omega) (by omega)]
            rw [← hr0a]
            exact findRegion_eq_some hwb0 hr0m

/-! ## Payload rewriting (memcpy and memset) -/

theorem WFblock_meta_map {b : Block} (hb : WFblock b) (a : Nat) {f : Region → Region}
    (hf : ∀ r, (f r).addr = r.addr ∧ (f r).hdr = r.hdr ∧ (f r).ftr = r.ftr) :
    WFblock (updateRegion b a f) := by
  obtain ⟨hlen, hsz, hreg, hpw, hlists⟩ := hb
  unfold updateRegion
  refine ⟨hlen, hsz, ?_, ?_, ?_⟩
  · intro r0 h0
    obtain ⟨r1, hr1, he⟩ := List.mem_map.1 h0
    obtain ⟨hw1, hw2, hw3, hw4⟩ := hreg r1 hr1
    by_cases h : r1.addr = a
    · rw [if_pos h] at he
      subst he
      obtain ⟨hfa, hfh, hff⟩ := hf r1
      exact ⟨by rw [hfh]; exact hw1, by rw [hfh, hff]; exact hw2,
        by rw [hfa]; exact hw3, by rw [hfa, hfh]; exact hw4⟩
    · rw [if_neg h] at he
      subst he
      exact ⟨hw1, hw2, hw3, hw4⟩
  · rw [List.pairwise_map]
    refine List.Pairwise.imp_of_mem ?_ hpw
    intro x c hx hc hd
    unfold regionDisjoint at hd ⊢
    by_cases h1 : x.addr = a
    · obtain ⟨hfa, hfh, -⟩ := hf x
      by_cases h2 : c.addr = a
      · obtain ⟨hga, hgh, -⟩ := hf c
        rw [if_pos h1, if_pos h2, hfa, hfh, hga, hgh]
        exact hd
      · rw [if_pos h1, if_neg h2, hfa, hfh]
        exact hd
    · by_cases h2 : c.addr = a
      · obtain ⟨hga, hgh, -⟩ := hf c
        rw [if_neg h1, if_pos h2, hga, hgh]
        exact hd
      · rw [if_neg h1, if_neg h2]
        exact hd
  · intro j hj
    obtain ⟨hnd, hent⟩ := hlists j hj
    refine ⟨hnd, ?_⟩
    intro x hx
    obtain ⟨hmod, ra, hra, haa, hua, hia⟩ := hent x hx
    by_cases h : ra.addr = a
    · obtain ⟨hfa, hfh, -⟩ := hf ra
      refine ⟨hmod, f ra, List.mem_map.2 ⟨ra, hra, by rw [if_pos h]⟩, ?_, ?_, ?_⟩
      · rw [hfa]
        exact haa
      · rw [hfh]
        exact hua
      · rw [hfh]
        exact hia
    · exact ⟨hmod, ra, List.mem_map.2 ⟨ra, hra, by rw [if_neg h]⟩, haa, hua, hia⟩

theorem WF_updateRegionGlobal {s : AState} (hs : WF s) (a : Nat) {f : Region → Region}
    (hf : ∀ r, (f r).addr = r.addr ∧ (f r).hdr = r.hdr ∧ (f r).ftr = r.ftr) :
    WF (updateRegionGlobal s a f) := by
  obtain ⟨h1, h2, h3, h4, h5⟩ := hs
  unfold updateRegionGlobal
  refine ⟨?_, ?_, ?_, h4, h5⟩
  · intro b0 h0
    obtain ⟨b1, hb1, he⟩ := List.mem_map.1 h0
    subst he
    exact WFblock_meta_map (h1 b1 hb1) a hf
  · rw [List.pairwise_map]
    refine List.Pairwise.imp_of_mem ?_ h2
    intro x c hx hc hd
    exact hd
  · intro b0 h0
    obtain ⟨b1, hb1, he⟩ := List.mem_map.1 h0
    subst he
    exact h3 b1 hb1

theorem findRegionGlobal_update {s : AState} (hs : WF s) {x a : Nat} {r : Region}
    (h : findRegionGlobal s x = some r) (f : Region → Region)
    (hf : ∀ r0, (f r0).addr = r0.addr ∧ (f r0).hdr = r0.hdr ∧ (f r0).ftr = r0.ftr) :
    findRegionGlobal (updateRegionGlobal s a f) x =
      some (if r.addr = a then f r else r) := by
  obtain ⟨b, hb, hfr⟩ := findRegionGlobal_elim h
  obtain ⟨hrm, hra⟩ := findRegion_mem hfr
  have hwb := ws_blockWF hs hb
  have hws2 := WF_updateRegionGlobal hs a hf
  have hwb2 := WFblock_meta_map hwb a hf
  have hbm2 : updateRegion b a f ∈ (updateRegionGlobal s a f).blocks := by
    unfold updateRegionGlobal
    exact List.mem_map.2 ⟨b, hb, rfl⟩
  have hs28 := wfb_size28 hwb hrm
  obtain ⟨hbd1, hbd2⟩ := wfb_bounds hwb hrm
  have hmem2 : (if r.addr = a then f r else r) ∈ (updateRegion b a f).regions := by
    unfold updateRegion
    by_cases h0 : r.addr = a
    · rw [if_pos h0]
      exact List.mem_map.2 ⟨r, hrm, by rw [if_pos h0]⟩
    · rw [if_neg h0]
      exact List.mem_map.2 ⟨r, hrm, by rw [if_neg h0]⟩
  have haddr2 : (if r.addr = a then f r else r).addr = x := by
    by_cases h0 : r.addr = a
    · rw [if_pos h0, (hf r).1]
      exact hra
    · rw [if_neg h0]
      exact hra
  have hcov1 : (updateRegion b a f).addr ≤ x := by
    show b.addr ≤ x
    omega
  have hcov2 : x < (updateRegion b a f).addr + (updateRegion b a f).size := by
    show x < b.addr + b.size
    omega
  rw [findRegionGlobal_eq hws2 hbm2 hcov1 hcov2]
  rw [← haddr2]
  exact findRegion_eq_some hwb2 hmem2

theorem realloc_spec {s : AState} {p n : Nat} (hs : WF s) (hp : ValidPtr s p)
    (h16 : p % 16 = 0) :
    (∀ q s3, realloc s p n = some (some q, s3) → q % 16 = 0) ∧
    (∀ ro s3, realloc s p n = some (ro, s3) → WF s3) ∧
    (∀ s3, realloc s p n = some (none, s3) →
      findRegionGlobal s3 (p - 4) = findRegionGlobal s (p - 4)) := by
  obtain ⟨b, r, hbmem, hrm, hraddr, hused, hfg, hp4⟩ := validPtr_elim hs hp
  have hwb := ws_blockWF hs hbmem
  have hs28 := wfb_size28 hwb hrm
  obtain ⟨hbd1, hbd2⟩ := wfb_bounds hwb hrm
  have hRRG : rawReadGlobal s (p - 4) = some (rawOfMeta r.hdr) := by
    rw [show p - 4 = r.addr from by omega]
    rw [rawReadGlobal_eq hs hbmem (by omega) (by omega), Block_rawRead_hdr hwb hrm]
  obtain ⟨hm1, hm2, hm3, hm4⟩ := malloc_spec hs n
  unfold realloc
  dsimp only
  simp only [sizeofAllocMetadata_eq]
  rw [hRRG]
  dsimp only
  rw [if_neg (by omega)]
  by_cases hpl : (rawOfMeta r.hdr).size - 2 * 4 = n
  · rw [if_pos hpl]
    refine ⟨?_, ?_, ?_⟩
    · intro q s3 h
      injection h with h
      injection h with h1 h2
      injection h1 with h1
      rw [← h1]
      exact h16
    · intro ro s3 h
      injection h with h
      injection h with h1 h2
      rw [← h2]
      exact hs
    · intro s3 h
      injection h with h
      injection h with h1 h2
      cases h1
  · rw [if_neg hpl]
    rcases hm : malloc s n with _ | ⟨ro1, s1⟩
    · refine ⟨?_, ?_, ?_⟩
      · intro q s3 h
        cases h
      · intro ro s3 h
        cases h
      · intro s3 h
        cases h
    · rcases ro1 with _ | np
      · dsimp only
        refine ⟨?_, ?_, ?_⟩
        · intro q s3 h
          injection h with h
          injection h with h1 h2
          cases h1
        · intro ro s3 h
          injection h with h
          injection h with h1 h2
          rw [← h2]
          exact hm1 _ _ hm
        · intro s3 h
          injection h with h
          injection h with h1 h2
          rw [← h2]
          rw [hm3 s1 hm (p - 4) r hfg, hfg]
      · dsimp only
        have hwfs1 : WF s1 := hm1 _ _ hm
        obtain ⟨hnp16, hnp4, rnp, hfrnp, hrnpa, hrnpu⟩ := hm2 np s1 hm
        have hpres : findRegionGlobal s1 (p - 4) = some r := hm4 np s1 hm (p - 4) r hfg hused
        rw [hpres]
        dsimp only
        obtain ⟨S2, hS2⟩ : ∃ x : AState, x = updateRegionGlobal s1 (np - 4) (fun r0 =>
            { r0 with data := fun i => if i < (if n < (rawOfMeta r.hdr).size - 2 * 4 then n
              else (rawOfMeta r.hdr).size - 2 * 4) then r.data i else r0.data i }) :=
          ⟨_, rfl⟩
        rw [← hS2]
        have hwfs2 : WF S2 := by
          rw [hS2]
          exact WF_updateRegionGlobal hwfs1 _ (fun r0 => ⟨rfl, rfl, rfl⟩)
        have hvp2 : ValidPtr S2 p := by
          refine ⟨by omega, ?_⟩
          rw [hS2]
          rw [findRegionGlobal_update hwfs1 hpres]
          · by_cases hc : r.addr = np - 4
            · rw [if_pos hc]
              simp [hraddr, hused]
            · rw [if_neg hc]
              simp [hraddr, hused]
          · exact fun r0 => ⟨rfl, rfl, rfl⟩
        obtain ⟨s3, hfree, hwf3⟩ := free_spec hwfs2 hvp2 h16
        rw [hfree]
        dsimp only
        refine ⟨?_, ?_, ?_⟩
        · intro q s4 h
          injection h with h
          injection h with h1 h2
          injection h1 with h1
          rw [← h1]
          exact hnp16
        · intro ro s4 h
          injection h with h
          injection h with h1 h2
          rw [← h2]
          exact hwf3
        · intro s4 h
          injection h with h
          injection h with h1 h2
          cases h1

theorem calloc_spec {s : AState} (hs : WF s) (num n : Nat) :
    (∀ q s3, calloc s num n = some (some q, s3) → q % 16 = 0) ∧
    (∀ ro s3, calloc s num n = some (ro, s3) → WF s3) ∧
    (n = 0 → calloc s num n = some (none, s)) ∧
    (∀ q s3, calloc s num n = some (some q, s3) →
      ∃ r2, findRegionGlobal s3 (q - 4) = some r2 ∧ r2.hdr.used = true ∧
        ∀ i, i < r2.hdr.size - 8 → r2.data i = 0) := by
  obtain ⟨hm1, hm2, hm3, hm4⟩ := malloc_spec hs (num * n)
  unfold calloc
  by_cases hn : n = 0
  · rw [if_pos hn]
    refine ⟨?_, ?_, fun _ => rfl, ?_⟩
    · intro q s3 h
      injection h with h
      injection h with h1 h2
      cases h1
    · intro ro s3 h
      injection h with h
      injection h with h1 h2
      rw [← h2]
      exact hs
    · intro q s3 h
      injection h with h
      injection h with h1 h2
      cases h1
  · rw [if_neg hn]
    rcases hm : malloc s (num * n) with _ | ⟨ro1, s1⟩
    · refine ⟨?_, ?_, fun h0 => absurd h0 hn, ?_⟩
      · intro q s3 h
        cases h
      · intro ro s3 h
        cases h
      · intro q s3 h
        cases h
    · rcases ro1 with _ | p
      · dsimp only
        refine ⟨?_, ?_, fun h0 => absurd h0 hn, ?_⟩
        · intro q s3 h
          injection h with h
          injection h with h1 h2
          cases h1
        · intro ro s3 h
          injection h with h
          injection h with h1 h2
          rw [← h2]
          exact hm1 _ _ hm
        · intro q s3 h
          injection h with h
          injection h with h1 h2
          cases h1
      · dsimp only
        have hwfs1 : WF s1 := hm1 _ _ hm
        obtain ⟨hp16, hp4, r1, hfr1, hr1a, hr1u⟩ := hm2 p s1 hm
        obtain ⟨b1, hb1, hfrb⟩ := findRegionGlobal_elim hfr1
        obtain ⟨hr1m, -⟩ := findRegion_mem hfrb
        have hwb1 := ws_blockWF hwfs1 hb1
        have hs28 := wfb_size28 hwb1 hr1m
        obtain ⟨hbd1, hbd2⟩ := wfb_bounds hwb1 hr1m
        have hRRG1 : rawReadGlobal s1 (p - 4) = some (rawOfMeta r1.hdr) := by
          rw [show p - 4 = r1.addr from hr1a.symm]
          rw [rawReadGlobal_eq hwfs1 hb1 (by omega) (by omega),
            Block_rawRead_hdr hwb1 hr1m]
        simp only [sizeofAllocMetadata_eq]
        rw [hRRG1]
        dsimp only
        obtain ⟨S2, hS2⟩ : ∃ x : AState, x = updateRegionGlobal s1 (p - 4) (fun r0 =>
            { r0 with data := fun i =>
              if i < (rawOfMeta r1.hdr).size - 2 * 4 then 0 else r0.data i }) := ⟨_, rfl⟩
        rw [← hS2]
        have hupd := @findRegionGlobal_update s1 hwfs1 (p - 4) (p - 4) r1 hfr1 (fun r0 =>
            { r0 with data := fun i =>
              if i < (rawOfMeta r1.hdr).size - 2 * 4 then 0 else r0.data i })
          (fun r0 => ⟨rfl, rfl, rfl⟩)
        rw [if_pos hr1a, ← hS2] at hupd
        refine ⟨?_, ?_, fun h0 => absurd h0 hn, ?_⟩
        · intro q s3 h
          injection h with h
          injection h with h1 h2
          injection h1 with h1
          rw [← h1]
          exact hp16
        · intro ro s3 h
          injection h with h
          injection h with h1 h2
          rw [← h2, hS2]
          exact WF_updateRegionGlobal hwfs1 _ (fun r0 => ⟨rfl, rfl, rfl⟩)
        · intro q s3 h
          injection h with h
          injection h with h1 h2
          injection h1 with h1
          subst h1
          rw [← h2]
          refine ⟨_, hupd, hr1u, ?_⟩
          intro i hi
          have hi2 : i < r1.hdr.size - 8 := hi
          have hsz : (rawOfMeta r1.hdr).size = r1.hdr.size := rfl
          show (if i < (rawOfMeta r1.hdr).size - 2 * 4 then 0 else r1.data i) = 0
          rw [if_pos (by omega)]

/-! ## WF corollaries and the zero-size allocation -/

theorem WF_agree {s : AState} (hs : WF s) : HdrFtrAgree s :=
  fun b hb r hr => wfb_agree (ws_blockWF hs hb) hr

theorem WF_min16 {s : AState} (hs : WF s) : Min16 s := by
  intro b hb r hr
  have h := wfb_size28 (ws_blockWF hs hb) hr
  show MINIMUM_REGION_SIZE ≤ r.hdr.size
  simp only [MINIMUM_REGION_SIZE_eq]
  omega

theorem malloc_succeeds_of {s : AState} {ba a : Nat} {s1 : AState} {b : Block}
    (hg : getBlockWithFreeRegion s 0 = some (some ba, s1))
    (hgb : getBlock s1 ba = some b) (hwb : WFblock b)
    (hca : Block_canAllocateSize b 8 = some a) :
    ∃ s2, malloc s 0 = some (some (a + sizeofAllocMetadata), s2) := by
  have hca8 : Block_canAllocateSize b (0 + REGION_OVERHEAD_SIZE) = some a := hca
  obtain ⟨b2, hb2⟩ := allocateRegion_ret hwb hca8
  unfold malloc
  rw [hg]
  dsimp only
  rw [hgb]
  dsimp only
  rw [hb2]
  dsimp only
  exact ⟨_, rfl⟩

theorem fresh_canAlloc {blk1 : Block} {A : Nat} (hA : A % 16 = 0)
    (hfl : blk1.freeLists = [[], [], [], [], [], [A + 124]])
    (hwfb : WFblock blk1) (hpgb : PAGE_SIZE ≤ blk1.size)
    (hregs : ∃ d1 d2, blk1.regions =
      [{ addr := A + 80, hdr := ⟨true, 44⟩, ftr := ⟨true, 44⟩, data := d1 },
       { addr := A + 124, hdr := ⟨false, blk1.size - 124⟩
         ftr := ⟨false, blk1.size - 124⟩, data := d2 }]) :
    Block_canAllocateSize blk1 8 = some (A + 124) := by
  obtain ⟨d1, d2, hregs⟩ := hregs
  have hr2m : (⟨A + 124, ⟨false, blk1.size - 124⟩, ⟨false, blk1.size - 124⟩, d2⟩ :
      Region) ∈ blk1.regions := by
    rw [hregs]
    simp
  have hrr : Block_rawRead blk1 (A + 124)
      = rawOfMeta ⟨false, blk1.size - 124⟩ := Block_rawRead_hdr hwfb hr2m
  have hconc : concatLists blk1.freeLists = [A + 124] := by
    rw [hfl]
    rfl
  unfold Block_canAllocateSize
  rw [hconc, List.find?_cons_of_pos _ (by
    rw [hrr, getSizeForAlignment_8 (by omega)]
    simp only [rawOfMeta, decide_eq_true_eq]
    simp only [PAGE_SIZE_eq] at hpgb
    omega)]

theorem malloc_zero {s : AState} (hs : WF s) (hos : osOk s) :
    ∃ p s2, malloc s 0 = some (some p, s2) ∧ p % 16 = 0 := by
  have hal : s.nextAddr % PAGE_SIZE = 0 := hs.2.2.2.1
  have hal4 : s.nextAddr % 4096 = 0 := by simpa using hal
  cases hemp : s.blocks.isEmpty with
  | true =>
    have hnil : s.blocks = [] := by
      cases hbl : s.blocks
      · rfl
      · rw [hbl] at hemp
        cases hemp
    obtain ⟨blk1, s1, hCH, hb1, he1, hn1, haddr, hszb, hpgb, hus, hfl, hregs, hwfb⟩ :=
      createHeapBlock_spec hos hal (PAGE_SIZE * 4)
    obtain ⟨S2, hS2⟩ : ∃ x : AState, x = { s1 with
        blocks := BlockList_addBlockToList s1.blocks blk1
        emptyBlockOverheadSize := blk1.usedSize } := ⟨_, rfl⟩
    have hg : getBlockWithFreeRegion s 0 = some (some blk1.addr, S2) := by
      unfold getBlockWithFreeRegion
      simp only [hemp, if_true]
      rw [hCH]
      dsimp only
      rw [← hS2]
    have hS2bl : S2.blocks = [blk1] := by
      rw [hS2]
      show BlockList_addBlockToList s1.blocks blk1 = [blk1]
      rw [hb1, hnil]
      rfl
    have hwfS2 : WF S2 := by
      refine WF_addBlock hs hwfb haddr hszb ?_ ?_
      · rw [hS2]
        show BlockList_addBlockToList s1.blocks blk1 = _
        rw [hb1]
      · rw [hS2]
        show s1.nextAddr = _
        rw [hn1]
    have hmem : blk1 ∈ S2.blocks := by
      rw [hS2bl]
      simp
    have hgb : getBlock S2 blk1.addr = some blk1 := getBlock_eq_some hwfS2 hmem
    have hca : Block_canAllocateSize blk1 8 = some (s.nextAddr + 124) :=
      fresh_canAlloc (by omega) hfl hwfb hpgb hregs
    obtain ⟨s2, hm⟩ := malloc_succeeds_of hg hgb hwfb hca
    refine ⟨_, s2, hm, ?_⟩
    simp only [sizeofAllocMetadata_eq]
    omega
  | false =>
    rcases hfind : s.blocks.find?
        (fun b => !Block_isFull b && (Block_canAllocateSize b 0).isSome) with _ | b
    · -- no usable block: a fresh one is created and serves the request
      obtain ⟨blk1, s1, hCH, hb1, he1, hn1, haddr, hszb, hpgb, hus, hfl, hregs, hwfb⟩ :=
        createHeapBlock_spec hos hal 0
      obtain ⟨S2, hS2⟩ : ∃ x : AState, x = { s1 with
          blocks := BlockList_addBlockToList s1.blocks blk1 } := ⟨_, rfl⟩
      have hg : getBlockWithFreeRegion s 0 = some (some blk1.addr, S2) := by
        unfold getBlockWithFreeRegion
        simp only [hemp, Bool.false_eq_true, if_false]
        rw [hfind]
        dsimp only
        rw [hCH]
        dsimp only
        rw [← hS2]
      have hwfS2 : WF S2 := by
        refine WF_addBlock hs hwfb haddr hszb ?_ ?_
        · rw [hS2]
          show BlockList_addBlockToList s1.blocks blk1 = _
          rw [hb1]
        · rw [hS2]
          show s1.nextAddr = _
          rw [hn1]
      have hmem : blk1 ∈ S2.blocks := by
        rw [hS2]
        show blk1 ∈ BlockList_addBlockToList s1.blocks blk1
        exact (blockInsert_perm s1.blocks blk1).mem_iff.2 (List.mem_cons_self _ _)
      have hgb : getBlock S2 blk1.addr = some blk1 := getBlock_eq_some hwfS2 hmem
      have hca : Block_canAllocateSize blk1 8 = some (s.nextAddr + 124) :=
        fresh_canAlloc (by omega) hfl hwfb hpgb hregs
      obtain ⟨s2, hm⟩ := malloc_succeeds_of hg hgb hwfb hca
      refine ⟨_, s2, hm, ?_⟩
      simp only [sizeofAllocMetadata_eq]
      omega
    · -- an existing block can serve the request
      have hg : getBlockWithFreeRegion s 0 = some (some b.addr, s) := by
        unfold getBlockWithFreeRegion
        simp only [hemp, Bool.false_eq_true, if_false]
        rw [hfind]
      have hbm : b ∈ s.blocks := List.mem_of_find?_eq_some hfind
      have hwb := ws_blockWF hs hbm
      have hgb : getBlock s b.addr = some b := getBlock_eq_some hs hbm
      have hp := List.find?_some hfind
      have hsome : (Block_canAllocateSize b 0).isSome = true := by
        simp only [Bool.and_eq_true] at hp
        exact hp.2
      rw [canAllocateSize_zero] at hsome
      rcases hca : Block_canAllocateSize b 8 with _ | a
      · rw [hca] at hsome
        cases hsome
      · have hca8 : Block_canAllocateSize b (0 + REGION_OVERHEAD_SIZE) = some a := hca
        obtain ⟨i, r, hi6, hgi, hr, haddr2, hu, hidx, hmod, hlt⟩ :=
          canAllocateSize_spec hwb hca8
        obtain ⟨s2, hm⟩ := malloc_succeeds_of hg hgb hwb hca
        refine ⟨_, s2, hm, ?_⟩
        simp only [sizeofAllocMetadata_eq]
        omega

/-! ## The no-splinter allocation path -/

theorem allocate_split_none {b : Block} (hb : WFblock b) {n a : Nat} {r : Region}
    (hca : Block_canAllocateSize b (n + REGION_OVERHEAD_SIZE) = some a)
    (hfr : findRegion b a = some r)
    (hsp : (FreeRegion_split r (n + REGION_OVERHEAD_SIZE)).2 = none) :
    (Block_allocateRegion b n).1 = some a ∧
    (∃ r2 ∈ (Block_allocateRegion b n).2.regions, r2.addr = a ∧ r2.hdr.used = true ∧
      r2.hdr.size = FreeRegion_getSizeForAlignment a (n + REGION_OVERHEAD_SIZE)) ∧
    (∀ x, a + FreeRegion_getSizeForAlignment a (n + REGION_OVERHEAD_SIZE) ≤ x →
      x < a + r.hdr.size →
      ∀ r2 ∈ (Block_allocateRegion b n).2.regions,
        ¬ (r2.addr ≤ x ∧ x < r2.addr + r2.hdr.size)) := by
  obtain ⟨i, rc, hi6, hgi, hrc, harc, hu, hidx, hmod, hlt⟩ := canAllocateSize_spec hb hca
  subst harc
  obtain ⟨hrm, hra⟩ := findRegion_mem hfr
  have hrrc : r = rc := wfb_addr_inj hb hrm hrc hra
  subst hrrc
  obtain ⟨B1, hB1⟩ : ∃ x : Block,
      x = setFreeList b i ((getFreeList b i).erase r.addr) := ⟨_, rfl⟩
  have hrem : Block_removeRegionFromFreeList b r.addr = B1 := by
    rw [hB1, removeFromFreeList_eq hb hrc, hidx]
  have hb1wf : WFblock B1 := by
    rw [hB1]
    exact WFblock_set_erase hb hi6 r.addr
  have hr1 : r ∈ B1.regions := by
    rw [hB1]
    exact hrc
  have hnl1 : ∀ j, j < 6 → r.addr ∉ getFreeList B1 j := by
    rw [hB1]
    exact erased_not_listed hb hi6 hgi
  have hfind : findRegion B1 r.addr = some r := findRegion_eq_some hb1wf hr1
  obtain ⟨HD, hHD⟩ : ∃ x : Region,
      x = FreeRegion_create r.addr
        (FreeRegion_getSizeForAlignment r.addr (n + REGION_OVERHEAD_SIZE)) r.data :=
    ⟨_, rfl⟩
  have hsfst : (FreeRegion_split r (n + REGION_OVERHEAD_SIZE)).1 = HD := by
    rw [hHD]
    exact split_fst r _
  have hhdaddr : HD.addr = r.addr := by
    rw [hHD]
    rfl
  have hhdsize : HD.hdr.size
      = FreeRegion_getSizeForAlignment r.addr (n + REGION_OVERHEAD_SIZE) := by
    rw [hHD]
    rfl
  obtain ⟨B2, hB2⟩ : ∃ x : Block,
      x = { B1 with
        regions := B1.regions.map (fun r0 => if r0.addr = r.addr then HD else r0) } :=
    ⟨_, rfl⟩
  have hb2wf : WFblock B2 := by
    rw [hB2]
    refine WFblock_replace_region hb1wf hr1 hhdaddr ?_ ?_ ?_ hnl1
    · rw [hhdsize]
      exact le_of_lt hlt
    · rw [hhdsize]
      have := getSizeForAlignment_ge r.addr (n + REGION_OVERHEAD_SIZE)
      omega
    · rw [hHD]
      rfl
  have hheadmem : HD ∈ B2.regions := by
    rw [hB2]
    exact List.mem_map.2 ⟨r, hr1, by rw [if_pos rfl]⟩
  have hres : Block_allocateRegion b n =
      (some (Block_useRegion B2 r.addr).1, (Block_useRegion B2 r.addr).2) := by
    unfold Block_allocateRegion
    dsimp only
    rw [hca]
    dsimp only
    rw [hrem, hfind]
    dsimp only
    rw [hsfst, hsp]
    dsimp only [Option.map, Block_addRegionToFreeList]
    rw [← hB2]
  have huse := useRegion_eq hb2wf hheadmem
  rw [hhdaddr] at huse
  rw [hres, huse]
  dsimp only
  refine ⟨rfl, ?_, ?_⟩
  · refine ⟨(⟨r.addr, ⟨true, HD.hdr.size⟩, ⟨true, HD.ftr.size⟩, HD.data⟩ : Region),
      List.mem_map.2 ⟨HD, hheadmem, by rw [if_pos hhdaddr]⟩, rfl, rfl, ?_⟩
    show HD.hdr.size = _
    exact hhdsize
  · intro x hx1 hx2 r2 hr2 hcov
    obtain ⟨r1, hr1m, he1⟩ := List.mem_map.1 hr2
    rw [hB2] at hr1m
    dsimp only at hr1m
    obtain ⟨r0, hr0m, he0⟩ := List.mem_map.1 hr1m
    have hr0b : r0 ∈ b.regions := by
      rw [hB1] at hr0m
      exact hr0m
    have hAge := getSizeForAlignment_ge r.addr (n + REGION_OVERHEAD_SIZE)
    by_cases hc0 : r0.addr = r.addr
    · rw [if_pos hc0] at he0
      subst he0
      rw [if_pos hhdaddr] at he1
      subst he1
      dsimp only at hcov
      rw [hhdsize] at hcov
      omega
    · rw [if_neg hc0] at he0
      subst he0
      rw [if_neg hc0] at he1
      subst he1
      have hner : r0 ≠ r := fun h => hc0 (by rw [h])
      have hd := wfb_disjoint_all hb r0 hr0b r hrm hner
      unfold regionDisjoint at hd
      omega

/-! ## The claims -/

/-- C1: every non-nil pointer returned by malloc (allocate), realloc
(reallocate) or calloc (zero_allocate) is 16-byte aligned.  For realloc the
input pointer is assumed to be a live allocation at a 16-byte-aligned
address, as produced by the allocator itself. -/
theorem C1_alignment (s : AState) (p n num : Nat) (hs : WF s)
    (hp : ValidPtr s p) (hp16 : p % 16 = 0) :
    (∀ q, retOf (malloc s n) = some (some q) → q % 16 = 0) ∧
    (∀ q, retOf (realloc s p n) = some (some q) → q % 16 = 0) ∧
    (∀ q, retOf (calloc s num n) = some (some q) → q % 16 = 0) := by
  refine ⟨?_, ?_, ?_⟩
  · intro q h
    rcases hm : malloc s n with _ | ⟨r, s2⟩
    · rw [hm] at h
      simp [retOf] at h
    · rw [hm] at h
      simp only [retOf] at h
      injection h with h
      subst h
      exact ((malloc_spec hs n).2.1 q s2 hm).1
  · intro q h
    rcases hm : realloc s p n with _ | ⟨r, s3⟩
    · rw [hm] at h
      simp [retOf] at h
    · rw [hm] at h
      simp only [retOf] at h
      injection h with h
      subst h
      exact (realloc_spec hs hp hp16).1 q s3 hm
  · intro q h
    rcases hm : calloc s num n with _ | ⟨r, s3⟩
    · rw [hm] at h
      simp [retOf] at h
    · rw [hm] at h
      simp only [retOf] at h
      injection h with h
      subst h
      exact (calloc_spec hs num n).1 q s3 hm

theorem C1_alignment_witness :
    WF stLive ∧ ValidPtr stLive 4224 ∧ 4224 % 16 = 0 ∧
    ((∀ q, retOf (malloc stLive 5) = some (some q) → q % 16 = 0) ∧
     (∀ q, retOf (realloc stLive 4224 5) = some (some q) → q % 16 = 0) ∧
     (∀ q, retOf (calloc stLive 2 5) = some (some q) → q % 16 = 0)) :=
  ⟨by decide, by decide, by decide,
   C1_alignment stLive 4224 5 2 (by decide) (by decide) (by decide)⟩

/-- C2: after every public call (malloc, free, realloc, calloc) the 4-byte
header and 4-byte footer of every region of every live block encode the same
used bit and the same size.  The free/realloc pointer is assumed to be a live
16-byte-aligned allocation. -/
theorem C2_header_footer_agree (s : AState) (p n num : Nat) (hs : WF s)
    (hp : ValidPtr s p) (hp16 : p % 16 = 0) :
    AgreeOpt (stOf (malloc s n)) ∧ AgreeOpt (free s p) ∧
    AgreeOpt (stOf (realloc s p n)) ∧ AgreeOpt (stOf (calloc s num n)) := by
  refine ⟨?_, ?_, ?_, ?_⟩
  · rcases hm : malloc s n with _ | ⟨r, s2⟩
    · trivial
    · exact WF_agree ((malloc_spec hs n).1 r s2 hm)
  · obtain ⟨s1, hf, hwf⟩ := free_spec hs hp hp16
    rw [hf]
    exact WF_agree hwf
  · rcases hm : realloc s p n with _ | ⟨ro, s3⟩
    · trivial
    · exact WF_agree ((realloc_spec hs hp hp16).2.1 ro s3 hm)
  · rcases hm : calloc s num n with _ | ⟨ro, s3⟩
    · trivial
    · exact WF_agree ((calloc_spec hs num n).2.1 ro s3 hm)

theorem C2_header_footer_agree_witness :
    WF stLive ∧ ValidPtr stLive 4224 ∧ 4224 % 16 = 0 ∧
    (AgreeOpt (stOf (malloc stLive 5)) ∧ AgreeOpt (free stLive 4224) ∧
     AgreeOpt (stOf (realloc stLive 4224 5)) ∧
     AgreeOpt (stOf (calloc stLive 2 5))) :=
  ⟨by decide, by decide, by decide,
   C2_header_footer_agree stLive 4224 5 2 (by decide) (by decide) (by decide)⟩

/-- C3 (corrected): when FreeRegion_split returns no splinter, the enclosing
allocation does proceed at the free region's address, but the resulting used
region's size is the alignment-rounded request
(FreeRegion_getSizeForAlignment), not the whole free region's size; the
remaining slack bytes of the original free region are left outside every
region of the block. -/
theorem C3_split_none_slack {b : Block} (hb : WFblock b) {n a : Nat}
    {r : Region}
    (hca : Block_canAllocateSize b (n + REGION_OVERHEAD_SIZE) = some a)
    (hfr : findRegion b a = some r)
    (hsp : (FreeRegion_split r (n + REGION_OVERHEAD_SIZE)).2 = none) :
    (Block_allocateRegion b n).1 = some a ∧
    (∃ r2 ∈ (Block_allocateRegion b n).2.regions, r2.addr = a ∧
      r2.hdr.used = true ∧
      r2.hdr.size = FreeRegion_getSizeForAlignment a (n + REGION_OVERHEAD_SIZE)) ∧
    (∀ x, a + FreeRegion_getSizeForAlignment a (n + REGION_OVERHEAD_SIZE) ≤ x →
      x < a + r.hdr.size →
      ∀ r2 ∈ (Block_allocateRegion b n).2.regions,
        ¬ (r2.addr ≤ x ∧ x < r2.addr + r2.hdr.size)) :=
  allocate_split_none hb hca hfr hsp

theorem C3_split_none_slack_witness :
    WFblock blkSplit ∧
    Block_canAllocateSize blkSplit (24 + REGION_OVERHEAD_SIZE) = some 4220 ∧
    ((Block_allocateRegion blkSplit 24).1 = some 4220 ∧
     (∃ r2 ∈ (Block_allocateRegion blkSplit 24).2.regions, r2.addr = 4220 ∧
       r2.hdr.used = true ∧
       r2.hdr.size = FreeRegion_getSizeForAlignment 4220 (24 + REGION_OVERHEAD_SIZE)) ∧
     (∀ x, 4220 + FreeRegion_getSizeForAlignment 4220 (24 + REGION_OVERHEAD_SIZE) ≤ x →
       x < 4220 + 64 →
       ∀ r2 ∈ (Block_allocateRegion blkSplit 24).2.regions,
         ¬ (r2.addr ≤ x ∧ x < r2.addr + r2.hdr.size))) :=
  ⟨by decide, by decide,
   @C3_split_none_slack blkSplit (by decide) 24 4220
     ⟨4220, ⟨false, 64⟩, ⟨false, 64⟩, zeroData⟩ (by decide) rfl rfl⟩

/-- C3 counterexample to the original wording: in blkSplit the free region at
4220 has size 64; allocating 24 bytes makes split return no splinter
(splinter 16 < 28), and the allocation proceeds — but the resulting used
region has size 48, not 64, and byte 4270 of the original free region is left
outside every region of the block. -/
theorem C3_split_none_slack_cex :
    (FreeRegion_split (⟨4220, ⟨false, 64⟩, ⟨false, 64⟩, zeroData⟩ : Region)
        (24 + REGION_OVERHEAD_SIZE)).2 = none ∧
    (Block_allocateRegion blkSplit 24).1 = some 4220 ∧
    (Block_allocateRegion blkSplit 24).2.regions.map
      (fun r => (r.addr, r.hdr.size, r.hdr.used)) =
      [(4176, 44, true), (4220, 48, true)] ∧
    ¬ (48 = 64) ∧
    (∀ r2 ∈ (Block_allocateRegion blkSplit 24).2.regions,
      ¬ (r2.addr ≤ 4270 ∧ 4270 < r2.addr + r2.hdr.size)) :=
  ⟨rfl, by decide, by decide, by decide, by decide⟩

/-- C4: the extent-list insertion walk advances while the new block's address
is BELOW the next element (the comparison is inverted), so a block whose
address falls between two live extents is appended after the higher one: the
list [4096, 12288] becomes [4096, 12288, 8192], which is not ascending. -/
theorem C4_insert_not_sorted :
    (BlockList_addBlockToList [blkAt 4096, blkAt 12288] (blkAt 8192)).map
      Block.addr = [4096, 12288, 8192] ∧
    ¬ ((BlockList_addBlockToList [blkAt 4096, blkAt 12288] (blkAt 8192)).map
        Block.addr).Pairwise (fun x y => x ≤ y) :=
  ⟨by decide, by decide⟩

/-- C5: free reads the header at pointer - sizeof(AllocMetadata) before any
nil test (the code has no nil test at all), so free(nil) dereferences address
-4 instead of returning with the state unchanged: in the model free s 0 is
undefined behaviour even from a well-formed state. -/
theorem C5_free_nil_ub : WF stLive ∧ free stLive 0 = none :=
  ⟨by decide, rfl⟩

/-- C6: realloc computes payloadLength from the header of its pointer
argument before the nil test, so realloc(nil, n) dereferences address -4 and
is undefined behaviour, while malloc(n) from the same state succeeds: the two
are not equivalent. -/
theorem C6_realloc_nil_ub :
    WF stLive ∧ realloc stLive 0 5 = none ∧ (malloc stLive 5).isSome = true :=
  ⟨by decide, rfl, by decide⟩

/-- C7 (corrected): after every public call every region of every live block
has size at least 16 bytes; but region sizes are NOT all multiples of 16 (the
bookkeeping region created at the start of each block has size 44). -/
theorem C7_min_region_size (s : AState) (p n num : Nat) (hs : WF s)
    (hp : ValidPtr s p) (hp16 : p % 16 = 0) :
    Min16Opt (stOf (malloc s n)) ∧ Min16Opt (free s p) ∧
    Min16Opt (stOf (realloc s p n)) ∧ Min16Opt (stOf (calloc s num n)) := by
  refine ⟨?_, ?_, ?_, ?_⟩
  · rcases hm : malloc s n with _ | ⟨r, s2⟩
    · trivial
    · exact WF_min16 ((malloc_spec hs n).1 r s2 hm)
  · obtain ⟨s1, hf, hwf⟩ := free_spec hs hp hp16
    rw [hf]
    exact WF_min16 hwf
  · rcases hm : realloc s p n with _ | ⟨ro, s3⟩
    · trivial
    · exact WF_min16 ((realloc_spec hs hp hp16).2.1 ro s3 hm)
  · rcases hm : calloc s num n with _ | ⟨ro, s3⟩
    · trivial
    · exact WF_min16 ((calloc_spec hs num n).2.1 ro s3 hm)

theorem C7_min_region_size_witness :
    WF stLive ∧ ValidPtr stLive 4224 ∧ 4224 % 16 = 0 ∧
    (Min16Opt (stOf (malloc stLive 5)) ∧ Min16Opt (free stLive 4224) ∧
     Min16Opt (stOf (realloc stLive 4224 5)) ∧
     Min16Opt (stOf (calloc stLive 2 5))) :=
  ⟨by decide, by decide, by decide,
   C7_min_region_size stLive 4224 5 2 (by decide) (by decide) (by decide)⟩

/-- C7 counterexample to the multiple-of-16 part: after the very first
malloc from the empty state the fresh block holds its 44-byte bookkeeping
region, whose size is not a multiple of 16. -/
theorem C7_min_region_size_cex :
    WF stInit ∧
    (stOf (malloc stInit 5)).map (fun s1 => s1.blocks.all (fun b =>
      b.regions.all (fun r => r.hdr.size % 16 == 0))) = some false :=
  ⟨by decide, by decide⟩

/-- C8: if realloc on a live 16-byte-aligned allocation p fails to obtain the
new allocation, it returns nil and p's region is left intact: the region
lookup at p is unchanged (same used bit, size and payload bytes) and p is
still a valid live allocation afterwards. -/
theorem C8_realloc_fail_intact (s : AState) (p n : Nat) (hs : WF s)
    (hp : ValidPtr s p) (hp16 : p % 16 = 0) :
    ∀ s3, realloc s p n = some (none, s3) →
      findRegionGlobal s3 (p - 4) = findRegionGlobal s (p - 4) ∧
      ValidPtr s3 p := by
  intro s3 h
  have he := (realloc_spec hs hp hp16).2.2 s3 h
  refine ⟨he, hp.1, ?_⟩
  rw [he]
  exact hp.2

theorem C8_realloc_fail_intact_witness :
    WF stFull ∧ ValidPtr stFull 4224 ∧ 4224 % 16 = 0 ∧
    retOf (realloc stFull 4224 100) = some none ∧
    (∀ s3, realloc stFull 4224 100 = some (none, s3) →
      findRegionGlobal s3 (4224 - 4) = findRegionGlobal stFull (4224 - 4) ∧
      ValidPtr s3 4224) :=
  ⟨by decide, by decide, by decide, by decide,
   C8_realloc_fail_intact stFull 4224 100 (by decide) (by decide) (by decide)⟩

/-- C9: calloc (zero_allocate) returns nil when the element size is 0, and
whenever it returns a non-nil pointer q, the region at q is used and every
byte of its payload is 0. -/
theorem C9_zero_allocate (s : AState) (num n : Nat) (hs : WF s) :
    (n = 0 → retOf (calloc s num n) = some none) ∧
    (∀ q s3, calloc s num n = some (some q, s3) →
      ∃ r2, findRegionGlobal s3 (q - 4) = some r2 ∧ r2.hdr.used = true ∧
        ∀ i, i < r2.hdr.size - 8 → r2.data i = 0) := by
  obtain ⟨-, -, h3, h4⟩ := calloc_spec hs num n
  refine ⟨fun hn => ?_, h4⟩
  rw [h3 hn]
  rfl

theorem C9_zero_allocate_witness :
    WF stOne ∧ retOf (calloc stOne 2 3) = some (some 4224) ∧
    ((3 = 0 → retOf (calloc stOne 2 3) = some none) ∧
     (∀ q s3, calloc stOne 2 3 = some (some q, s3) →
       ∃ r2, findRegionGlobal s3 (q - 4) = some r2 ∧ r2.hdr.used = true ∧
         ∀ i, i < r2.hdr.size - 8 → r2.data i = 0)) :=
  ⟨by decide, by decide, C9_zero_allocate stOne 2 3 (by decide)⟩

/-- C10: from any well-formed state in which the next page request succeeds,
malloc 0 returns a non-nil 16-byte-aligned pointer: the zero-size request is
padded to the minimum region size and served like any other allocation. -/
theorem C10_malloc_zero_nonnil (s : AState) (hs : WF s) (hos : osOk s) :
    ∃ p s2, malloc s 0 = some (some p, s2) ∧ p % 16 = 0 :=
  malloc_zero hs hos

theorem C10_malloc_zero_nonnil_witness :
    WF stOne ∧ osOk stOne ∧
    (∃ p s2, malloc stOne 0 = some (some p, s2) ∧ p % 16 = 0) :=
  ⟨by decide, by decide, C10_malloc_zero_nonnil stOne (by decide) (by decide)⟩

end Halloc
